import Mathlib

/-!
# tuff-native: the Everything search adapter and the OCR adapter

A shallow embedding of `packages/tuff-native/native/src/everything/addon.cc` and, further
down, of `packages/tuff-native/native/src/platform/windows/winrt_ocr.cpp`.

* `std::wstring` is a list of UTF-16 code units, `std::string` payloads are lists of
  bytes, and diagnostic messages are Lean strings.
* `DWORD`/`uint32_t` values are natural numbers reduced modulo `2 ^ 32` where the
  source converts or where an external function returns them.
* Function pointers are `Option Nat` (`none` is `nullptr`).
* The operating system and the Everything SDK are a parameter `World`; every call that
  reaches them is recorded in a trace of `Event`s, and the answers of the SDK may depend
  on the trace so far (the SDK keeps global mutable state).
-/

namespace Everything

/-! ## Strings and JavaScript values -/

/-- A `std::wstring`: UTF-16 code units. -/
abbrev WString := List Nat

/-- A `std::string` holding UTF-8 bytes. -/
abbrev Bytes := List Nat

/-- The wide literal `L"..."` of an ASCII text. -/
def L (s : String) : WString := s.toList.map Char.toNat

/-- A JavaScript value as seen through N-API. A number carries what `Int32Value()`
yields for it, a string carries what `Utf8Value()` yields for it. -/
inductive JsValue where
  | undefined
  | null
  | boolean (value : Bool)
  | number (int32Value : Int)
  | string (utf8Value : Bytes)
  | object (props : List (String × JsValue))

namespace JsValue

def IsObject : JsValue → Bool
  | object _ => true
  | _ => false

def IsNumber : JsValue → Bool
  | number _ => true
  | _ => false

def IsBoolean : JsValue → Bool
  | boolean _ => true
  | _ => false

def IsString : JsValue → Bool
  | string _ => true
  | _ => false

/-- The value of `Napi::Object::Has(key)`. -/
def Has (v : JsValue) (key : String) : Bool :=
  match v with
  | object props => (props.lookup key).isSome
  | _ => false

/-- The value of `Napi::Object::Get(key)`: a missing property reads as `undefined`. -/
def Get (v : JsValue) (key : String) : JsValue :=
  match v with
  | object props => (props.lookup key).getD undefined
  | _ => undefined

/-- The value of `As<Napi::Number>().Int32Value()`. -/
def Int32Value : JsValue → Int
  | number n => n
  | _ => 0

/-- The value of `As<Napi::Boolean>().Value()`. -/
def Value : JsValue → Bool
  | boolean b => b
  | _ => false

/-- The value of `As<Napi::String>().Utf8Value()`. -/
def Utf8Value : JsValue → Bytes
  | string s => s
  | _ => []

end JsValue

/-- The arguments of a call, `Napi::CallbackInfo`: `info[i]` past the end is `undefined`. -/
abbrev CallbackInfo := List JsValue

def CallbackInfo.arg (info : CallbackInfo) (i : Nat) : JsValue :=
  info.getD i JsValue.undefined

/-! ## Machine integers -/

/-- The conversion `static_cast<uint32_t>` of a signed integer. -/
def toUInt32 (v : Int) : Nat := (v % 2 ^ 32).toNat

/-- The function `std::clamp(v, lo, hi)`. -/
def clamp (v lo hi : Int) : Int :=
  if v < lo then lo else if hi < v then hi else v

/-- The function `std::max(a, b)`. -/
def stdMax (a b : Int) : Int :=
  if a < b then b else a

/-! ## Search options -/

def kDefaultMaxResults : Nat := 50
def kMaxResultsLimit : Nat := 5000

structure SearchOptions where
  maxResults : Nat := kDefaultMaxResults
  offset : Nat := 0
  sort : Nat := 3
  regex : Bool := false
  matchCase : Bool := false
  matchPath : Bool := false
  matchWholeWord : Bool := false
  deriving DecidableEq, Repr

/-- The `maxResults` block of `ParseSearchOptions`. -/
def parseMaxResults (rawOptions : JsValue) (options : SearchOptions) : SearchOptions :=
  if rawOptions.Has "maxResults" && (rawOptions.Get "maxResults").IsNumber then
    let maxResults := (rawOptions.Get "maxResults").Int32Value
    { options with maxResults := toUInt32 (clamp maxResults 1 (kMaxResultsLimit : Int)) }
  else options

/-- The `offset` block of `ParseSearchOptions`. -/
def parseOffset (rawOptions : JsValue) (options : SearchOptions) : SearchOptions :=
  if rawOptions.Has "offset" && (rawOptions.Get "offset").IsNumber then
    let offset := (rawOptions.Get "offset").Int32Value
    { options with offset := toUInt32 (stdMax offset 0) }
  else options

/-- The `sort` block of `ParseSearchOptions`. -/
def parseSort (rawOptions : JsValue) (options : SearchOptions) : SearchOptions :=
  if rawOptions.Has "sort" && (rawOptions.Get "sort").IsNumber then
    let sort := (rawOptions.Get "sort").Int32Value
    { options with sort := toUInt32 (stdMax sort 0) }
  else options

/-- The `regex` block of `ParseSearchOptions`. -/
def parseRegex (rawOptions : JsValue) (options : SearchOptions) : SearchOptions :=
  if rawOptions.Has "regex" && (rawOptions.Get "regex").IsBoolean then
    { options with regex := (rawOptions.Get "regex").Value }
  else options

/-- The `matchCase` block of `ParseSearchOptions`. -/
def parseMatchCase (rawOptions : JsValue) (options : SearchOptions) : SearchOptions :=
  if rawOptions.Has "matchCase" && (rawOptions.Get "matchCase").IsBoolean then
    { options with matchCase := (rawOptions.Get "matchCase").Value }
  else options

/-- The `matchPath` block of `ParseSearchOptions`. -/
def parseMatchPath (rawOptions : JsValue) (options : SearchOptions) : SearchOptions :=
  if rawOptions.Has "matchPath" && (rawOptions.Get "matchPath").IsBoolean then
    { options with matchPath := (rawOptions.Get "matchPath").Value }
  else options

/-- The `matchWholeWord` block of `ParseSearchOptions`. -/
def parseMatchWholeWord (rawOptions : JsValue) (options : SearchOptions) : SearchOptions :=
  if rawOptions.Has "matchWholeWord" && (rawOptions.Get "matchWholeWord").IsBoolean then
    { options with matchWholeWord := (rawOptions.Get "matchWholeWord").Value }
  else options

/-- The function `ParseSearchOptions`: the options after the call (it always returns
`true`, so only the updated `options` is modelled). Its seven blocks run in source
order. -/
def ParseSearchOptions (info : CallbackInfo) (options : SearchOptions) : SearchOptions :=
  if info.length < 2 || !(info.arg 1).IsObject then
    options
  else
    let rawOptions := info.arg 1
    let options := parseMaxResults rawOptions options
    let options := parseOffset rawOptions options
    let options := parseSort rawOptions options
    let options := parseRegex rawOptions options
    let options := parseMatchCase rawOptions options
    let options := parseMatchPath rawOptions options
    let options := parseMatchWholeWord rawOptions options
    options

/-! ## Timestamps -/

def kEverythingRequestFileName : Nat := 0x00000001
def kEverythingRequestPath : Nat := 0x00000002
def kEverythingRequestFullPathAndFileName : Nat := 0x00000004
def kEverythingRequestSize : Nat := 0x00000010
def kEverythingRequestDateCreated : Nat := 0x00000020
def kEverythingRequestDateModified : Nat := 0x00000040

def kWindowsEpochOffset100Ns : Nat := 116444736000000000

/-- A `FILETIME`: two `DWORD` halves. -/
structure FILETIME where
  dwLowDateTime : Nat
  dwHighDateTime : Nat
  deriving DecidableEq, Repr

/-- The `QuadPart` of the `ULARGE_INTEGER` assembled from a `FILETIME`. -/
def FILETIME.QuadPart (fileTime : FILETIME) : Nat :=
  (fileTime.dwHighDateTime % 2 ^ 32) * 2 ^ 32 + fileTime.dwLowDateTime % 2 ^ 32

/-- The function `FileTimeToUnixMillis`. The subtraction is the unsigned 64-bit one
(modulo `2 ^ 64`); the result is below `2 ^ 53`, so the final conversion to `double`
is exact and the result is kept as an integer. -/
def FileTimeToUnixMillis (fileTime : FILETIME) : Int :=
  let value := fileTime.QuadPart
  if value ≤ kWindowsEpochOffset100Ns then
    0
  else
    (((value + 2 ^ 64 - kWindowsEpochOffset100Ns) % 2 ^ 64) / 10000 : Nat)

/-! ## The outside world -/

/-- A call that reaches the loader of the operating system or the Everything SDK. -/
inductive Event where
  | LoadLibraryW (path : WString)
  | GetProcAddress (hModule : Option Nat) (symbol : String)
  | FreeLibrary (hModule : Nat)
  | GetMajorVersion
  | GetMinorVersion
  | GetRevision
  | GetBuildNumber
  | SetSearchW (text : WString)
  | SetRequestFlags (flags : Nat)
  | SetSort (sortType : Nat)
  | SetMax (max : Nat)
  | SetOffset (offset : Nat)
  | SetMatchCase (enable : Bool)
  | SetMatchPath (enable : Bool)
  | SetMatchWholeWord (enable : Bool)
  | SetRegex (enable : Bool)
  | QueryW (wait : Bool)
  | GetLastError
  | GetNumResults
  | GetResultFullPathNameW (index : Nat) (nMaxCount : Nat)
  | GetResultFileNameW (index : Nat)
  | GetResultSize (index : Nat)
  | GetResultDateModified (index : Nat)
  | GetResultDateCreated (index : Nat)
  | IsFolderResult (index : Nat)
  deriving DecidableEq, Repr

/-- The operating system and the Everything SDK as the adapter sees them. The loader
answers by path and by module handle; the SDK answers may depend on every call made so
far. A `BOOL` is an integer (`0` is `FALSE`, `1` is `TRUE`). -/
structure World where
  /-- Whether the build is the 64-bit one (`_WIN64`). -/
  win64 : Bool
  /-- The process environment. -/
  environment : String → Option WString
  /-- `LoadLibraryW`: a module handle, or `nullptr` together with the value `GetLastError()`
  then reports. -/
  LoadLibraryW : WString → Except Nat Nat
  /-- `GetProcAddress`: the address of an exported symbol, or `nullptr`. -/
  GetProcAddress : Option Nat → String → Option Nat
  /-- `MultiByteToWideChar(CP_UTF8, MB_ERR_INVALID_CHARS, value, size, buffer, cch)`: the
  return value and the code units written to the buffer. -/
  MultiByteToWideChar : Bytes → Nat → Int × WString
  /-- `WideCharToMultiByte(CP_UTF8, 0, value, size, buffer, cb, nullptr, nullptr)`: the
  return value and the bytes written to the buffer. -/
  WideCharToMultiByte : WString → Nat → Int × Bytes
  GetMajorVersion : List Event → Nat
  GetMinorVersion : List Event → Nat
  GetRevision : List Event → Nat
  GetBuildNumber : List Event → Nat
  QueryW : List Event → Bool → Int
  GetLastError : List Event → Nat
  GetNumResults : List Event → Nat
  GetResultFileNameW : List Event → Nat → Option WString
  /-- `Everything_GetResultFullPathNameW(index, buffer, nMaxCount)`: the return value and
  the code units written to the buffer. -/
  GetResultFullPathNameW : List Event → Nat → Nat → Nat × WString
  GetResultSize : List Event → Nat → Int × Int
  GetResultDateModified : List Event → Nat → Int × FILETIME
  GetResultDateCreated : List Event → Nat → Int × FILETIME
  IsFolderResult : List Event → Nat → Int

/-- The contents of a zero-initialised buffer of `size` units after `written` was stored
at its start. -/
def fillBuffer (size : Nat) (written : List Nat) : List Nat :=
  (written ++ List.replicate size 0).take size

/-- The Win32 function `GetEnvironmentVariableW(key, buffer, nSize)` over the process
environment: `0` for an undefined variable, the required size (terminator included) when
the buffer is too small, else the number of units stored (terminator excluded). -/
def GetEnvironmentVariableW (W : World) (key : String) (nSize : Nat) : Nat × WString :=
  match W.environment key with
  | none => (0, [])
  | some v => if nSize ≤ v.length then (v.length + 1, []) else (v.length, v)

/-- The function `ReadEnvVar`. -/
def ReadEnvVar (W : World) (key : String) : WString :=
  let required := (GetEnvironmentVariableW W key 0).1
  if required = 0 then
    []
  else
    let r := GetEnvironmentVariableW W key required
    let value := fillBuffer required r.2
    let written := r.1
    if written = 0 then
      []
    else
      value.take written

/-- The function `JoinPath`; `92` is the backslash and `47` the slash. -/
def JoinPath (base file : WString) : WString :=
  if base.isEmpty then
    file
  else if base.getLast? = some 92 || base.getLast? = some 47 then
    base ++ file
  else
    base ++ [92] ++ file

/-- The function `Utf8ToWide`. -/
def Utf8ToWide (W : World) (value : Bytes) : WString :=
  if value.isEmpty then
    []
  else
    let needed := (W.MultiByteToWideChar value 0).1
    if needed ≤ 0 then
      []
    else
      let r := W.MultiByteToWideChar value needed.toNat
      let wide := fillBuffer needed.toNat r.2
      if r.1 ≤ 0 then [] else wide

/-- The function `WideToUtf8`. -/
def WideToUtf8 (W : World) (value : WString) : Bytes :=
  if value.isEmpty then
    []
  else
    let needed := (W.WideCharToMultiByte value 0).1
    if needed ≤ 0 then
      []
    else
      let r := W.WideCharToMultiByte value needed.toNat
      let utf8 := fillBuffer needed.toNat r.2
      if r.1 ≤ 0 then [] else utf8

/-! ## The resolver -/

/-- The class `EverythingApi`: the resolved function pointers and the private members
`module_`, `loaded_` and `version_`. -/
structure EverythingApi where
  setSearch : Option Nat := none
  setRequestFlags : Option Nat := none
  setSort : Option Nat := none
  setMax : Option Nat := none
  setOffset : Option Nat := none
  query : Option Nat := none
  getLastError : Option Nat := none
  getNumResults : Option Nat := none
  getResultFileName : Option Nat := none
  getResultFullPathName : Option Nat := none
  getResultSize : Option Nat := none
  getResultDateModified : Option Nat := none
  getResultDateCreated : Option Nat := none
  isFolderResult : Option Nat := none
  setMatchPath : Option Nat := none
  setMatchCase : Option Nat := none
  setMatchWholeWord : Option Nat := none
  setRegex : Option Nat := none
  module_ : Option Nat := none
  loaded_ : Bool := false
  version_ : String := ""
  deriving DecidableEq, Repr

/-- The nine members `ResolveRequiredSymbols` fills. -/
inductive Required where
  | setSearch | setRequestFlags | setMax | setOffset | query | getLastError
  | getNumResults | getResultFileName | getResultFullPathName
  deriving DecidableEq, Repr

/-- The symbol each required member is resolved from. -/
def Required.symbol : Required → String
  | .setSearch => "Everything_SetSearchW"
  | .setRequestFlags => "Everything_SetRequestFlags"
  | .setMax => "Everything_SetMax"
  | .setOffset => "Everything_SetOffset"
  | .query => "Everything_QueryW"
  | .getLastError => "Everything_GetLastError"
  | .getNumResults => "Everything_GetNumResults"
  | .getResultFileName => "Everything_GetResultFileNameW"
  | .getResultFullPathName => "Everything_GetResultFullPathNameW"

/-- The order of the conjunction in `ResolveRequiredSymbols`. -/
def requiredOrder : List Required :=
  [.setSearch, .setRequestFlags, .setMax, .setOffset, .query, .getLastError,
   .getNumResults, .getResultFileName, .getResultFullPathName]

def EverythingApi.getRequired (api : EverythingApi) : Required → Option Nat
  | .setSearch => api.setSearch
  | .setRequestFlags => api.setRequestFlags
  | .setMax => api.setMax
  | .setOffset => api.setOffset
  | .query => api.query
  | .getLastError => api.getLastError
  | .getNumResults => api.getNumResults
  | .getResultFileName => api.getResultFileName
  | .getResultFullPathName => api.getResultFullPathName

def EverythingApi.setRequired (api : EverythingApi) (m : Required) (p : Option Nat) :
    EverythingApi :=
  match m with
  | .setSearch => { api with setSearch := p }
  | .setRequestFlags => { api with setRequestFlags := p }
  | .setMax => { api with setMax := p }
  | .setOffset => { api with setOffset := p }
  | .query => { api with query := p }
  | .getLastError => { api with getLastError := p }
  | .getNumResults => { api with getNumResults := p }
  | .getResultFileName => { api with getResultFileName := p }
  | .getResultFullPathName => { api with getResultFullPathName := p }

/-- The nine members the first block of `LoadOptional` calls fills. -/
inductive Optional where
  | setSort | getResultSize | getResultDateModified | getResultDateCreated
  | isFolderResult | setMatchPath | setMatchCase | setMatchWholeWord | setRegex
  deriving DecidableEq, Repr

def Optional.symbol : Optional → String
  | .setSort => "Everything_SetSort"
  | .getResultSize => "Everything_GetResultSize"
  | .getResultDateModified => "Everything_GetResultDateModified"
  | .getResultDateCreated => "Everything_GetResultDateCreated"
  | .isFolderResult => "Everything_IsFolderResult"
  | .setMatchPath => "Everything_SetMatchPath"
  | .setMatchCase => "Everything_SetMatchCase"
  | .setMatchWholeWord => "Everything_SetMatchWholeWord"
  | .setRegex => "Everything_SetRegex"

/-- The order of the first block of `LoadOptional` calls in `LoadFromPath`. -/
def optionalOrder : List Optional :=
  [.setSort, .getResultSize, .getResultDateModified, .getResultDateCreated,
   .isFolderResult, .setMatchPath, .setMatchCase, .setMatchWholeWord, .setRegex]

def EverythingApi.setOptional (api : EverythingApi) (m : Optional) (p : Option Nat) :
    EverythingApi :=
  match m with
  | .setSort => { api with setSort := p }
  | .getResultSize => { api with getResultSize := p }
  | .getResultDateModified => { api with getResultDateModified := p }
  | .getResultDateCreated => { api with getResultDateCreated := p }
  | .isFolderResult => { api with isFolderResult := p }
  | .setMatchPath => { api with setMatchPath := p }
  | .setMatchCase => { api with setMatchCase := p }
  | .setMatchWholeWord => { api with setMatchWholeWord := p }
  | .setRegex => { api with setRegex := p }

/-- What a member function of the resolver leaves behind: its return value, the resolver,
the caller's `errorMessage` and the trace. -/
structure LoadResult where
  ok : Bool
  api : EverythingApi
  errorMessage : String
  trace : List Event
  deriving DecidableEq, Repr

/-- The member template `LoadRequired`: the resolved target is stored even when it is
null. -/
def LoadRequired (W : World) (api : EverythingApi) (m : Required) (errorMessage : String)
    (tr : List Event) : LoadResult :=
  let target := W.GetProcAddress api.module_ m.symbol
  let api := api.setRequired m target
  let tr := tr ++ [Event.GetProcAddress api.module_ m.symbol]
  if target.isSome then
    { ok := true, api := api, errorMessage := errorMessage, trace := tr }
  else
    { ok := false, api := api,
      errorMessage := "Everything SDK missing symbol: " ++ m.symbol, trace := tr }

/-- The member template `LoadOptional` on a member of the resolver. -/
def LoadOptional (W : World) (api : EverythingApi) (m : Optional) (tr : List Event) :
    EverythingApi × List Event :=
  let target := W.GetProcAddress api.module_ m.symbol
  (api.setOptional m target, tr ++ [Event.GetProcAddress api.module_ m.symbol])

/-- The short-circuit conjunction of `LoadRequired` calls over the members `ms`. -/
def resolveChain (W : World) :
    List Required → EverythingApi → String → List Event → LoadResult
  | [], api, errorMessage, tr =>
    { ok := true, api := api, errorMessage := errorMessage, trace := tr }
  | m :: ms, api, errorMessage, tr =>
    let r := LoadRequired W api m errorMessage tr
    if r.ok then resolveChain W ms r.api r.errorMessage r.trace else r

/-- The member function `ResolveRequiredSymbols`. -/
def ResolveRequiredSymbols (W : World) (api : EverythingApi) (errorMessage : String)
    (tr : List Event) : LoadResult :=
  resolveChain W requiredOrder api errorMessage tr

/-- The first block of `LoadOptional` calls of `LoadFromPath`, in source order. -/
def loadOptionals (W : World) (api : EverythingApi) (tr : List Event) :
    EverythingApi × List Event :=
  optionalOrder.foldl (fun s m => LoadOptional W s.1 m s.2) (api, tr)

/-- The part of `LoadFromPath` after the required symbols resolved: the optional symbols,
the version string and the loaded flag. The four version getters are called inside one
expression; they are recorded left to right and each answers on the trace before the
expression. -/
def finishLoad (W : World) (api : EverythingApi) (errorMessage : String)
    (tr : List Event) : LoadResult :=
  let s := loadOptionals W api tr
  let api := s.1
  let tr := s.2
  let getMajorVersion := W.GetProcAddress api.module_ "Everything_GetMajorVersion"
  let getMinorVersion := W.GetProcAddress api.module_ "Everything_GetMinorVersion"
  let getRevision := W.GetProcAddress api.module_ "Everything_GetRevision"
  let getBuildNumber := W.GetProcAddress api.module_ "Everything_GetBuildNumber"
  let tr := tr ++
    [Event.GetProcAddress api.module_ "Everything_GetMajorVersion",
     Event.GetProcAddress api.module_ "Everything_GetMinorVersion",
     Event.GetProcAddress api.module_ "Everything_GetRevision",
     Event.GetProcAddress api.module_ "Everything_GetBuildNumber"]
  if getMajorVersion.isSome && getMinorVersion.isSome && getRevision.isSome &&
      getBuildNumber.isSome then
    { ok := true,
      api := { api with
        version_ := toString (W.GetMajorVersion tr % 2 ^ 32) ++ "." ++
          toString (W.GetMinorVersion tr % 2 ^ 32) ++ "." ++
          toString (W.GetRevision tr % 2 ^ 32) ++ "." ++
          toString (W.GetBuildNumber tr % 2 ^ 32),
        loaded_ := true },
      errorMessage := errorMessage,
      trace := tr ++ [Event.GetMajorVersion, Event.GetMinorVersion, Event.GetRevision,
        Event.GetBuildNumber] }
  else
    { ok := true, api := { api with loaded_ := true }, errorMessage := errorMessage,
      trace := tr }

/-- The member function `LoadFromPath`. -/
def LoadFromPath (W : World) (api : EverythingApi) (candidate : WString)
    (errorMessage : String) (tr : List Event) : LoadResult :=
  let tr := tr ++ [Event.LoadLibraryW candidate]
  match W.LoadLibraryW candidate with
  | .error winErr =>
    { ok := false, api := { api with module_ := none },
      errorMessage := "Unable to load Everything SDK DLL from candidate (winerr=" ++
        toString (winErr % 2 ^ 32) ++ ")",
      trace := tr }
  | .ok h =>
    let api := { api with module_ := some h }
    let r := ResolveRequiredSymbols W api errorMessage tr
    if !r.ok then
      { ok := false, api := { r.api with module_ := none }, errorMessage := r.errorMessage,
        trace := r.trace ++ [Event.FreeLibrary h] }
    else
      finishLoad W r.api r.errorMessage r.trace

/-- The member function `BuildCandidatePaths`. -/
def BuildCandidatePaths (W : World) : List WString :=
  let candidates : List WString := []
  let customDllPath := ReadEnvVar W "TALEX_EVERYTHING_DLL_PATH"
  let candidates := if !customDllPath.isEmpty then candidates ++ [customDllPath] else candidates
  let candidates :=
    if W.win64 then candidates ++ [L "Everything64.dll"]
    else candidates ++ [L "Everything32.dll"]
  let candidates := candidates ++ [L "Everything.dll"]
  let programFiles := ReadEnvVar W "PROGRAMFILES"
  let programFilesX86 := ReadEnvVar W "PROGRAMFILES(X86)"
  let candidates :=
    if !programFiles.isEmpty then
      candidates ++
        [JoinPath programFiles (L "Everything\\Everything64.dll"),
         JoinPath programFiles (L "Everything\\Everything.dll"),
         JoinPath programFiles (L "Everything\\Everything32.dll")]
    else candidates
  let candidates :=
    if !programFilesX86.isEmpty then
      candidates ++
        [JoinPath programFilesX86 (L "Everything\\Everything32.dll"),
         JoinPath programFilesX86 (L "Everything\\Everything.dll")]
    else candidates
  candidates

/-- The loop of `EnsureLoaded` over the candidates still to try; `lastError` is the local
of that name. -/
def tryCandidates (W : World) :
    List WString → EverythingApi → String → String → List Event → LoadResult
  | [], api, _, lastError, tr =>
    { ok := false, api := api, errorMessage := lastError, trace := tr }
  | candidate :: rest, api, errorMessage, lastError, tr =>
    if candidate.isEmpty then
      tryCandidates W rest api errorMessage lastError tr
    else
      let r := LoadFromPath W api candidate errorMessage tr
      if r.ok then
        r
      else
        let lastError := if !r.errorMessage.isEmpty then r.errorMessage else lastError
        tryCandidates W rest r.api r.errorMessage lastError r.trace

/-- The member function `EnsureLoaded`. -/
def EnsureLoaded (W : World) (api : EverythingApi) (errorMessage : String)
    (tr : List Event) : LoadResult :=
  if api.loaded_ then
    { ok := true, api := api, errorMessage := errorMessage, trace := tr }
  else
    tryCandidates W (BuildCandidatePaths W) api errorMessage "Everything SDK DLL not found" tr

/-- The member function `EverythingApi::GetVersion`. -/
def EverythingApi.GetVersion (api : EverythingApi) : String :=
  if !api.loaded_ then
    ""
  else if !api.version_.isEmpty then
    api.version_
  else
    "unknown"

/-! ## The query executor -/

/-- Why a run has no defined result: a call through a null function pointer, or the
iteration bound of a loop of the model was reached. -/
inductive Fault where
  | nullCall
  | outOfFuel
  deriving DecidableEq, Repr

/-- The loop of `GetResultFullPath` on the current `buffer`. The SDK stores its units at
the start of the buffer and leaves the rest as it was; `resize` appends zeros. -/
def fullPathLoop (W : World) (index : Nat) :
    Nat → List Nat → List Event → Except Fault (WString × List Event)
  | 0, _, _ => .error .outOfFuel
  | fuel + 1, buffer, tr =>
    let nMaxCount := buffer.length % 2 ^ 32
    let r := W.GetResultFullPathNameW tr index nMaxCount
    let copied := r.1 % 2 ^ 32
    let written := r.2.take buffer.length
    let buffer := written ++ buffer.drop written.length
    let tr := tr ++ [Event.GetResultFullPathNameW index nMaxCount]
    if copied = 0 then
      .ok ([], tr)
    else if copied < buffer.length then
      .ok (buffer.take copied, tr)
    else
      fullPathLoop W index fuel (buffer ++ List.replicate (copied + 1 - buffer.length) 0) tr

/-- The function `GetResultFullPath`. Every pass but the last enlarges the buffer and no
buffer grows beyond `2 ^ 32` units, so `2 ^ 32` passes are enough. -/
def GetResultFullPath (W : World) (api : EverythingApi) (index : Nat) (tr : List Event) :
    Except Fault (WString × List Event) :=
  match api.getResultFullPathName with
  | none => .error .nullCall
  | some _ => fullPathLoop W index (2 ^ 32) (List.replicate 4096 0) tr

/-- The member `std::wstring::find_last_of(chars)`; `none` is `npos`. -/
def find_last_of : WString → List Nat → Option Nat
  | [], _ => none
  | c :: cs, chars =>
    match find_last_of cs chars with
    | some i => some (i + 1)
    | none => if chars.contains c then some 0 else none

/-- The local `nameWide` of `SearchWindows` after the fallback to the full path. -/
def nameWideOf (fullPathWide nameWide : WString) : WString :=
  if nameWide.isEmpty then
    match find_last_of fullPathWide [92, 47] with
    | some sep => if sep + 1 < fullPathWide.length then fullPathWide.drop (sep + 1)
        else fullPathWide
    | none => fullPathWide
  else
    nameWide

/-- The local `pathWide` of `SearchWindows`. -/
def pathWideOf (fullPathWide : WString) : WString :=
  if !fullPathWide.isEmpty then
    match find_last_of fullPathWide [92, 47] with
    | some sep => fullPathWide.take sep
    | none => []
  else
    []

/-- The local `extensionWide` of `SearchWindows`; `46` is the dot. -/
def extensionWideOf (nameWide : WString) : WString :=
  match find_last_of nameWide [46] with
  | some dotPos => if dotPos + 1 < nameWide.length then nameWide.drop (dotPos + 1) else []
  | none => []

/-- One element of the result array. -/
structure SearchResultItem where
  fullPath : Bytes
  path : Bytes
  name : Bytes
  filename : Bytes
  extension : Bytes
  size : Option Int
  dateModified : Option Int
  dateCreated : Option Int
  isFolder : Option Bool
  deriving DecidableEq, Repr

/-- The body of the result loop of `SearchWindows` for index `i`: `none` when the index
is skipped. -/
def processResult (W : World) (api : EverythingApi) (i : Nat) (tr : List Event) :
    Except Fault (Option SearchResultItem × List Event) :=
  match GetResultFullPath W api i tr with
  | .error f => .error f
  | .ok (fullPathWide, tr) =>
    match api.getResultFileName with
    | none => .error .nullCall
    | some _ =>
      let rawName := W.GetResultFileNameW tr i
      let tr := tr ++ [Event.GetResultFileNameW i]
      let nameWide : WString := match rawName with
        | some s => s
        | none => []
      if fullPathWide.isEmpty && nameWide.isEmpty then
        .ok (none, tr)
      else
        let nameWide := nameWideOf fullPathWide nameWide
        let pathWide := pathWideOf fullPathWide
        let extensionWide := extensionWideOf nameWide
        let nameUtf8 := WideToUtf8 W nameWide
        let sizeR := W.GetResultSize tr i
        let size := if api.getResultSize.isSome && sizeR.1 ≠ 0 then some sizeR.2 else none
        let tr := if api.getResultSize.isSome then tr ++ [Event.GetResultSize i] else tr
        let modifiedR := W.GetResultDateModified tr i
        let dateModified :=
          if api.getResultDateModified.isSome && modifiedR.1 ≠ 0 then
            some (FileTimeToUnixMillis modifiedR.2)
          else none
        let tr :=
          if api.getResultDateModified.isSome then tr ++ [Event.GetResultDateModified i]
          else tr
        let createdR := W.GetResultDateCreated tr i
        let dateCreated :=
          if api.getResultDateCreated.isSome && createdR.1 ≠ 0 then
            some (FileTimeToUnixMillis createdR.2)
          else none
        let tr :=
          if api.getResultDateCreated.isSome then tr ++ [Event.GetResultDateCreated i]
          else tr
        let isFolder :=
          if api.isFolderResult.isSome then some (decide (W.IsFolderResult tr i = 1))
          else none
        let tr := if api.isFolderResult.isSome then tr ++ [Event.IsFolderResult i] else tr
        .ok (some
          { fullPath := WideToUtf8 W fullPathWide
            path := WideToUtf8 W pathWide
            name := nameUtf8
            filename := nameUtf8
            extension := WideToUtf8 W extensionWide
            size := size
            dateModified := dateModified
            dateCreated := dateCreated
            isFolder := isFolder }, tr)

/-- The result loop of `SearchWindows` with `remaining` indices left, starting at `i`;
the items are returned in the order they are stored. -/
def resultLoop (W : World) (api : EverythingApi) :
    Nat → Nat → List Event → Except Fault (List SearchResultItem × List Event)
  | 0, _, tr => .ok ([], tr)
  | remaining + 1, i, tr =>
    match processResult W api i tr with
    | .error f => .error f
    | .ok (item, tr) =>
      match resultLoop W api remaining (i + 1) tr with
      | .error f => .error f
      | .ok (items, tr) => .ok (item.toList ++ items, tr)

/-- The request flags `SearchWindows` sends. -/
def requestFlags : Nat :=
  kEverythingRequestFileName |||
  kEverythingRequestPath |||
  kEverythingRequestFullPathAndFileName |||
  kEverythingRequestSize |||
  kEverythingRequestDateModified |||
  kEverythingRequestDateCreated

/-- The configuration calls of `SearchWindows`, from `setSearch` to `setRegex`: the trace
after them. -/
def configure (api : EverythingApi) (options : SearchOptions) (wideQuery : WString)
    (tr : List Event) : Except Fault (List Event) :=
  match api.setSearch with
  | none => .error .nullCall
  | some _ =>
    let tr := tr ++ [Event.SetSearchW wideQuery]
    match api.setRequestFlags with
    | none => .error .nullCall
    | some _ =>
      let tr := tr ++ [Event.SetRequestFlags requestFlags]
      let tr := if api.setSort.isSome then tr ++ [Event.SetSort options.sort] else tr
      match api.setMax with
      | none => .error .nullCall
      | some _ =>
        let tr := tr ++ [Event.SetMax options.maxResults]
        match api.setOffset with
        | none => .error .nullCall
        | some _ =>
          let tr := tr ++ [Event.SetOffset options.offset]
          let tr :=
            if api.setMatchCase.isSome then tr ++ [Event.SetMatchCase options.matchCase]
            else tr
          let tr :=
            if api.setMatchPath.isSome then tr ++ [Event.SetMatchPath options.matchPath]
            else tr
          let tr :=
            if api.setMatchWholeWord.isSome then
              tr ++ [Event.SetMatchWholeWord options.matchWholeWord]
            else tr
          let tr := if api.setRegex.isSome then tr ++ [Event.SetRegex options.regex] else tr
          .ok tr

/-- What a call of the search entry point leaves behind. -/
inductive Outcome where
  /-- A JavaScript exception with this message and `code` is pending and `null` is
  returned. -/
  | throw (message : String) (code : String)
  /-- An array created with `length` whose leading elements are `items`. -/
  | array (length : Nat) (items : List SearchResultItem)
  /-- No defined result. -/
  | fault (f : Fault)
  deriving DecidableEq, Repr

structure SearchRun where
  outcome : Outcome
  api : EverythingApi
  trace : List Event
  deriving DecidableEq, Repr

/-- The part of `SearchWindows` from the `setSearch` call to the end. -/
def executeQuery (W : World) (api : EverythingApi) (options : SearchOptions)
    (wideQuery : WString) (tr : List Event) : SearchRun :=
  match configure api options wideQuery tr with
  | .error f => { outcome := .fault f, api := api, trace := tr }
  | .ok tr =>
    match api.query with
    | none => { outcome := .fault .nullCall, api := api, trace := tr }
    | some _ =>
      let queried := W.QueryW tr true
      let tr := tr ++ [Event.QueryW true]
      if queried = 0 then
        let errCode := if api.getLastError.isSome then W.GetLastError tr % 2 ^ 32 else 0
        let tr := if api.getLastError.isSome then tr ++ [Event.GetLastError] else tr
        { outcome := .throw ("Everything query failed, error code: " ++ toString errCode)
            "ERR_EVERYTHING_QUERY_FAILED",
          api := api, trace := tr }
      else
        match api.getNumResults with
        | none => { outcome := .fault .nullCall, api := api, trace := tr }
        | some _ =>
          let total := W.GetNumResults tr % 2 ^ 32
          let tr := tr ++ [Event.GetNumResults]
          match resultLoop W api total 0 tr with
          | .error f => { outcome := .fault f, api := api, trace := tr }
          | .ok (items, tr) => { outcome := .array total items, api := api, trace := tr }

/-- The function `SearchWindows` on the process-wide resolver `api`. -/
def SearchWindows (W : World) (api : EverythingApi) (info : CallbackInfo) : SearchRun :=
  if info.length < 1 || !(info.arg 0).IsString then
    { outcome := .throw "Everything search expects a query string" "ERR_INVALID_ARGUMENT",
      api := api, trace := [] }
  else
    let options := ParseSearchOptions info {}
    let query := (info.arg 0).Utf8Value
    if query.isEmpty then
      { outcome := .array 0 [], api := api, trace := [] }
    else
      let r := EnsureLoaded W api "" []
      if !r.ok then
        { outcome := .throw ("Everything SDK is unavailable: " ++ r.errorMessage)
            "ERR_EVERYTHING_SDK_UNAVAILABLE",
          api := r.api, trace := r.trace }
      else
        let wideQuery := Utf8ToWide W query
        if wideQuery.isEmpty then
          { outcome := .throw "Failed to convert query string to UTF-16"
              "ERR_EVERYTHING_QUERY_ENCODING",
            api := r.api, trace := r.trace }
        else
          executeQuery W r.api options wideQuery r.trace


/-! ## The OCR adapter

The embedding of `native/src/platform/windows/winrt_ocr.cpp` and
`native/src/common/ocr_types.h`. Coordinates are rationals: the geometry is taken over
exact arithmetic. The WinRT runtime is a parameter `OcrPlatform`. -/

/-- The function `std::min(a, b)` on coordinates. -/
def stdMinQ (a b : ℚ) : ℚ :=
  if b < a then b else a

/-- The function `std::max(a, b)` on coordinates. -/
def stdMaxQ (a b : ℚ) : ℚ :=
  if a < b then b else a

/-- The narrow literal `"..."` of an ASCII text as bytes. -/
def A (s : String) : Bytes := s.toList.map Char.toNat

/-- The conversion `static_cast<int>` of a size. -/
def toInt32 (n : Nat) : Int := ((n : Int) + 2 ^ 31) % 2 ^ 32 - 2 ^ 31

/-- A `Windows::Foundation::Rect`. -/
structure Rect where
  X : ℚ
  Y : ℚ
  Width : ℚ
  Height : ℚ
  deriving DecidableEq

/-- An `OcrLine`: its text and the bounding rectangles of its words, in order. -/
structure OcrLine where
  Text : WString
  Words : List Rect
  deriving DecidableEq

/-- The recognition result of the platform: its text and its lines, in order. -/
structure Recognition where
  Text : WString
  Lines : List OcrLine
  deriving DecidableEq

structure OcrBlock where
  text : Bytes := []
  confidence : ℚ := 0
  hasConfidence : Bool := false
  boundingBox : ℚ × ℚ × ℚ × ℚ := (0, 0, 0, 0)
  hasBoundingBox : Bool := false
  deriving DecidableEq

structure OcrResult where
  text : Bytes := []
  confidence : ℚ := 0
  hasConfidence : Bool := false
  language : Bytes := []
  blocks : List OcrBlock := []
  engine : Bytes := []
  durationMs : Nat := 0
  deriving DecidableEq

structure OcrOptions where
  image : List Nat := []
  languageHint : Bytes := []
  includeLayout : Bool := false
  maxBlocks : Int := 0
  deriving DecidableEq

structure OcrError where
  code : Bytes := []
  message : Bytes := []
  deriving DecidableEq

/-- What a WinRT call throws. -/
inductive Thrown where
  | hresult_error (message : WString)
  | exception (what : Bytes)
  | other
  deriving DecidableEq

/-- The WinRT runtime as the adapter sees it. Bitmaps and engines are handles. -/
structure OcrPlatform where
  MultiByteToWideChar : Bytes → Nat → Int × WString
  WideCharToMultiByte : WString → Nat → Int × Bytes
  /-- The call `winrt::init_apartment`. -/
  init_apartment : Option Thrown
  /-- The stream writes and the decoding of `BuildBitmapFromBytes`. -/
  decode : List Nat → Except Thrown Nat
  /-- The construction `Language(tag)` followed by `OcrEngine::TryCreateFromLanguage`. -/
  TryCreateFromLanguage : WString → Except Thrown (Option Nat)
  TryCreateFromUserProfileLanguages : Except Thrown (Option Nat)
  /-- The call `engine.RecognizeAsync(bitmap).get()`. -/
  Recognize : Nat → Nat → Except Thrown Recognition
  /-- The language tag of `engine.RecognizerLanguage()`, if there is one. -/
  RecognizerLanguage : Nat → Option WString
  /-- The milliseconds between the two readings of the steady clock. -/
  elapsed : Int

/-- The function `ToWide` of the OCR adapter. -/
def ToWide (P : OcrPlatform) (value : Bytes) : WString :=
  if value.isEmpty then
    []
  else
    let length := (P.MultiByteToWideChar value 0).1
    if length ≤ 0 then
      []
    else
      fillBuffer length.toNat (P.MultiByteToWideChar value length.toNat).2

/-- The function `ToUtf8` of the OCR adapter. -/
def ToUtf8 (P : OcrPlatform) (value : WString) : Bytes :=
  if value.isEmpty then
    []
  else
    let length := (P.WideCharToMultiByte value 0).1
    if length ≤ 0 then
      []
    else
      fillBuffer length.toNat (P.WideCharToMultiByte value length.toNat).2

/-- The function `CreateEngine`: an exception of the language hint is swallowed, one of
the later steps propagates. -/
def CreateEngine (P : OcrPlatform) (languageHint : Bytes) : Except Thrown (Option Nat) :=
  let fromLanguage : Option Nat :=
    if !languageHint.isEmpty then
      match P.TryCreateFromLanguage (ToWide P languageHint) with
      | .ok e => e
      | .error _ => none
    else none
  match fromLanguage with
  | some e => .ok (some e)
  | none =>
    match P.TryCreateFromUserProfileLanguages with
    | .error t => .error t
    | .ok (some e) => .ok (some e)
    | .ok none => P.TryCreateFromLanguage (L "en-US")

/-- The function `BuildBitmapFromBytes`: the bitmap, or the error it leaves. -/
def BuildBitmapFromBytes (P : OcrPlatform) (image : List Nat) (error : OcrError) :
    Except OcrError Nat :=
  if image.isEmpty then
    .error { error with code := A "ERR_OCR_DECODE_FAILED", message := A "Image payload is empty" }
  else
    match P.decode image with
    | .ok bitmap => .ok bitmap
    | .error (.hresult_error message) =>
      let m := ToUtf8 P message
      .error { error with
        code := A "ERR_OCR_DECODE_FAILED",
        message := if m.isEmpty then A "Failed to decode image bytes" else m }
    | .error _ =>
      .error { error with
        code := A "ERR_OCR_DECODE_FAILED", message := A "Failed to decode image bytes" }

/-- The locals `initialized`, `minX`, `minY`, `maxX` and `maxY` of
`MergeWordBoundingBox`. -/
structure BoxState where
  initialized : Bool := false
  minX : ℚ := 0
  minY : ℚ := 0
  maxX : ℚ := 0
  maxY : ℚ := 0
  deriving DecidableEq

/-- The body of the loop of `MergeWordBoundingBox` for one word. -/
def mergeWord (s : BoxState) (rect : Rect) : BoxState :=
  let left := rect.X
  let top := rect.Y
  let right := rect.X + rect.Width
  let bottom := rect.Y + rect.Height
  if !s.initialized then
    { initialized := true, minX := left, minY := top, maxX := right, maxY := bottom }
  else
    { initialized := s.initialized
      minX := stdMinQ s.minX left
      minY := stdMinQ s.minY top
      maxX := stdMaxQ s.maxX right
      maxY := stdMaxQ s.maxY bottom }

/-- The function `MergeWordBoundingBox`: the array `{x, y, width, height}`. -/
def MergeWordBoundingBox (line : OcrLine) : ℚ × ℚ × ℚ × ℚ :=
  let s := line.Words.foldl mergeWord {}
  if !s.initialized then
    (0, 0, 0, 0)
  else
    (s.minX, s.minY, stdMaxQ 0 (s.maxX - s.minX), stdMaxQ 0 (s.maxY - s.minY))

/-- The loop of `PerformPlatformOcr` over the recognised lines still to visit; `blocks` is
`result.blocks`. -/
def collectBlocks (P : OcrPlatform) (maxBlocks : Int) :
    List OcrLine → List OcrBlock → List OcrBlock
  | [], blocks => blocks
  | line :: rest, blocks =>
    let text := ToUtf8 P line.Text
    if text.isEmpty then
      collectBlocks P maxBlocks rest blocks
    else
      let block : OcrBlock :=
        { text := text, hasBoundingBox := true, boundingBox := MergeWordBoundingBox line }
      let blocks := blocks ++ [block]
      if 0 < maxBlocks && maxBlocks ≤ toInt32 blocks.length then
        blocks
      else
        collectBlocks P maxBlocks rest blocks

/-- What `PerformPlatformOcr` leaves behind: its return value and the two out
parameters. -/
structure OcrRun where
  ok : Bool
  result : OcrResult
  error : OcrError
  deriving DecidableEq

/-- The handlers of the `try` block of `PerformPlatformOcr`. -/
def ocrCatch (P : OcrPlatform) (result : OcrResult) (t : Thrown) : OcrRun :=
  match t with
  | .hresult_error message =>
    let m := ToUtf8 P message
    { ok := false, result := result,
      error := { code := A "ERR_OCR_RECOGNIZE_FAILED",
                 message := if m.isEmpty then A "Windows OCR recognition failed" else m } }
  | .exception what =>
    { ok := false, result := result,
      error := { code := A "ERR_OCR_RECOGNIZE_FAILED", message := what } }
  | .other =>
    { ok := false, result := result,
      error := { code := A "ERR_OCR_RECOGNIZE_FAILED",
                 message := A "Windows OCR recognition failed" } }

/-- The function `PerformPlatformOcr` of the Windows build. -/
def PerformPlatformOcr (P : OcrPlatform) (options : OcrOptions) (result : OcrResult)
    (error : OcrError) : OcrRun :=
  match P.init_apartment with
  | some t => ocrCatch P result t
  | none =>
    match BuildBitmapFromBytes P options.image error with
    | .error e => { ok := false, result := result, error := e }
    | .ok bitmap =>
      match CreateEngine P options.languageHint with
      | .error t => ocrCatch P result t
      | .ok none =>
        { ok := false, result := result,
          error := { code := A "ERR_OCR_ENGINE_UNAVAILABLE",
                     message := A "Windows OCR engine is unavailable" } }
      | .ok (some engine) =>
        match P.Recognize engine bitmap with
        | .error t => ocrCatch P result t
        | .ok ocrResult =>
          let result := { result with text := ToUtf8 P ocrResult.Text }
          if result.text.isEmpty then
            { ok := false, result := result,
              error := { code := A "ERR_OCR_RECOGNIZE_FAILED",
                         message := A "No text recognized from image" } }
          else
            let result :=
              if options.includeLayout then
                { result with
                  blocks := collectBlocks P options.maxBlocks ocrResult.Lines result.blocks }
              else result
            let result := { result with engine := A "windows-ocr" }
            let result :=
              match P.RecognizerLanguage engine with
              | some tag => { result with language := ToUtf8 P tag }
              | none => result
            let result :=
              { result with durationMs := (stdMax 0 P.elapsed % 2 ^ 64).toNat }
            { ok := true, result := result, error := error }

/-- The `maxBlocks` block of `ParseOptions` in `native/src/addon.cc`. -/
def parseMaxBlocks (input : JsValue) (options : OcrOptions) : OcrOptions :=
  if input.Has "maxBlocks" && (input.Get "maxBlocks").IsNumber then
    let maxBlocks := (input.Get "maxBlocks").Int32Value
    { options with maxBlocks := stdMax 0 maxBlocks }
  else options

/-! ## Vocabulary of the specification -/

/-- The calls of the resolver: library loading, symbol resolution, unloading and the
version getters. -/
def Event.isLoaderCall : Event → Bool
  | .LoadLibraryW _ => true
  | .GetProcAddress _ _ => true
  | .FreeLibrary _ => true
  | .GetMajorVersion => true
  | .GetMinorVersion => true
  | .GetRevision => true
  | .GetBuildNumber => true
  | _ => false

/-- The calls that read the outcome of a query. -/
def Event.isResultRead : Event → Bool
  | .GetLastError => true
  | .GetNumResults => true
  | .GetResultFullPathNameW _ _ => true
  | .GetResultFileNameW _ => true
  | .GetResultSize _ => true
  | .GetResultDateModified _ => true
  | .GetResultDateCreated _ => true
  | .IsFolderResult _ => true
  | _ => false

/-- The paths of the library load attempts of a trace, in order. -/
def loadAttempts (tr : List Event) : List WString :=
  tr.filterMap fun e =>
    match e with
    | .LoadLibraryW path => some path
    | _ => none

/-- The module handles unloaded in a trace, in order. -/
def unloads (tr : List Event) : List Nat :=
  tr.filterMap fun e =>
    match e with
    | .FreeLibrary h => some h
    | _ => none

/-- The handle a candidate loads as, if it loads. -/
def loadedHandle (W : World) (candidate : WString) : Option Nat :=
  match W.LoadLibraryW candidate with
  | .ok h => some h
  | .error _ => none

/-- A candidate both loads and resolves all nine required symbols. -/
def usable (W : World) (candidate : WString) : Bool :=
  match W.LoadLibraryW candidate with
  | .ok h => requiredOrder.all fun m => (W.GetProcAddress (some h) m.symbol).isSome
  | .error _ => false

/-- The specific error of a candidate that fails: the load failure text with the Windows
error number, or the text naming the first required symbol that does not resolve. -/
def candidateError (W : World) (candidate : WString) : String :=
  match W.LoadLibraryW candidate with
  | .error winErr =>
    "Unable to load Everything SDK DLL from candidate (winerr=" ++
      toString (winErr % 2 ^ 32) ++ ")"
  | .ok h =>
    match requiredOrder.find? fun m => (W.GetProcAddress (some h) m.symbol).isNone with
    | some m => "Everything SDK missing symbol: " ++ m.symbol
    | none => ""

/-- The non-empty candidates of a list, in list order. -/
def nonEmpties (cs : List WString) : List WString :=
  cs.filter fun c => !c.isEmpty

/-- The candidates `EnsureLoaded` attempts: the non-empty ones, in list order. -/
def attemptable (W : World) : List WString :=
  nonEmpties (BuildCandidatePaths W)

/-- A message references a candidate when the path of the candidate occurs in it. -/
def referencesCandidate (message : String) (candidate : WString) : Prop :=
  candidate <:+: message.toList.map Char.toNat

instance (message : String) (candidate : WString) :
    Decidable (referencesCandidate message candidate) := by
  unfold referencesCandidate
  infer_instance

/-- The configuration calls the specification lists, in its order: search string, request
flags, sort if available, max results, offset, then each available match flag. -/
def specConfigCalls (api : EverythingApi) (options : SearchOptions) (wideQuery : WString) :
    List Event :=
  [Event.SetSearchW wideQuery, Event.SetRequestFlags requestFlags] ++
  (if api.setSort.isSome then [Event.SetSort options.sort] else []) ++
  [Event.SetMax options.maxResults, Event.SetOffset options.offset] ++
  (if api.setMatchCase.isSome then [Event.SetMatchCase options.matchCase] else []) ++
  (if api.setMatchPath.isSome then [Event.SetMatchPath options.matchPath] else []) ++
  (if api.setMatchWholeWord.isSome then [Event.SetMatchWholeWord options.matchWholeWord]
    else []) ++
  (if api.setRegex.isSome then [Event.SetRegex options.regex] else [])

/-- What symbol resolution adds to a trace: `GetProcAddress` calls only. -/
def OnlyGetProc (ext : List Event) : Prop :=
  ∀ e ∈ ext, ∃ h s, e = Event.GetProcAddress h s

/-- All nine required function pointers are non-null. -/
def requiredResolved (api : EverythingApi) : Prop :=
  ∀ m : Required, (api.getRequired m).isSome

/-- The relation of the `name` and `extension` fields of an item: both are marshalled
from wide strings, the extension from the extension of the name. -/
def NameExtension (W : World) (item : SearchResultItem) : Prop :=
  ∃ nameWide : WString,
    item.name = WideToUtf8 W nameWide ∧ item.filename = WideToUtf8 W nameWide ∧
    item.extension = WideToUtf8 W (extensionWideOf nameWide)

/-! ## Sample worlds -/

/-- A world in which no library loads (Windows error 126) and the environment is empty;
its SDK answers describe one result, the file `a.txt`, with no full path. -/
def worldNone : World where
  win64 := true
  environment := fun _ => none
  LoadLibraryW := fun _ => .error 126
  GetProcAddress := fun _ _ => none
  MultiByteToWideChar := fun v n => (v.length, if n = 0 then [] else v)
  WideCharToMultiByte := fun v n => (v.length, if n = 0 then [] else v)
  GetMajorVersion := fun _ => 1
  GetMinorVersion := fun _ => 4
  GetRevision := fun _ => 1
  GetBuildNumber := fun _ => 1024
  QueryW := fun _ _ => 1
  GetLastError := fun _ => 0
  GetNumResults := fun _ => 1
  GetResultFileNameW := fun _ _ => some (L "a.txt")
  GetResultFullPathNameW := fun _ _ _ => (0, [])
  GetResultSize := fun _ _ => (1, 42)
  GetResultDateModified := fun _ _ => (1, ⟨3577653008, 27111902⟩)
  GetResultDateCreated := fun _ _ => (0, ⟨0, 0⟩)
  IsFolderResult := fun _ _ => 0

/-- The world `worldNone` with a complete SDK installed as `Everything64.dll`, which
loads as module 7 and exports every symbol at address 1000. -/
def worldGood : World :=
  { worldNone with
    LoadLibraryW := fun p => if p = L "Everything64.dll" then .ok 7 else .error 126
    GetProcAddress := fun h _ => if h = some 7 then some 1000 else none }

/-- The world `worldGood` with an override variable naming a library that loads as module
5 but exports nothing. -/
def worldOverride : World :=
  { worldGood with
    environment := fun k => if k = "TALEX_EVERYTHING_DLL_PATH" then some (L "C:\\x.dll") else none
    LoadLibraryW := fun p =>
      if p = L "C:\\x.dll" then .ok 5
      else if p = L "Everything64.dll" then .ok 7 else .error 126 }

/-- The world `worldNone` with an override variable that names a file which does not
exist. -/
def worldMissingOverride : World :=
  { worldNone with
    environment := fun k => if k = "TALEX_EVERYTHING_DLL_PATH" then some (L "C:\\x.dll") else none }

/-- The world `worldGood` whose query call reports failure while the last error is 0. -/
def worldQueryFails : World :=
  { worldGood with QueryW := fun _ _ => 0 }

/-- The resolver after a successful `EnsureLoaded` in `worldGood`. -/
def apiGood : EverythingApi := (EnsureLoaded worldGood {} "" []).api

/-- The world `worldGood` whose only result has the full path `C:\` and no file name. -/
def worldRoot : World :=
  { worldGood with
    GetResultFullPathNameW := fun _ _ _ => (3, L "C:\\")
    GetResultFileNameW := fun _ _ => none }

/-- The world `worldGood` whose only result was modified at the raw timestamp 0, the
year 1601. -/
def worldOld : World :=
  { worldGood with GetResultDateModified := fun _ _ => (1, ⟨0, 0⟩) }

/-- An item is produced by the body of the result loop for some index. -/
def Produced (W : World) (api : EverythingApi) (item : SearchResultItem) : Prop :=
  ∃ i tr tr2, processResult W api i tr = .ok (some item, tr2)

/-- The code unit is a path separator, the backslash or the slash. -/
def isSeparator (c : Nat) : Prop := c = 92 ∨ c = 47

/-- The four symbols of the version getters. -/
def versionSymbols : List String :=
  ["Everything_GetMajorVersion", "Everything_GetMinorVersion", "Everything_GetRevision",
   "Everything_GetBuildNumber"]

/-- The resolver states that sequences of `EnsureLoaded` calls reach from the initial
state, in any worlds. -/
inductive Reachable : EverythingApi → Prop where
  | init : Reachable {}
  | step (W : World) (msg : String) (tr : List Event) {api : EverythingApi} :
      Reachable api → Reachable (EnsureLoaded W api msg tr).api

/-- The world `worldGood` whose library exports no version getter. -/
def worldNoVersion : World :=
  { worldGood with
    GetProcAddress := fun h s =>
      if h = some 7 ∧ s ∉ versionSymbols then some 1000 else none }

/-! ## Vocabulary and samples for the OCR adapter -/

/-- The value `m` is the least of the values of `f` on the list. -/
def IsMinOf (f : Rect → ℚ) (l : List Rect) (m : ℚ) : Prop :=
  (∃ r ∈ l, f r = m) ∧ ∀ r ∈ l, m ≤ f r

/-- The value `m` is the greatest of the values of `f` on the list. -/
def IsMaxOf (f : Rect → ℚ) (l : List Rect) (m : ℚ) : Prop :=
  (∃ r ∈ l, f r = m) ∧ ∀ r ∈ l, f r ≤ m

/-- The block of a recognised line, if its text is not empty. -/
def lineBlock (P : OcrPlatform) (line : OcrLine) : Option OcrBlock :=
  if (ToUtf8 P line.Text).isEmpty then none
  else some { text := ToUtf8 P line.Text, hasBoundingBox := true,
              boundingBox := MergeWordBoundingBox line }

/-- Three recognised lines, the second of them without text. -/
def sampleRecognition : Recognition :=
  { Text := L "ab cd",
    Lines := [{ Text := L "ab", Words := [] }, { Text := [], Words := [] },
              { Text := L "cd", Words := [] }] }

/-- A platform that decodes every image, has a profile-language engine and recognises
`sampleRecognition`; its conversions copy ASCII. -/
def ocrSample : OcrPlatform where
  MultiByteToWideChar := fun v n => (v.length, if n = 0 then [] else v)
  WideCharToMultiByte := fun v n => (v.length, if n = 0 then [] else v)
  init_apartment := none
  decode := fun _ => .ok 1
  TryCreateFromLanguage := fun _ => .ok none
  TryCreateFromUserProfileLanguages := .ok (some 2)
  Recognize := fun _ _ => .ok sampleRecognition
  RecognizerLanguage := fun _ => some (L "en-US")
  elapsed := 12

/-! ## Timestamp conversion -/

/-- C3: for a `FILETIME` with halves `low` and `high` below `2 ^ 32`, whose 64-bit value is
`v = high * 2 ^ 32 + low`, `FileTimeToUnixMillis` is `0` when `v ≤ 116444736000000000` and
otherwise the floor of `(v - 116444736000000000) / 10000` over the integers, where the
64-bit subtraction did not wrap; the result is never negative. -/
theorem FileTimeToUnixMillis_spec (low high : Nat) (hlow : low < 2 ^ 32)
    (hhigh : high < 2 ^ 32) :
    (high * 2 ^ 32 + low ≤ 116444736000000000 →
        FileTimeToUnixMillis ⟨low, high⟩ = 0) ∧
    (116444736000000000 < high * 2 ^ 32 + low →
        FileTimeToUnixMillis ⟨low, high⟩
            = (((high * 2 ^ 32 + low : Nat) : Int) - 116444736000000000) / 10000 ∧
        (high * 2 ^ 32 + low + 2 ^ 64 - kWindowsEpochOffset100Ns) % 2 ^ 64
            = high * 2 ^ 32 + low - 116444736000000000) ∧
    0 ≤ FileTimeToUnixMillis ⟨low, high⟩ := by
  have hq : (FILETIME.mk low high).QuadPart = high * 2 ^ 32 + low := by
    simp only [FILETIME.QuadPart, Nat.mod_eq_of_lt hlow, Nat.mod_eq_of_lt hhigh]
  have hv : high * 2 ^ 32 + low < 2 ^ 64 := by omega
  refine ⟨?_, ?_, ?_⟩
  · intro h
    simp only [FileTimeToUnixMillis, hq, kWindowsEpochOffset100Ns, if_pos h]
  · intro h
    have hsub : (high * 2 ^ 32 + low + 2 ^ 64 - 116444736000000000) % 2 ^ 64
        = high * 2 ^ 32 + low - 116444736000000000 := by omega
    refine ⟨?_, ?_⟩
    · simp only [FileTimeToUnixMillis, hq, kWindowsEpochOffset100Ns, if_neg (not_le.mpr h), hsub]
      omega
    · simpa only [kWindowsEpochOffset100Ns] using hsub
  · unfold FileTimeToUnixMillis
    simp only
    split
    · exact le_refl 0
    · exact Int.ofNat_nonneg _

/-- Witness for C3 one millisecond after the Unix epoch: the value `116444736000010000` has
high half `27111902` and low half `3577653008`. -/
theorem FileTimeToUnixMillis_spec_witness :
    FileTimeToUnixMillis ⟨3577653008, 27111902⟩
      = (((27111902 * 2 ^ 32 + 3577653008 : Nat) : Int) - 116444736000000000) / 10000 ∧
    FileTimeToUnixMillis ⟨3577653008, 27111902⟩ = 1 :=
  ⟨((FileTimeToUnixMillis_spec 3577653008 27111902 (by decide) (by decide)).2.1
      (by decide)).1, by decide⟩


/-! ## Option parsing -/

/-- The `maxResults` field `ParseSearchOptions` leaves behind. -/
theorem ParseSearchOptions_maxResults_eq (info : CallbackInfo) (o : SearchOptions) :
    (ParseSearchOptions info o).maxResults =
      if info.length < 2 || !(info.arg 1).IsObject then o.maxResults
      else if (info.arg 1).Has "maxResults" && ((info.arg 1).Get "maxResults").IsNumber then
        toUInt32 (clamp ((info.arg 1).Get "maxResults").Int32Value 1 (kMaxResultsLimit : Int))
      else o.maxResults := by
  have e1 : ∀ r o, (parseOffset r o).maxResults = o.maxResults := by
    intro r o; unfold parseOffset; split <;> rfl
  have e2 : ∀ r o, (parseSort r o).maxResults = o.maxResults := by
    intro r o; unfold parseSort; split <;> rfl
  have e3 : ∀ r o, (parseRegex r o).maxResults = o.maxResults := by
    intro r o; unfold parseRegex; split <;> rfl
  have e4 : ∀ r o, (parseMatchCase r o).maxResults = o.maxResults := by
    intro r o; unfold parseMatchCase; split <;> rfl
  have e5 : ∀ r o, (parseMatchPath r o).maxResults = o.maxResults := by
    intro r o; unfold parseMatchPath; split <;> rfl
  have e6 : ∀ r o, (parseMatchWholeWord r o).maxResults = o.maxResults := by
    intro r o; unfold parseMatchWholeWord; split <;> rfl
  unfold ParseSearchOptions
  by_cases h1 : (info.length < 2 || !(info.arg 1).IsObject) = true
  · rw [if_pos h1, if_pos h1]
  · rw [if_neg h1, if_neg h1]
    simp only [e1, e2, e3, e4, e5, e6]
    unfold parseMaxResults
    split <;> rfl

/-- The clamp of `ParseSearchOptions` as a minimum of a maximum. -/
theorem toUInt32_clamp (m : Int) :
    ((toUInt32 (clamp m 1 (kMaxResultsLimit : Int)) : Nat) : Int) = min (max m 1) 5000 ∧
    1 ≤ toUInt32 (clamp m 1 (kMaxResultsLimit : Int)) ∧
    toUInt32 (clamp m 1 (kMaxResultsLimit : Int)) ≤ 5000 := by
  unfold toUInt32 clamp kMaxResultsLimit
  split_ifs <;> omega

/-- The effective `maxResults` always lies between 1 and 5000. -/
theorem ParseSearchOptions_maxResults_range (info : CallbackInfo) :
    1 ≤ (ParseSearchOptions info {}).maxResults ∧
    (ParseSearchOptions info {}).maxResults ≤ 5000 := by
  rw [ParseSearchOptions_maxResults_eq]
  split_ifs
  · decide
  · exact (toUInt32_clamp _).2
  · decide

/-! ## Lemmas on the resolver -/

@[simp] theorem setRequired_module (api : EverythingApi) (m : Required) (p : Option Nat) :
    (api.setRequired m p).module_ = api.module_ := by
  cases m <;> rfl

@[simp] theorem setRequired_loaded (api : EverythingApi) (m : Required) (p : Option Nat) :
    (api.setRequired m p).loaded_ = api.loaded_ := by
  cases m <;> rfl

@[simp] theorem setOptional_module (api : EverythingApi) (m : Optional) (p : Option Nat) :
    (api.setOptional m p).module_ = api.module_ := by
  cases m <;> rfl

@[simp] theorem setOptional_loaded (api : EverythingApi) (m : Optional) (p : Option Nat) :
    (api.setOptional m p).loaded_ = api.loaded_ := by
  cases m <;> rfl

theorem loadAttempts_append (a b : List Event) :
    loadAttempts (a ++ b) = loadAttempts a ++ loadAttempts b := by
  simp [loadAttempts, List.filterMap_append]

theorem unloads_append (a b : List Event) : unloads (a ++ b) = unloads a ++ unloads b := by
  simp [unloads, List.filterMap_append]

theorem OnlyGetProc.loadAttempts {ext : List Event} (h : OnlyGetProc ext) :
    loadAttempts ext = [] := by
  induction ext with
  | nil => rfl
  | cons e es ih =>
    obtain ⟨h1, s1, rfl⟩ := h _ (List.mem_cons_self _ _)
    have := ih (fun e he => h e (List.mem_cons_of_mem _ he))
    simpa [Everything.loadAttempts] using this

theorem OnlyGetProc.unloads {ext : List Event} (h : OnlyGetProc ext) : unloads ext = [] := by
  induction ext with
  | nil => rfl
  | cons e es ih =>
    obtain ⟨h1, s1, rfl⟩ := h _ (List.mem_cons_self _ _)
    have := ih (fun e he => h e (List.mem_cons_of_mem _ he))
    simpa [Everything.unloads] using this

theorem OnlyGetProc.isLoaderCall {ext : List Event} (h : OnlyGetProc ext) :
    ∀ e ∈ ext, e.isLoaderCall = true := by
  intro e he
  obtain ⟨h1, s1, rfl⟩ := h e he
  rfl

theorem OnlyGetProc.append {a b : List Event} (ha : OnlyGetProc a) (hb : OnlyGetProc b) :
    OnlyGetProc (a ++ b) := by
  intro e he
  rcases List.mem_append.mp he with h | h
  · exact ha e h
  · exact hb e h

theorem LoadRequired_trace (W : World) (api : EverythingApi) (m : Required) (msg : String)
    (tr : List Event) :
    (LoadRequired W api m msg tr).trace = tr ++ [Event.GetProcAddress api.module_ m.symbol] := by
  unfold LoadRequired
  simp only [setRequired_module]
  split <;> rfl

theorem LoadRequired_ok (W : World) (api : EverythingApi) (m : Required) (msg : String)
    (tr : List Event) :
    (LoadRequired W api m msg tr).ok = (W.GetProcAddress api.module_ m.symbol).isSome := by
  unfold LoadRequired
  simp only
  split <;> simp_all

theorem LoadRequired_api (W : World) (api : EverythingApi) (m : Required) (msg : String)
    (tr : List Event) :
    (LoadRequired W api m msg tr).api
      = api.setRequired m (W.GetProcAddress api.module_ m.symbol) := by
  unfold LoadRequired
  simp only
  split <;> rfl

theorem LoadRequired_errorMessage (W : World) (api : EverythingApi) (m : Required)
    (msg : String) (tr : List Event) :
    (LoadRequired W api m msg tr).errorMessage
      = if (W.GetProcAddress api.module_ m.symbol).isSome then msg
        else "Everything SDK missing symbol: " ++ m.symbol := by
  unfold LoadRequired
  simp only
  split <;> rfl

/-- The conjunction of `LoadRequired` calls keeps the module handle and the loaded flag,
succeeds exactly when every member resolves, reports the first member that does not, and
only calls `GetProcAddress`. -/
theorem resolveChain_spec (W : World) (ms : List Required) :
    ∀ (api : EverythingApi) (msg : String) (tr : List Event),
      (resolveChain W ms api msg tr).api.module_ = api.module_ ∧
      (resolveChain W ms api msg tr).api.loaded_ = api.loaded_ ∧
      (resolveChain W ms api msg tr).ok
        = ms.all (fun m => (W.GetProcAddress api.module_ m.symbol).isSome) ∧
      (resolveChain W ms api msg tr).errorMessage
        = (match ms.find? (fun m => (W.GetProcAddress api.module_ m.symbol).isNone) with
          | some m => "Everything SDK missing symbol: " ++ m.symbol
          | none => msg) ∧
      ∃ ext, (resolveChain W ms api msg tr).trace = tr ++ ext ∧ OnlyGetProc ext := by
  induction ms with
  | nil =>
    intro api msg tr
    exact ⟨rfl, rfl, rfl, rfl, [], by simp [resolveChain], fun e he => by simp at he⟩
  | cons m ms ih =>
    intro api msg tr
    have hone : OnlyGetProc [Event.GetProcAddress api.module_ m.symbol] := by
      intro e he
      exact ⟨_, _, List.mem_singleton.mp he⟩
    unfold resolveChain
    simp only
    by_cases hm : (W.GetProcAddress api.module_ m.symbol).isSome = true
    · have hok : (LoadRequired W api m msg tr).ok = true := by rw [LoadRequired_ok]; exact hm
      rw [if_pos hok]
      obtain ⟨i1, i2, i3, i4, ext, i5, i6⟩ := ih (LoadRequired W api m msg tr).api
        (LoadRequired W api m msg tr).errorMessage (LoadRequired W api m msg tr).trace
      have hmod : (LoadRequired W api m msg tr).api.module_ = api.module_ := by
        rw [LoadRequired_api]; simp
      have hld : (LoadRequired W api m msg tr).api.loaded_ = api.loaded_ := by
        rw [LoadRequired_api]; simp
      have hnone : (W.GetProcAddress api.module_ m.symbol).isNone = false := by
        cases h : W.GetProcAddress api.module_ m.symbol <;> simp_all
      refine ⟨i1.trans hmod, i2.trans hld, ?_, ?_, ?_⟩
      · rw [i3, hmod]; simp [hm]
      · rw [i4, hmod, LoadRequired_errorMessage, if_pos hm]
        simp [List.find?, hnone]
      · refine ⟨[Event.GetProcAddress api.module_ m.symbol] ++ ext, ?_, hone.append i6⟩
        rw [i5, LoadRequired_trace, List.append_assoc]
    · have hok : ¬ (LoadRequired W api m msg tr).ok = true := by rw [LoadRequired_ok]; exact hm
      rw [if_neg hok]
      have hnone : (W.GetProcAddress api.module_ m.symbol).isNone = true := by
        cases h : W.GetProcAddress api.module_ m.symbol <;> simp_all
      refine ⟨?_, ?_, ?_, ?_, ?_⟩
      · rw [LoadRequired_api]; simp
      · rw [LoadRequired_api]; simp
      · rw [LoadRequired_ok]; simp [hm]
      · rw [LoadRequired_errorMessage, if_neg hm]
        simp [List.find?, hnone]
      · exact ⟨_, LoadRequired_trace W api m msg tr, hone⟩

theorem loadOptionals_spec (W : World) (ms : List Optional) :
    ∀ (api : EverythingApi) (tr : List Event),
      (ms.foldl (fun s m => LoadOptional W s.1 m s.2) (api, tr)).1.module_ = api.module_ ∧
      (ms.foldl (fun s m => LoadOptional W s.1 m s.2) (api, tr)).1.loaded_ = api.loaded_ ∧
      ∃ ext, (ms.foldl (fun s m => LoadOptional W s.1 m s.2) (api, tr)).2 = tr ++ ext ∧
        OnlyGetProc ext := by
  induction ms with
  | nil =>
    intro api tr
    exact ⟨rfl, rfl, [], by simp, fun e he => by simp at he⟩
  | cons m ms ih =>
    intro api tr
    rw [List.foldl_cons]
    obtain ⟨i1, i2, ext, i3, i4⟩ := ih (LoadOptional W api m tr).1 (LoadOptional W api m tr).2
    have hone : OnlyGetProc [Event.GetProcAddress api.module_ m.symbol] := by
      intro e he
      exact ⟨_, _, List.mem_singleton.mp he⟩
    refine ⟨?_, ?_, [Event.GetProcAddress api.module_ m.symbol] ++ ext, ?_, hone.append i4⟩
    · rw [i1]; simp [LoadOptional]
    · rw [i2]; simp [LoadOptional]
    · rw [i3]; simp [LoadOptional]

theorem finishLoad_spec (W : World) (api : EverythingApi) (msg : String) (tr : List Event) :
    (finishLoad W api msg tr).ok = true ∧
    (finishLoad W api msg tr).api.module_ = api.module_ ∧
    (finishLoad W api msg tr).api.loaded_ = true ∧
    (finishLoad W api msg tr).errorMessage = msg ∧
    ∃ ext, (finishLoad W api msg tr).trace = tr ++ ext ∧
      (∀ e ∈ ext, e.isLoaderCall = true) ∧ loadAttempts ext = [] ∧ unloads ext = [] := by
  obtain ⟨o1, o2, ext, o3, o4⟩ := loadOptionals_spec W optionalOrder api tr
  unfold finishLoad loadOptionals
  generalize optionalOrder.foldl (fun s m => LoadOptional W s.1 m s.2) (api, tr) = s
    at o1 o2 o3 ⊢
  have hl := o4.isLoaderCall
  have ha := o4.loadAttempts
  have hu := o4.unloads
  simp only
  split
  · refine ⟨rfl, o1, rfl, rfl, ext ++
      ([Event.GetProcAddress s.1.module_ "Everything_GetMajorVersion",
        Event.GetProcAddress s.1.module_ "Everything_GetMinorVersion",
        Event.GetProcAddress s.1.module_ "Everything_GetRevision",
        Event.GetProcAddress s.1.module_ "Everything_GetBuildNumber"] ++
       [Event.GetMajorVersion, Event.GetMinorVersion, Event.GetRevision,
        Event.GetBuildNumber]), by simp only [o3, List.append_assoc], ?_, ?_, ?_⟩
    · intro e he
      rcases List.mem_append.mp he with h | h
      · exact hl e h
      · simp only [List.mem_append, List.mem_cons, List.mem_singleton, List.not_mem_nil,
          or_false] at h
        rcases h with (h | h | h | h) | (h | h | h | h) <;> rw [h] <;> rfl
    · rw [loadAttempts_append, ha]; rfl
    · rw [unloads_append, hu]; rfl
  · refine ⟨rfl, o1, rfl, rfl, ext ++
      [Event.GetProcAddress s.1.module_ "Everything_GetMajorVersion",
        Event.GetProcAddress s.1.module_ "Everything_GetMinorVersion",
        Event.GetProcAddress s.1.module_ "Everything_GetRevision",
        Event.GetProcAddress s.1.module_ "Everything_GetBuildNumber"],
      by simp only [o3, List.append_assoc], ?_, ?_, ?_⟩
    · intro e he
      rcases List.mem_append.mp he with h | h
      · exact hl e h
      · simp only [List.mem_cons, List.mem_singleton, List.not_mem_nil, or_false] at h
        rcases h with h | h | h | h <;> rw [h] <;> rfl
    · rw [loadAttempts_append, ha]; rfl
    · rw [unloads_append, hu]; rfl

/-- The effect of `LoadFromPath` on one candidate. -/
theorem LoadFromPath_spec (W : World) (api : EverythingApi) (c : WString) (msg : String)
    (tr : List Event) :
    (LoadFromPath W api c msg tr).ok = usable W c ∧
    (∃ ext, (LoadFromPath W api c msg tr).trace = tr ++ ext ∧
      (∀ e ∈ ext, e.isLoaderCall = true) ∧ loadAttempts ext = [c] ∧
      unloads ext = if usable W c then [] else (loadedHandle W c).toList) ∧
    (usable W c = false →
      (LoadFromPath W api c msg tr).api.module_ = none ∧
      (LoadFromPath W api c msg tr).api.loaded_ = api.loaded_ ∧
      (LoadFromPath W api c msg tr).errorMessage = candidateError W c) ∧
    (usable W c = true →
      (LoadFromPath W api c msg tr).api.module_ = loadedHandle W c ∧
      (LoadFromPath W api c msg tr).api.loaded_ = true) := by
  unfold LoadFromPath usable loadedHandle candidateError
  cases hload : W.LoadLibraryW c with
  | error winErr =>
    refine ⟨rfl, ⟨[Event.LoadLibraryW c], rfl, ?_, rfl, rfl⟩, fun _ => ⟨rfl, rfl, rfl⟩, ?_⟩
    · intro e he
      rw [List.mem_singleton.mp he]; rfl
    · intro h; cases h
  | ok h =>
    obtain ⟨r1, r2, r3, r4, ext, r5, r6⟩ := resolveChain_spec W requiredOrder
      { api with module_ := some h } msg (tr ++ [Event.LoadLibraryW c])
    simp only [] at r1 r2 r3 r4 ⊢
    unfold ResolveRequiredSymbols
    generalize resolveChain W requiredOrder { api with module_ := some h } msg
        (tr ++ [Event.LoadLibraryW c]) = r at r1 r2 r3 r4 r5 ⊢
    have hl := r6.isLoaderCall
    have ha := r6.loadAttempts
    have hu := r6.unloads
    by_cases hok : r.ok = true
    · rw [hok] at r3
      simp only [hok, Bool.not_true, Bool.false_eq_true, if_false, ← r3, if_true]
      obtain ⟨f1, f2, f3, f4, ext2, f5, f6, f7, f8⟩ := finishLoad_spec W r.api r.errorMessage r.trace
      refine ⟨f1, ⟨[Event.LoadLibraryW c] ++ ext ++ ext2, ?_, ?_, ?_, ?_⟩, ?_, ?_⟩
      · rw [f5, r5]; simp only [List.append_assoc]
      · intro e he
        rcases List.mem_append.mp he with h1 | h1
        · rcases List.mem_append.mp h1 with h2 | h2
          · rw [List.mem_singleton.mp h2]; rfl
          · exact hl e h2
        · exact f6 e h1
      · rw [loadAttempts_append, loadAttempts_append, ha, f7]; rfl
      · rw [unloads_append, unloads_append, hu, f8]; rfl
      · intro h; cases h
      · intro _
        exact ⟨f2.trans r1, f3⟩
    · have hok2 : r.ok = false := by simpa using hok
      rw [hok2] at r3
      simp only [hok2, Bool.not_false, if_true, ← r3, Bool.false_eq_true, if_false]
      refine ⟨trivial, ⟨[Event.LoadLibraryW c] ++ ext ++ [Event.FreeLibrary h], ?_, ?_, ?_, ?_⟩,
        ?_, ?_⟩
      · rw [r5]; simp only [List.append_assoc]
      · intro e he
        rcases List.mem_append.mp he with h1 | h1
        · rcases List.mem_append.mp h1 with h2 | h2
          · rw [List.mem_singleton.mp h2]; rfl
          · exact hl e h2
        · rw [List.mem_singleton.mp h1]; rfl
      · rw [loadAttempts_append, loadAttempts_append, ha]; rfl
      · rw [unloads_append, unloads_append, hu]; rfl
      · intro _
        refine ⟨trivial, r2, ?_⟩
        rw [r4]
        have : ∃ m, List.find? (fun m => (W.GetProcAddress (some h) m.symbol).isNone)
            requiredOrder = some m := by
          cases hf : List.find? (fun m => (W.GetProcAddress (some h) m.symbol).isNone)
            requiredOrder with
          | some m => exact ⟨m, rfl⟩
          | none =>
            exfalso
            rw [List.find?_eq_none] at hf
            have : (requiredOrder.all fun m => (W.GetProcAddress (some h) m.symbol).isSome)
                = true := by
              rw [List.all_eq_true]
              intro m hm
              have := hf m hm
              cases hg : W.GetProcAddress (some h) m.symbol <;> simp_all
            rw [this] at r3
            cases r3
        obtain ⟨m, hm⟩ := this
        rw [hm]
      · intro h; cases h

theorem candidateError_ne_empty (W : World) (c : WString) (h : usable W c = false) :
    (candidateError W c).isEmpty = false := by
  have key : ∀ (a b : String), a.data ≠ [] → (a ++ b).isEmpty = false := by
    intro a b ha
    cases hab : (a ++ b).isEmpty
    · rfl
    · exfalso
      have h1 := (String.isEmpty_iff _).mp hab
      have h2 : (a ++ b).data = [] := by rw [h1]
      rw [String.data_append] at h2
      exact ha (List.append_eq_nil.mp h2).1
  unfold candidateError
  unfold usable at h
  cases hload : W.LoadLibraryW c with
  | error winErr =>
    simp only
    rw [String.append_assoc]
    exact key _ _ (by decide)
  | ok hd =>
    rw [hload] at h
    simp only at h ⊢
    cases hf : List.find? (fun m => (W.GetProcAddress (some hd) m.symbol).isNone)
        requiredOrder with
    | some m => exact key _ _ (by decide)
    | none =>
      exfalso
      rw [List.find?_eq_none] at hf
      have : (requiredOrder.all fun m => (W.GetProcAddress (some hd) m.symbol).isSome)
          = true := by
        rw [List.all_eq_true]
        intro m hm
        have := hf m hm
        cases hg : W.GetProcAddress (some hd) m.symbol <;> simp_all
      rw [this] at h
      cases h

theorem nonEmpties_cons_empty (c : WString) (cs : List WString) (h : c.isEmpty = true) :
    nonEmpties (c :: cs) = nonEmpties cs := by
  simp [nonEmpties, List.filter_cons, h]

theorem nonEmpties_cons_nonempty (c : WString) (cs : List WString) (h : c.isEmpty = false) :
    nonEmpties (c :: cs) = c :: nonEmpties cs := by
  simp [nonEmpties, List.filter_cons, h]

/-- The loop of `EnsureLoaded` when no candidate is usable. -/
theorem tryCandidates_fail (W : World) (cs : List WString) :
    ∀ (api : EverythingApi) (msg lastError : String) (tr : List Event),
      (∀ c ∈ cs, c.isEmpty = false → usable W c = false) →
      (tryCandidates W cs api msg lastError tr).ok = false ∧
      (tryCandidates W cs api msg lastError tr).api.loaded_ = api.loaded_ ∧
      (tryCandidates W cs api msg lastError tr).api.module_
        = (if nonEmpties cs = [] then api.module_ else none) ∧
      (tryCandidates W cs api msg lastError tr).errorMessage
        = ((nonEmpties cs).getLast?.map (candidateError W)).getD lastError ∧
      ∃ ext, (tryCandidates W cs api msg lastError tr).trace = tr ++ ext ∧
        (∀ e ∈ ext, e.isLoaderCall = true) ∧ loadAttempts ext = nonEmpties cs ∧
        unloads ext = (nonEmpties cs).filterMap (loadedHandle W) := by
  induction cs with
  | nil =>
    intro api msg lastError tr _
    exact ⟨rfl, rfl, rfl, rfl, [], by simp [tryCandidates], by simp, rfl, rfl⟩
  | cons c cs ih =>
    intro api msg lastError tr hall
    have hrest : ∀ d ∈ cs, d.isEmpty = false → usable W d = false :=
      fun d hd => hall d (List.mem_cons_of_mem _ hd)
    unfold tryCandidates
    by_cases hc : c.isEmpty = true
    · rw [if_pos hc, nonEmpties_cons_empty c cs hc]
      exact ih api msg lastError tr hrest
    · have hc2 : c.isEmpty = false := by simpa using hc
      have hu : usable W c = false := hall c (List.mem_cons_self _ _) hc2
      rw [if_neg hc, nonEmpties_cons_nonempty c cs hc2]
      obtain ⟨l1, ⟨ext1, l2, l3, l4, l5⟩, l6, -⟩ := LoadFromPath_spec W api c msg tr
      obtain ⟨l7, l8, l9⟩ := l6 hu
      rw [hu] at l1 l5
      have hne := candidateError_ne_empty W c hu
      simp only [l1, Bool.false_eq_true, if_false, l9, hne, Bool.not_false, if_true]
      obtain ⟨i1, i2, i3, i4, ext2, i5, i6, i7, i8⟩ := ih (LoadFromPath W api c msg tr).api
        (candidateError W c) (candidateError W c) (LoadFromPath W api c msg tr).trace hrest
      refine ⟨i1, i2.trans l8, ?_, ?_, ext1 ++ ext2, ?_, ?_, ?_, ?_⟩
      · rw [i3, l7]; simp
      · rw [i4]
        cases hl : (nonEmpties cs).getLast? with
        | none =>
          have : nonEmpties cs = [] := List.getLast?_eq_none_iff.mp hl
          simp [this]
        | some d =>
          have : (c :: nonEmpties cs).getLast? = some d := by
            rw [List.getLast?_cons, hl]; rfl
          simp [this]
      · rw [i5, l2, List.append_assoc]
      · intro e he
        rcases List.mem_append.mp he with h | h
        · exact l3 e h
        · exact i6 e h
      · rw [loadAttempts_append, l4, i7]; rfl
      · rw [unloads_append, l5, i8]
        simp only [Bool.false_eq_true, if_false, List.filterMap_cons]
        cases loadedHandle W c <;> rfl

/-- The loop of `EnsureLoaded` up to the first usable candidate. -/
theorem tryCandidates_ok (W : World) (pre : List WString) :
    ∀ (c : WString) (post : List WString) (api : EverythingApi) (msg lastError : String)
      (tr : List Event),
      c.isEmpty = false → usable W c = true →
      (∀ d ∈ pre, d.isEmpty = false → usable W d = false) →
      (tryCandidates W (pre ++ c :: post) api msg lastError tr).ok = true ∧
      (tryCandidates W (pre ++ c :: post) api msg lastError tr).api.loaded_ = true ∧
      (tryCandidates W (pre ++ c :: post) api msg lastError tr).api.module_
        = loadedHandle W c ∧
      ∃ ext, (tryCandidates W (pre ++ c :: post) api msg lastError tr).trace = tr ++ ext ∧
        (∀ e ∈ ext, e.isLoaderCall = true) ∧ loadAttempts ext = nonEmpties pre ++ [c] ∧
        unloads ext = (nonEmpties pre).filterMap (loadedHandle W) := by
  induction pre with
  | nil =>
    intro c post api msg lastError tr hc hu _
    have hc1 : ¬ c.isEmpty = true := by simp [hc]
    obtain ⟨l1, ⟨ext1, l2, l3, l4, l5⟩, -, l6⟩ := LoadFromPath_spec W api c msg tr
    obtain ⟨l7, l8⟩ := l6 hu
    rw [hu] at l1 l5
    rw [List.nil_append]
    unfold tryCandidates
    rw [if_neg hc1]
    simp only [l1, if_true]
    exact ⟨trivial, l8, l7, ext1, l2, l3, l4, l5⟩
  | cons d pre ih =>
    intro c post api msg lastError tr hc hu hall
    have hrest : ∀ e ∈ pre, e.isEmpty = false → usable W e = false :=
      fun e he => hall e (List.mem_cons_of_mem _ he)
    rw [List.cons_append]
    unfold tryCandidates
    by_cases hd : d.isEmpty = true
    · rw [if_pos hd, nonEmpties_cons_empty d pre hd]
      exact ih c post api msg lastError tr hc hu hrest
    · have hd2 : d.isEmpty = false := by simpa using hd
      have hud : usable W d = false := hall d (List.mem_cons_self _ _) hd2
      rw [if_neg hd, nonEmpties_cons_nonempty d pre hd2]
      obtain ⟨l1, ⟨ext1, l2, l3, l4, l5⟩, l6, -⟩ := LoadFromPath_spec W api d msg tr
      rw [hud] at l1 l5
      simp only [l1, Bool.false_eq_true, if_false]
      obtain ⟨i1, i2, i3, ext2, i5, i6, i7, i8⟩ := ih c post (LoadFromPath W api d msg tr).api
        (LoadFromPath W api d msg tr).errorMessage
        (if (!(LoadFromPath W api d msg tr).errorMessage.isEmpty) = true then
          (LoadFromPath W api d msg tr).errorMessage else lastError)
        (LoadFromPath W api d msg tr).trace hc hu hrest
      refine ⟨i1, i2, i3, ext1 ++ ext2, ?_, ?_, ?_, ?_⟩
      · rw [i5, l2, List.append_assoc]
      · intro e he
        rcases List.mem_append.mp he with h | h
        · exact l3 e h
        · exact i6 e h
      · rw [loadAttempts_append, l4, i7]; rfl
      · rw [unloads_append, l5, i8]
        simp only [Bool.false_eq_true, if_false, List.filterMap_cons]
        cases loadedHandle W d <;> rfl

/-- A list with an element satisfying `p` splits at the first such element. -/
theorem exists_first_split {α : Type} (p : α → Bool) (l : List α) :
    (∃ c ∈ l, p c = true) →
    ∃ pre c post, l = pre ++ c :: post ∧ p c = true ∧ ∀ d ∈ pre, p d = false := by
  induction l with
  | nil => rintro ⟨c, hc, -⟩; cases hc
  | cons a l ih =>
    rintro ⟨c, hc, hp⟩
    by_cases ha : p a = true
    · exact ⟨[], a, l, rfl, ha, fun d hd => by cases hd⟩
    · have hc2 : c ∈ l := by
        rcases List.mem_cons.mp hc with h | h
        · rw [h] at hp; exact absurd hp ha
        · exact h
      obtain ⟨pre, c2, post, e, h1, h2⟩ := ih ⟨c, hc2, hp⟩
      refine ⟨a :: pre, c2, post, by rw [e]; rfl, h1, ?_⟩
      intro d hd
      rcases List.mem_cons.mp hd with h | h
      · rw [h]; simpa using ha
      · exact h2 d h

theorem isEmpty_eq_false_iff (c : WString) : c.isEmpty = false ↔ c ≠ [] := by
  cases c <;> simp

theorem default_mem_BuildCandidatePaths (W : World) :
    L "Everything.dll" ∈ BuildCandidatePaths W := by
  unfold BuildCandidatePaths
  simp only
  split_ifs <;> simp

theorem attemptable_ne_nil (W : World) : attemptable W ≠ [] := by
  intro h
  have hm : L "Everything.dll" ∈ attemptable W := by
    unfold attemptable nonEmpties
    rw [List.mem_filter]
    exact ⟨default_mem_BuildCandidatePaths W, by decide⟩
  rw [h] at hm
  cases hm

theorem usable_of_same_handle (W : World) (c d : WString) (h : Nat)
    (hc : W.LoadLibraryW c = .ok h) (hd : W.LoadLibraryW d = .ok h) :
    usable W c = usable W d := by
  unfold usable
  rw [hc, hd]

/-- The outcome of `EnsureLoaded` on a resolver that is not loaded is decided by the
candidates alone. -/
theorem EnsureLoaded_ok_iff (W : World) (api : EverythingApi) (msg : String)
    (tr : List Event) (hnot : api.loaded_ = false) :
    (EnsureLoaded W api msg tr).ok = true ↔
      ∃ c ∈ BuildCandidatePaths W, c ≠ [] ∧ usable W c = true := by
  unfold EnsureLoaded
  rw [hnot]
  simp only [Bool.false_eq_true, if_false]
  constructor
  · intro hok
    by_contra hno
    have hall : ∀ c ∈ BuildCandidatePaths W, c.isEmpty = false → usable W c = false := by
      intro c hc hne
      cases hu : usable W c
      · rfl
      · exact absurd ⟨c, hc, (isEmpty_eq_false_iff c).mp hne, hu⟩ hno
    have := (tryCandidates_fail W (BuildCandidatePaths W) api msg
      "Everything SDK DLL not found" tr hall).1
    rw [this] at hok
    cases hok
  · rintro ⟨c, hc, hne, hu⟩
    obtain ⟨pre, c2, post, e, h1, h2⟩ := exists_first_split
      (fun c => !c.isEmpty && usable W c) (BuildCandidatePaths W)
      ⟨c, hc, by simp [(isEmpty_eq_false_iff c).mpr hne, hu]⟩
    simp only [Bool.and_eq_true, Bool.not_eq_true', Bool.and_eq_false_imp] at h1 h2
    rw [e]
    exact (tryCandidates_ok W pre c2 post api msg "Everything SDK DLL not found" tr h1.1 h1.2
      (fun d hd hne => h2 d hd hne)).1

/-- A successful `EnsureLoaded` on a resolver that is not loaded stopped at the first
usable candidate. -/
theorem EnsureLoaded_ok_split (W : World) (api : EverythingApi) (msg : String)
    (tr : List Event) (hnot : api.loaded_ = false)
    (hok : (EnsureLoaded W api msg tr).ok = true) :
    ∃ pre c post h ext,
      BuildCandidatePaths W = pre ++ c :: post ∧
      c ≠ [] ∧ usable W c = true ∧ (∀ d ∈ pre, d ≠ [] → usable W d = false) ∧
      W.LoadLibraryW c = .ok h ∧
      (EnsureLoaded W api msg tr).api.module_ = some h ∧
      (EnsureLoaded W api msg tr).api.loaded_ = true ∧
      (EnsureLoaded W api msg tr).trace = tr ++ ext ∧
      (∀ e ∈ ext, e.isLoaderCall = true) ∧
      loadAttempts ext = nonEmpties pre ++ [c] ∧
      unloads ext = (nonEmpties pre).filterMap (loadedHandle W) ∧
      h ∉ unloads ext := by
  obtain ⟨c, hc, hne, hu⟩ := (EnsureLoaded_ok_iff W api msg tr hnot).mp hok
  obtain ⟨pre, c2, post, e, h1, h2⟩ := exists_first_split
    (fun c => !c.isEmpty && usable W c) (BuildCandidatePaths W)
    ⟨c, hc, by simp [(isEmpty_eq_false_iff c).mpr hne, hu]⟩
  simp only [Bool.and_eq_true, Bool.not_eq_true', Bool.and_eq_false_imp] at h1 h2
  obtain ⟨t1, t2, t3, ext, t4, t5, t6, t7⟩ := tryCandidates_ok W pre c2 post api msg
    "Everything SDK DLL not found" tr h1.1 h1.2 (fun d hd hne => h2 d hd hne)
  have hload : ∃ h, W.LoadLibraryW c2 = .ok h := by
    have := h1.2
    unfold usable at this
    cases hl : W.LoadLibraryW c2 with
    | ok h => exact ⟨h, rfl⟩
    | error e => rw [hl] at this; cases this
  obtain ⟨h, hload⟩ := hload
  have hE : EnsureLoaded W api msg tr
      = tryCandidates W (pre ++ c2 :: post) api msg "Everything SDK DLL not found" tr := by
    unfold EnsureLoaded
    rw [hnot, e]
    simp
  have hh : loadedHandle W c2 = some h := by unfold loadedHandle; rw [hload]
  refine ⟨pre, c2, post, h, ext, e, (isEmpty_eq_false_iff c2).mp h1.1, h1.2, ?_, hload, ?_, ?_,
    ?_, t5, t6, t7, ?_⟩
  · exact fun d hd hne => h2 d hd ((isEmpty_eq_false_iff d).mpr hne)
  · rw [hE, t3, hh]
  · rw [hE, t2]
  · rw [hE, t4]
  · rw [t7, List.mem_filterMap]
    rintro ⟨d, hd, hdh⟩
    have hd1 := (List.mem_filter.mp hd).1
    have hd2 : d.isEmpty = false := by simpa using (List.mem_filter.mp hd).2
    have hdl : W.LoadLibraryW d = .ok h := by
      unfold loadedHandle at hdh
      cases hl : W.LoadLibraryW d with
      | ok h2 => rw [hl] at hdh; simp only [Option.some.injEq] at hdh; rw [hdh]
      | error e => rw [hl] at hdh; cases hdh
    have := usable_of_same_handle W d c2 h hdl hload
    rw [h2 d hd1 hd2, h1.2] at this
    cases this

/-- A failed `EnsureLoaded` attempted every non-empty candidate and left the resolver not
loaded, with the error of the last one. -/
theorem EnsureLoaded_fail_spec (W : World) (api : EverythingApi) (msg : String)
    (tr : List Event) (hfail : (EnsureLoaded W api msg tr).ok = false) :
    api.loaded_ = false ∧
    (EnsureLoaded W api msg tr).api.loaded_ = false ∧
    (EnsureLoaded W api msg tr).api.module_ = none ∧
    (EnsureLoaded W api msg tr).errorMessage
      = ((attemptable W).getLast?.map (candidateError W)).getD "Everything SDK DLL not found" ∧
    (∀ c ∈ attemptable W, usable W c = false) ∧
    ∃ ext, (EnsureLoaded W api msg tr).trace = tr ++ ext ∧
      (∀ e ∈ ext, e.isLoaderCall = true) ∧ loadAttempts ext = attemptable W ∧
      unloads ext = (attemptable W).filterMap (loadedHandle W) := by
  have hnot : api.loaded_ = false := by
    cases h : api.loaded_
    · rfl
    · unfold EnsureLoaded at hfail
      rw [h] at hfail
      simp at hfail
  have hall : ∀ c ∈ BuildCandidatePaths W, c.isEmpty = false → usable W c = false := by
    intro c hc hne
    cases hu : usable W c
    · rfl
    · have := (EnsureLoaded_ok_iff W api msg tr hnot).mpr
        ⟨c, hc, (isEmpty_eq_false_iff c).mp hne, hu⟩
      rw [hfail] at this
      cases this
  have hE : EnsureLoaded W api msg tr
      = tryCandidates W (BuildCandidatePaths W) api msg "Everything SDK DLL not found" tr := by
    unfold EnsureLoaded
    rw [hnot]
    simp
  obtain ⟨f1, f2, f3, f4, ext, f5, f6, f7, f8⟩ := tryCandidates_fail W (BuildCandidatePaths W)
    api msg "Everything SDK DLL not found" tr hall
  have hne := attemptable_ne_nil W
  unfold attemptable at hne ⊢
  refine ⟨hnot, ?_, ?_, ?_, ?_, ext, ?_, f6, f7, f8⟩
  · rw [hE, f2, hnot]
  · rw [hE, f3, if_neg hne]
  · rw [hE, f4]
  · intro c hc
    unfold nonEmpties at hc
    have := List.mem_filter.mp hc
    exact hall c this.1 (by simpa using this.2)
  · rw [hE, f5]

/-! ## Lemmas on the query executor -/

/-- A finished pass of the full-path loop only added result reads to the trace. -/
theorem fullPathLoop_trace (W : World) (index : Nat) (fuel : Nat) :
    ∀ (buffer : List Nat) (tr : List Event) (p : WString) (tr2 : List Event),
      fullPathLoop W index fuel buffer tr = .ok (p, tr2) →
      ∃ ext, tr2 = tr ++ ext ∧ ∀ e ∈ ext, e.isResultRead = true := by
  induction fuel with
  | zero =>
    intro buffer tr p tr2 h
    simp [fullPathLoop] at h
  | succ fuel ih =>
    intro buffer tr p tr2 h
    unfold fullPathLoop at h
    simp only at h
    have hone : ∀ e ∈ [Event.GetResultFullPathNameW index (buffer.length % 2 ^ 32)],
        e.isResultRead = true := by
      intro e he
      rw [List.mem_singleton.mp he]; rfl
    split at h
    · simp only [Except.ok.injEq, Prod.mk.injEq] at h
      exact ⟨_, h.2.symm, hone⟩
    · split at h
      · simp only [Except.ok.injEq, Prod.mk.injEq] at h
        exact ⟨_, h.2.symm, hone⟩
      · obtain ⟨ext, e1, e2⟩ := ih _ _ p tr2 h
        refine ⟨[Event.GetResultFullPathNameW index (buffer.length % 2 ^ 32)] ++ ext, ?_, ?_⟩
        · rw [e1, List.append_assoc]
        · intro e he
          rcases List.mem_append.mp he with h1 | h1
          · exact hone e h1
          · exact e2 e h1

/-- The full-path loop finishes when the fuel covers the distance of the buffer size from
`2 ^ 32`. -/
theorem fullPathLoop_total (W : World) (index : Nat) (fuel : Nat) :
    ∀ (buffer : List Nat) (tr : List Event),
      buffer.length ≤ 2 ^ 32 → 2 ^ 32 + 1 ≤ fuel + buffer.length →
      ∃ res, fullPathLoop W index fuel buffer tr = .ok res := by
  induction fuel with
  | zero =>
    intro buffer tr h1 h2
    omega
  | succ fuel ih =>
    intro buffer tr h1 h2
    unfold fullPathLoop
    simp only
    split
    · exact ⟨_, rfl⟩
    · split
      · exact ⟨_, rfl⟩
      · rename_i hc1 hc2
        have hlen : (List.take buffer.length (W.GetResultFullPathNameW tr index
            (buffer.length % 2 ^ 32)).2 ++ List.drop (List.take buffer.length
            (W.GetResultFullPathNameW tr index (buffer.length % 2 ^ 32)).2).length buffer).length
            = buffer.length := by
          simp only [List.length_append, List.length_take, List.length_drop]
          omega
        rw [hlen] at hc2 ⊢
        have hlt : (W.GetResultFullPathNameW tr index (buffer.length % 2 ^ 32)).1 % 2 ^ 32
            < 2 ^ 32 := Nat.mod_lt _ (by norm_num)
        apply ih
        · simp only [List.length_append, List.length_replicate, hlen]
          omega
        · simp only [List.length_append, List.length_replicate, hlen]
          omega

theorem find_last_of_eq_none (s : WString) (chars : List Nat)
    (h : ∀ x ∈ s, x ∉ chars) : find_last_of s chars = none := by
  induction s with
  | nil => rfl
  | cons c cs ih =>
    unfold find_last_of
    rw [ih (fun x hx => h x (List.mem_cons_of_mem _ hx))]
    have hc := h c (List.mem_cons_self _ _)
    simp [hc]

theorem find_last_of_split (pre : WString) (c : Nat) (suf : WString) (chars : List Nat)
    (hc : c ∈ chars) (hsuf : ∀ x ∈ suf, x ∉ chars) :
    find_last_of (pre ++ c :: suf) chars = some pre.length := by
  induction pre with
  | nil =>
    rw [List.nil_append]
    unfold find_last_of
    rw [find_last_of_eq_none suf chars hsuf]
    simp [hc]
  | cons a pre ih =>
    rw [List.cons_append]
    unfold find_last_of
    rw [ih]
    rfl

/-- The extension after the last dot of a name: the part behind it. -/
theorem extensionWideOf_split (pre suf : WString) (hsuf : 46 ∉ suf) :
    extensionWideOf (pre ++ 46 :: suf) = suf := by
  unfold extensionWideOf
  rw [find_last_of_split pre 46 suf [46] (by simp) (by
    intro x hx hx2
    rw [List.mem_singleton] at hx2
    rw [hx2] at hx
    exact hsuf hx)]
  simp only
  cases suf with
  | nil => simp
  | cons a suf =>
    have : pre.length + 1 < (pre ++ 46 :: a :: suf).length := by
      simp only [List.length_append, List.length_cons]
      omega
    rw [if_pos this]
    have : pre ++ 46 :: a :: suf = (pre ++ [46]) ++ a :: suf := by simp
    rw [this, List.drop_left' (by simp)]

/-- A name without a dot has an empty extension. -/
theorem extensionWideOf_no_dot (nameWide : WString) (h : 46 ∉ nameWide) :
    extensionWideOf nameWide = [] := by
  unfold extensionWideOf
  rw [find_last_of_eq_none nameWide [46] (by
    intro x hx hx2
    rw [List.mem_singleton] at hx2
    rw [hx2] at hx
    exact h hx)]

theorem processResult_ok (W : World) (api : EverythingApi) (i : Nat) (tr : List Event)
    (item : Option SearchResultItem) (tr2 : List Event)
    (h : processResult W api i tr = .ok (item, tr2)) :
    (∃ ext, tr2 = tr ++ ext ∧ ∀ e ∈ ext, e.isResultRead = true) ∧
    ∀ it, item = some it → NameExtension W it := by
  unfold processResult at h
  split at h
  · cases h
  · rename_i fullPathWide tr1 hfp
    have hfp2 : ∃ ext, tr1 = tr ++ ext ∧ ∀ e ∈ ext, e.isResultRead = true := by
      unfold GetResultFullPath at hfp
      split at hfp
      · cases hfp
      · exact fullPathLoop_trace W i _ _ _ _ _ hfp
    obtain ⟨ext1, e1, e2⟩ := hfp2
    split at h
    · cases h
    · simp only at h
      split at h
      · simp only [Except.ok.injEq, Prod.mk.injEq] at h
        refine ⟨⟨ext1 ++ [Event.GetResultFileNameW i], ?_, ?_⟩, ?_⟩
        · rw [← h.2, e1, List.append_assoc]
        · intro e he
          rcases List.mem_append.mp he with h1 | h1
          · exact e2 e h1
          · rw [List.mem_singleton.mp h1]; rfl
        · intro it hit
          rw [← h.1] at hit
          cases hit
      · simp only [Except.ok.injEq, Prod.mk.injEq] at h
        obtain ⟨h1, h2⟩ := h
        refine ⟨?_, ?_⟩
        · refine ⟨ext1 ++ ([Event.GetResultFileNameW i] ++
            (if api.getResultSize.isSome then [Event.GetResultSize i] else []) ++
            (if api.getResultDateModified.isSome then [Event.GetResultDateModified i] else []) ++
            (if api.getResultDateCreated.isSome then [Event.GetResultDateCreated i] else []) ++
            (if api.isFolderResult.isSome then [Event.IsFolderResult i] else [])), ?_, ?_⟩
          · rw [← h2, e1]
            split_ifs <;> simp
          · intro e he
            rcases List.mem_append.mp he with h3 | h3
            · exact e2 e h3
            · have : ∀ e ∈ ([Event.GetResultFileNameW i] ++
                  (if api.getResultSize.isSome then [Event.GetResultSize i] else []) ++
                  (if api.getResultDateModified.isSome then [Event.GetResultDateModified i]
                    else []) ++
                  (if api.getResultDateCreated.isSome then [Event.GetResultDateCreated i]
                    else []) ++
                  (if api.isFolderResult.isSome then [Event.IsFolderResult i] else [])),
                  e.isResultRead = true := by
                intro e he
                simp only [List.mem_append, List.mem_singleton] at he
                rcases he with (((he | he) | he) | he) | he
                · rw [he]; rfl
                · split at he
                  · rw [List.mem_singleton.mp he]; rfl
                  · cases he
                · split at he
                  · rw [List.mem_singleton.mp he]; rfl
                  · cases he
                · split at he
                  · rw [List.mem_singleton.mp he]; rfl
                  · cases he
                · split at he
                  · rw [List.mem_singleton.mp he]; rfl
                  · cases he
              exact this e h3
        · intro it hit
          rw [← h1] at hit
          simp only [Option.some.injEq] at hit
          rw [← hit]
          exact ⟨_, rfl, rfl, rfl⟩

theorem GetResultFullPath_total (W : World) (api : EverythingApi) (i : Nat) (tr : List Event)
    (h : api.getResultFullPathName.isSome = true) :
    ∃ res, GetResultFullPath W api i tr = .ok res := by
  unfold GetResultFullPath
  cases hp : api.getResultFullPathName with
  | none => rw [hp] at h; cases h
  | some a =>
    simp only
    exact fullPathLoop_total W i (2 ^ 32) (List.replicate 4096 0) tr
      (by rw [List.length_replicate]; norm_num) (by rw [List.length_replicate]; norm_num)

theorem processResult_total (W : World) (api : EverythingApi) (i : Nat) (tr : List Event)
    (h1 : api.getResultFullPathName.isSome = true) (h2 : api.getResultFileName.isSome = true) :
    ∃ res, processResult W api i tr = .ok res := by
  obtain ⟨⟨p, tr1⟩, hfp⟩ := GetResultFullPath_total W api i tr h1
  unfold processResult
  rw [hfp]
  simp only
  cases hp : api.getResultFileName with
  | none => rw [hp] at h2; cases h2
  | some a =>
    simp only
    split
    · exact ⟨_, rfl⟩
    · exact ⟨_, rfl⟩

theorem resultLoop_ok (W : World) (api : EverythingApi) (remaining : Nat) :
    ∀ (i : Nat) (tr : List Event) (items : List SearchResultItem) (tr2 : List Event),
      resultLoop W api remaining i tr = .ok (items, tr2) →
      (∃ ext, tr2 = tr ++ ext ∧ ∀ e ∈ ext, e.isResultRead = true) ∧
      ∀ it ∈ items, NameExtension W it := by
  induction remaining with
  | zero =>
    intro i tr items tr2 h
    simp only [resultLoop, Except.ok.injEq, Prod.mk.injEq] at h
    refine ⟨⟨[], by rw [← h.2]; simp, by simp⟩, ?_⟩
    rw [← h.1]
    intro it hit
    cases hit
  | succ remaining ih =>
    intro i tr items tr2 h
    unfold resultLoop at h
    split at h
    · cases h
    · rename_i item tr1 hp
      obtain ⟨⟨ext1, p1, p2⟩, p3⟩ := processResult_ok W api i tr item tr1 hp
      split at h
      · cases h
      · rename_i items1 tr3 hl
        obtain ⟨⟨ext2, l1, l2⟩, l3⟩ := ih (i + 1) tr1 items1 tr3 hl
        simp only [Except.ok.injEq, Prod.mk.injEq] at h
        refine ⟨⟨ext1 ++ ext2, ?_, ?_⟩, ?_⟩
        · rw [← h.2, l1, p1, List.append_assoc]
        · intro e he
          rcases List.mem_append.mp he with h1 | h1
          · exact p2 e h1
          · exact l2 e h1
        · rw [← h.1]
          intro it hit
          rcases List.mem_append.mp hit with h1 | h1
          · exact p3 it (by
              cases item with
              | none => cases h1
              | some x =>
                simp only [Option.toList, List.mem_singleton] at h1
                rw [h1])
          · exact l3 it h1

theorem resultLoop_total (W : World) (api : EverythingApi)
    (h1 : api.getResultFullPathName.isSome = true) (h2 : api.getResultFileName.isSome = true)
    (remaining : Nat) :
    ∀ (i : Nat) (tr : List Event), ∃ res, resultLoop W api remaining i tr = .ok res := by
  induction remaining with
  | zero =>
    intro i tr
    exact ⟨_, rfl⟩
  | succ remaining ih =>
    intro i tr
    obtain ⟨⟨item, tr1⟩, hp⟩ := processResult_total W api i tr h1 h2
    obtain ⟨⟨items, tr2⟩, hl⟩ := ih (i + 1) tr1
    unfold resultLoop
    rw [hp]
    simp only
    rw [hl]
    exact ⟨_, rfl⟩

/-- Whenever the configuration calls all happen they are the calls the specification
lists, in its order. -/
theorem configure_ok (api : EverythingApi) (options : SearchOptions) (wideQuery : WString)
    (tr tr2 : List Event) (h : configure api options wideQuery tr = .ok tr2) :
    tr2 = tr ++ specConfigCalls api options wideQuery := by
  unfold configure at h
  cases ha : api.setSearch with
  | none => rw [ha] at h; cases h
  | some a =>
    cases hb : api.setRequestFlags with
    | none => rw [ha, hb] at h; cases h
    | some b =>
      cases hc : api.setMax with
      | none => rw [ha, hb, hc] at h; cases h
      | some c =>
        cases hd : api.setOffset with
        | none => rw [ha, hb, hc, hd] at h; cases h
        | some d =>
          rw [ha, hb, hc, hd] at h
          simp only [Except.ok.injEq] at h
          rw [← h]
          unfold specConfigCalls
          split_ifs <;> simp

theorem configure_total (api : EverythingApi) (options : SearchOptions) (wideQuery : WString)
    (tr : List Event) (h : requiredResolved api) :
    configure api options wideQuery tr = .ok (tr ++ specConfigCalls api options wideQuery) := by
  have h1 := h .setSearch
  have h2 := h .setRequestFlags
  have h3 := h .setMax
  have h4 := h .setOffset
  simp only [EverythingApi.getRequired] at h1 h2 h3 h4
  have key : ∃ tr2, configure api options wideQuery tr = .ok tr2 := by
    unfold configure
    cases ha : api.setSearch with
    | none => rw [ha] at h1; cases h1
    | some a =>
      cases hb : api.setRequestFlags with
      | none => rw [hb] at h2; cases h2
      | some b =>
        cases hc : api.setMax with
        | none => rw [hc] at h3; cases h3
        | some c =>
          cases hd : api.setOffset with
          | none => rw [hd] at h4; cases h4
          | some d => exact ⟨_, rfl⟩
  obtain ⟨tr2, htr⟩ := key
  rw [htr, configure_ok api options wideQuery tr tr2 htr]

/-- What `executeQuery` adds to the trace, whatever its outcome: configuration calls of the
specification, the query call and result reads; its items relate name and extension. -/
theorem executeQuery_trace (W : World) (api : EverythingApi) (options : SearchOptions)
    (wideQuery : WString) (tr : List Event) :
    (∃ ext, (executeQuery W api options wideQuery tr).trace = tr ++ ext ∧
      ∀ e ∈ ext, e ∈ specConfigCalls api options wideQuery ∨ e = Event.QueryW true ∨
        e.isResultRead = true) ∧
    (∀ n items, (executeQuery W api options wideQuery tr).outcome = .array n items →
      ∀ it ∈ items, NameExtension W it) := by
  unfold executeQuery
  cases hcfg : configure api options wideQuery tr with
  | error f =>
    exact ⟨⟨[], by simp, by simp⟩, fun n items h => by cases h⟩
  | ok tr1 =>
    have h1 := configure_ok api options wideQuery tr tr1 hcfg
    simp only
    cases hq : api.query with
    | none =>
      exact ⟨⟨specConfigCalls api options wideQuery, h1, fun e he => Or.inl he⟩,
        fun n items h => by cases h⟩
    | some q =>
      simp only
      split
      · refine ⟨⟨specConfigCalls api options wideQuery ++ ([Event.QueryW true] ++
          (if api.getLastError.isSome then [Event.GetLastError] else [])), ?_, ?_⟩,
          fun n items h => by cases h⟩
        · rw [h1]
          split_ifs <;> simp
        · intro e he
          rcases List.mem_append.mp he with h2 | h2
          · exact Or.inl h2
          · rcases List.mem_append.mp h2 with h3 | h3
            · exact Or.inr (Or.inl (List.mem_singleton.mp h3))
            · split at h3
              · rw [List.mem_singleton.mp h3]
                exact Or.inr (Or.inr rfl)
              · cases h3
      · cases hn : api.getNumResults with
        | none =>
          refine ⟨⟨specConfigCalls api options wideQuery ++ [Event.QueryW true], ?_, ?_⟩,
            fun n items h => by cases h⟩
          · rw [h1, List.append_assoc]
          · intro e he
            rcases List.mem_append.mp he with h2 | h2
            · exact Or.inl h2
            · exact Or.inr (Or.inl (List.mem_singleton.mp h2))
        | some g =>
          simp only
          cases hl : resultLoop W api (W.GetNumResults (tr1 ++ [Event.QueryW true]) % 2 ^ 32) 0
              (tr1 ++ [Event.QueryW true] ++ [Event.GetNumResults]) with
          | error f =>
            refine ⟨⟨specConfigCalls api options wideQuery ++
              [Event.QueryW true, Event.GetNumResults], ?_, ?_⟩, fun n items h => by cases h⟩
            · rw [h1]; simp
            · intro e he
              rcases List.mem_append.mp he with h2 | h2
              · exact Or.inl h2
              · simp only [List.mem_cons, List.mem_singleton, List.not_mem_nil, or_false] at h2
                rcases h2 with h2 | h2
                · exact Or.inr (Or.inl h2)
                · rw [h2]; exact Or.inr (Or.inr rfl)
          | ok res =>
            obtain ⟨items, tr3⟩ := res
            obtain ⟨⟨ext, l1, l2⟩, l3⟩ := resultLoop_ok W api _ _ _ items tr3 hl
            refine ⟨⟨specConfigCalls api options wideQuery ++
              ([Event.QueryW true, Event.GetNumResults] ++ ext), ?_, ?_⟩, ?_⟩
            · simp only [l1, h1]; simp
            · intro e he
              rcases List.mem_append.mp he with h2 | h2
              · exact Or.inl h2
              · rcases List.mem_append.mp h2 with h3 | h3
                · simp only [List.mem_cons, List.mem_singleton, List.not_mem_nil,
                    or_false] at h3
                  rcases h3 with h3 | h3
                  · exact Or.inr (Or.inl h3)
                  · rw [h3]; exact Or.inr (Or.inr rfl)
                · exact Or.inr (Or.inr (l2 e h3))
            · intro n its h
              simp only [Outcome.array.injEq] at h
              rw [← h.2]
              exact l3

/-- The run of `executeQuery` on a resolver whose required pointers are all set: the
trace after the configuration calls is `tq`; the query call decides between the failure
and an array. -/
theorem executeQuery_spec (W : World) (api : EverythingApi) (options : SearchOptions)
    (wideQuery : WString) (tr : List Event) (hreq : requiredResolved api) :
    (W.QueryW (tr ++ specConfigCalls api options wideQuery) true = 0 →
      executeQuery W api options wideQuery tr =
        { outcome := .throw ("Everything query failed, error code: " ++
            toString (W.GetLastError (tr ++ specConfigCalls api options wideQuery ++
              [Event.QueryW true]) % 2 ^ 32)) "ERR_EVERYTHING_QUERY_FAILED",
          api := api,
          trace := tr ++ specConfigCalls api options wideQuery ++
            [Event.QueryW true] ++ [Event.GetLastError] }) ∧
    (W.QueryW (tr ++ specConfigCalls api options wideQuery) true ≠ 0 →
      ∃ items rest,
        executeQuery W api options wideQuery tr =
          { outcome := .array (W.GetNumResults (tr ++ specConfigCalls api options wideQuery ++
              [Event.QueryW true]) % 2 ^ 32) items,
            api := api,
            trace := tr ++ specConfigCalls api options wideQuery ++ [Event.QueryW true] ++
              rest } ∧
        ∀ e ∈ rest, e.isResultRead = true) := by
  have hcfg := configure_total api options wideQuery tr hreq
  have h1 := hreq .query
  have h2 := hreq .getLastError
  have h3 := hreq .getNumResults
  have h4 := hreq .getResultFileName
  have h5 := hreq .getResultFullPathName
  simp only [EverythingApi.getRequired] at h1 h2 h3 h4 h5
  obtain ⟨q, hq⟩ := Option.isSome_iff_exists.mp h1
  obtain ⟨g, hg⟩ := Option.isSome_iff_exists.mp h3
  unfold executeQuery
  rw [hcfg]
  simp only [hq, hg, h2, if_true]
  constructor
  · intro hz
    rw [if_pos hz]
  · intro hz
    rw [if_neg hz]
    obtain ⟨⟨items, tr3⟩, hl⟩ := resultLoop_total W api h5 h4
      (W.GetNumResults (tr ++ specConfigCalls api options wideQuery ++ [Event.QueryW true])
        % 2 ^ 32) 0
      (tr ++ specConfigCalls api options wideQuery ++ [Event.QueryW true] ++
        [Event.GetNumResults])
    obtain ⟨⟨ext, l1, l2⟩, -⟩ := resultLoop_ok W api _ _ _ items tr3 hl
    rw [hl]
    refine ⟨items, [Event.GetNumResults] ++ ext, ?_, ?_⟩
    · simp only [l1, List.append_assoc]
    · intro e he
      rcases List.mem_append.mp he with h6 | h6
      · rw [List.mem_singleton.mp h6]; rfl
      · exact l2 e h6

theorem EnsureLoaded_of_loaded (W : World) (api : EverythingApi) (msg : String)
    (tr : List Event) (hloaded : api.loaded_ = true) :
    EnsureLoaded W api msg tr = { ok := true, api := api, errorMessage := msg, trace := tr } := by
  unfold EnsureLoaded
  rw [if_pos hloaded]

theorem EnsureLoaded_trace_loader (W : World) (api : EverythingApi) (msg : String)
    (tr : List Event) :
    ∃ ext, (EnsureLoaded W api msg tr).trace = tr ++ ext ∧ ∀ e ∈ ext, e.isLoaderCall = true := by
  cases hl : api.loaded_ with
  | true =>
    refine ⟨[], ?_, by simp⟩
    unfold EnsureLoaded
    rw [if_pos hl]
    simp
  | false =>
    cases hok : (EnsureLoaded W api msg tr).ok with
    | true =>
      obtain ⟨pre, c, post, h, ext, -, -, -, -, -, -, -, h8, h9, -⟩ :=
        EnsureLoaded_ok_split W api msg tr hl hok
      exact ⟨ext, h8, h9⟩
    | false =>
      obtain ⟨-, -, -, -, -, ext, g1, g2, -⟩ := EnsureLoaded_fail_spec W api msg tr hok
      exact ⟨ext, g1, g2⟩

theorem setMax_mem_specConfigCalls (api : EverythingApi) (options : SearchOptions)
    (wideQuery : WString) (v : Nat)
    (h : Event.SetMax v ∈ specConfigCalls api options wideQuery) : v = options.maxResults := by
  unfold specConfigCalls at h
  simp only [List.mem_append, List.mem_cons, List.mem_singleton, List.not_mem_nil,
    or_false] at h
  rcases h with ((((((h | h) | h) | (h | h)) | h) | h) | h) | h
  · cases h
  · cases h
  · split at h
    · rw [List.mem_singleton] at h; cases h
    · cases h
  · injection h
  · cases h
  · split at h
    · rw [List.mem_singleton] at h; cases h
    · cases h
  · split at h
    · rw [List.mem_singleton] at h; cases h
    · cases h
  · split at h
    · rw [List.mem_singleton] at h; cases h
    · cases h
  · split at h
    · rw [List.mem_singleton] at h; cases h
    · cases h

/-- Every `SetMax` call of a search carries the parsed `maxResults`. -/
theorem SearchWindows_setMax (W : World) (api : EverythingApi) (info : CallbackInfo) (v : Nat)
    (h : Event.SetMax v ∈ (SearchWindows W api info).trace) :
    v = (ParseSearchOptions info {}).maxResults := by
  unfold SearchWindows at h
  split at h
  · cases h
  · simp only at h
    split at h
    · cases h
    · obtain ⟨ext, e1, e2⟩ := EnsureLoaded_trace_loader W api "" []
      have hload : Event.SetMax v ∉ (EnsureLoaded W api "" []).trace := by
        rw [e1, List.nil_append]
        intro hm
        have := e2 _ hm
        cases this
      split at h
      · exact absurd h hload
      · split at h
        · exact absurd h hload
        · obtain ⟨⟨ext2, q1, q2⟩, -⟩ := executeQuery_trace W (EnsureLoaded W api "" []).api
            (ParseSearchOptions info {}) (Utf8ToWide W (info.arg 0).Utf8Value)
            (EnsureLoaded W api "" []).trace
          rw [q1] at h
          rcases List.mem_append.mp h with h1 | h1
          · exact absurd h1 hload
          · rcases q2 _ h1 with h2 | h2 | h2
            · exact setMax_mem_specConfigCalls _ _ _ v h2
            · cases h2
            · cases h2

/-- The items of a search relate name and extension. -/
theorem SearchWindows_items (W : World) (api : EverythingApi) (info : CallbackInfo)
    (n : Nat) (items : List SearchResultItem)
    (h : (SearchWindows W api info).outcome = .array n items) :
    ∀ it ∈ items, NameExtension W it := by
  unfold SearchWindows at h
  split at h
  · cases h
  · simp only at h
    split at h
    · simp only [Outcome.array.injEq] at h
      rw [← h.2]
      intro it hit
      cases hit
    · split at h
      · cases h
      · split at h
        · cases h
        · exact (executeQuery_trace W _ _ _ _).2 n items h

/-- On a loaded resolver a search with a non-empty query that converts to wide form is the
run of `executeQuery` from the empty trace. -/
theorem SearchWindows_loaded (W : World) (api : EverythingApi) (info : CallbackInfo)
    (q : Bytes) (harg : info.arg 0 = .string q) (hq : q ≠ [])
    (hwide : Utf8ToWide W q ≠ []) (hloaded : api.loaded_ = true) :
    SearchWindows W api info
      = executeQuery W api (ParseSearchOptions info {}) (Utf8ToWide W q) [] := by
  have hlen : ¬ info.length < 1 := by
    intro hl
    have : info = [] := List.length_eq_zero.mp (by omega)
    rw [this] at harg
    cases harg
  have hqe : q.isEmpty = false := (isEmpty_eq_false_iff q).mpr hq
  have hwe : (Utf8ToWide W q).isEmpty = false := (isEmpty_eq_false_iff _).mpr hwide
  unfold SearchWindows
  simp only [harg, JsValue.IsString, JsValue.Utf8Value, hlen, decide_False, Bool.not_true,
    Bool.or_self, Bool.false_eq_true, if_false, hqe, hwe,
    EnsureLoaded_of_loaded W api "" [] hloaded]

/-! ## The resolver: claims -/

/-- C5: from a resolver that is not loaded, `EnsureLoaded` succeeds exactly when some
non-empty candidate of the ordered list both loads and resolves all nine required symbols.
On success the candidate list splits at the first such candidate `c`: the retained module
is the handle `c` loaded as, the load attempts are the non-empty candidates before `c`
followed by `c` and nothing after it, and the modules unloaded are exactly the earlier
attempted candidates that loaded, the retained module not being among them. -/
theorem EnsureLoaded_first_usable (W : World) (api : EverythingApi) (msg : String)
    (tr : List Event) (hnot : api.loaded_ = false) :
    ((EnsureLoaded W api msg tr).ok = true ↔
      ∃ c ∈ BuildCandidatePaths W, c ≠ [] ∧ usable W c = true) ∧
    ((EnsureLoaded W api msg tr).ok = true →
      ∃ pre c post h ext,
        BuildCandidatePaths W = pre ++ c :: post ∧
        c ≠ [] ∧ usable W c = true ∧ (∀ d ∈ pre, d ≠ [] → usable W d = false) ∧
        W.LoadLibraryW c = .ok h ∧
        (EnsureLoaded W api msg tr).api.module_ = some h ∧
        (EnsureLoaded W api msg tr).api.loaded_ = true ∧
        (EnsureLoaded W api msg tr).trace = tr ++ ext ∧
        loadAttempts ext = nonEmpties pre ++ [c] ∧
        unloads ext = (nonEmpties pre).filterMap (loadedHandle W) ∧
        h ∉ unloads ext) := by
  refine ⟨EnsureLoaded_ok_iff W api msg tr hnot, fun hok => ?_⟩
  obtain ⟨pre, c, post, h, ext, h1, h2, h3, h4, h5, h6, h7, h8, -, h10, h11, h12⟩ :=
    EnsureLoaded_ok_split W api msg tr hnot hok
  exact ⟨pre, c, post, h, ext, h1, h2, h3, h4, h5, h6, h7, h8, h10, h11, h12⟩

/-- Witness for C5: with an override library that loads as module 5 but exports nothing
and a complete `Everything64.dll` loading as module 7, the call succeeds, attempts exactly
these two paths in order, unloads module 5 and retains module 7. -/
theorem EnsureLoaded_first_usable_witness :
    ((EnsureLoaded worldOverride {} "" []).ok = true ↔
      ∃ c ∈ BuildCandidatePaths worldOverride, c ≠ [] ∧ usable worldOverride c = true) ∧
    (EnsureLoaded worldOverride {} "" []).ok = true ∧
    (EnsureLoaded worldOverride {} "" []).api.module_ = some 7 ∧
    loadAttempts (EnsureLoaded worldOverride {} "" []).trace
      = [L "C:\\x.dll", L "Everything64.dll"] ∧
    unloads (EnsureLoaded worldOverride {} "" []).trace = [5] :=
  ⟨(EnsureLoaded_first_usable worldOverride {} "" [] rfl).1, by decide, by decide, by decide,
    by decide⟩

/-- C6: once `loaded_` is true, `EnsureLoaded` returns success and changes nothing: the
resolver (module handle, function pointers, version string), the caller's `errorMessage`
and the trace are as before, so no library is loaded and no symbol resolved. -/
theorem EnsureLoaded_loaded_noop (W : World) (api : EverythingApi) (msg : String)
    (tr : List Event) (hloaded : api.loaded_ = true) :
    EnsureLoaded W api msg tr = { ok := true, api := api, errorMessage := msg, trace := tr } := by
  unfold EnsureLoaded
  rw [if_pos hloaded]

/-- Witness for C6: the resolver loaded in `worldGood` is left as it is by a later call,
even in a world where nothing loads. -/
theorem EnsureLoaded_loaded_noop_witness :
    apiGood.loaded_ = true ∧
    EnsureLoaded worldNone apiGood "earlier" []
      = { ok := true, api := apiGood, errorMessage := "earlier", trace := [] } :=
  ⟨by decide, EnsureLoaded_loaded_noop worldNone apiGood "earlier" [] (by decide)⟩

/-- C7: when `EnsureLoaded` returns failure the resolver is left not loaded with a null
module handle. The next call, in whatever world `W2` it runs, is decided by the candidates
of `W2` alone and, if it fails again, has attempted every non-empty candidate of `W2` in
order; in the unchanged world it fails again after attempting every candidate again. -/
theorem EnsureLoaded_failure_retries (W : World) (api : EverythingApi) (msg : String)
    (tr : List Event) (hfail : (EnsureLoaded W api msg tr).ok = false) :
    (EnsureLoaded W api msg tr).api.loaded_ = false ∧
    (EnsureLoaded W api msg tr).api.module_ = none ∧
    (∀ (W2 : World) (msg2 : String) (tr2 : List Event),
      ((EnsureLoaded W2 (EnsureLoaded W api msg tr).api msg2 tr2).ok = true ↔
        ∃ c ∈ BuildCandidatePaths W2, c ≠ [] ∧ usable W2 c = true) ∧
      ((EnsureLoaded W2 (EnsureLoaded W api msg tr).api msg2 tr2).ok = false →
        ∃ ext, (EnsureLoaded W2 (EnsureLoaded W api msg tr).api msg2 tr2).trace = tr2 ++ ext ∧
          loadAttempts ext = attemptable W2)) ∧
    (∀ (msg2 : String) (tr2 : List Event),
      (EnsureLoaded W (EnsureLoaded W api msg tr).api msg2 tr2).ok = false ∧
      ∃ ext, (EnsureLoaded W (EnsureLoaded W api msg tr).api msg2 tr2).trace = tr2 ++ ext ∧
        loadAttempts ext = attemptable W ∧ attemptable W ≠ []) := by
  obtain ⟨-, f2, f3, -, f5, -⟩ := EnsureLoaded_fail_spec W api msg tr hfail
  refine ⟨f2, f3, fun W2 msg2 tr2 => ⟨EnsureLoaded_ok_iff W2 _ msg2 tr2 f2, fun h2 => ?_⟩,
    fun msg2 tr2 => ?_⟩
  · obtain ⟨-, -, -, -, -, ext, g1, -, g2, -⟩ := EnsureLoaded_fail_spec W2 _ msg2 tr2 h2
    exact ⟨ext, g1, g2⟩
  · have hagain : (EnsureLoaded W (EnsureLoaded W api msg tr).api msg2 tr2).ok = false := by
      cases hok : (EnsureLoaded W (EnsureLoaded W api msg tr).api msg2 tr2).ok
      · rfl
      · exfalso
        obtain ⟨c, hc, hne, hu⟩ := (EnsureLoaded_ok_iff W _ msg2 tr2 f2).mp hok
        have hmem : c ∈ attemptable W := by
          unfold attemptable nonEmpties
          rw [List.mem_filter]
          exact ⟨hc, by simp [(isEmpty_eq_false_iff c).mpr hne]⟩
        rw [f5 c hmem] at hu
        cases hu
    obtain ⟨-, -, -, -, -, ext, g1, -, g2, -⟩ := EnsureLoaded_fail_spec W _ msg2 tr2 hagain
    exact ⟨hagain, ext, g1, g2, attemptable_ne_nil W⟩

/-- Witness for C7: with an override variable naming a missing file nothing loads; the
resolver stays not loaded, and a second call attempts the same three paths again. -/
theorem EnsureLoaded_failure_retries_witness :
    (EnsureLoaded worldMissingOverride {} "" []).ok = false ∧
    (EnsureLoaded worldMissingOverride {} "" []).api.loaded_ = false ∧
    (EnsureLoaded worldMissingOverride {} "" []).api.module_ = none ∧
    loadAttempts (EnsureLoaded worldMissingOverride
        (EnsureLoaded worldMissingOverride {} "" []).api "" []).trace
      = [L "C:\\x.dll", L "Everything64.dll", L "Everything.dll"] :=
  ⟨by decide,
    (EnsureLoaded_failure_retries worldMissingOverride {} "" [] (by decide)).1,
    (EnsureLoaded_failure_retries worldMissingOverride {} "" [] (by decide)).2.1,
    by decide⟩

/-- C8 as stated fails: with an override variable naming a missing file and no library
anywhere, `EnsureLoaded` fails with the message of its last attempt, which contains
neither the override path nor the path of the candidate attempted last. -/
theorem EnsureLoaded_message_omits_candidate :
    (EnsureLoaded worldMissingOverride {} "" []).ok = false ∧
    (EnsureLoaded worldMissingOverride {} "" []).errorMessage
      = "Unable to load Everything SDK DLL from candidate (winerr=126)" ∧
    (loadAttempts (EnsureLoaded worldMissingOverride {} "" []).trace).getLast?
      = some (L "Everything.dll") ∧
    ¬ referencesCandidate (EnsureLoaded worldMissingOverride {} "" []).errorMessage
        (L "Everything.dll") ∧
    ¬ referencesCandidate (EnsureLoaded worldMissingOverride {} "" []).errorMessage
        (L "C:\\x.dll") := by
  decide

/-- C8, amended: when every candidate fails, `EnsureLoaded` returns false with
`errorMessage` equal to the specific error of the candidate attempted last: the load
failure text with its Windows error number, or the text naming the first required symbol,
in resolution order, that did not resolve. -/
theorem EnsureLoaded_failure_message (W : World) (api : EverythingApi) (msg : String)
    (tr : List Event) (hfail : (EnsureLoaded W api msg tr).ok = false) :
    ∃ c ext,
      (EnsureLoaded W api msg tr).trace = tr ++ ext ∧
      (loadAttempts ext).getLast? = some c ∧
      usable W c = false ∧
      (EnsureLoaded W api msg tr).errorMessage = candidateError W c ∧
      ((∃ winErr, W.LoadLibraryW c = .error winErr ∧
          (EnsureLoaded W api msg tr).errorMessage
            = "Unable to load Everything SDK DLL from candidate (winerr=" ++
                toString (winErr % 2 ^ 32) ++ ")") ∨
       (∃ h pre m post, W.LoadLibraryW c = .ok h ∧
          requiredOrder = pre ++ m :: post ∧
          (∀ m2 ∈ pre, (W.GetProcAddress (some h) m2.symbol).isSome = true) ∧
          W.GetProcAddress (some h) m.symbol = none ∧
          (EnsureLoaded W api msg tr).errorMessage
            = "Everything SDK missing symbol: " ++ m.symbol)) := by
  obtain ⟨-, -, -, f4, f5, ext, f6, -, f7, -⟩ := EnsureLoaded_fail_spec W api msg tr hfail
  have hne := attemptable_ne_nil W
  obtain ⟨c, hc⟩ : ∃ c, (attemptable W).getLast? = some c := by
    cases h : (attemptable W).getLast? with
    | some c => exact ⟨c, rfl⟩
    | none => exact absurd (List.getLast?_eq_none_iff.mp h) hne
  have hmem : c ∈ attemptable W := List.mem_of_getLast?_eq_some hc
  have hu := f5 c hmem
  have hmsg : (EnsureLoaded W api msg tr).errorMessage = candidateError W c := by
    rw [f4, hc]; rfl
  refine ⟨c, ext, f6, by rw [f7, hc], hu, hmsg, ?_⟩
  rw [hmsg]
  unfold candidateError
  unfold usable at hu
  cases hload : W.LoadLibraryW c with
  | error winErr => exact Or.inl ⟨winErr, rfl, rfl⟩
  | ok h =>
    right
    rw [hload] at hu
    simp only at hu ⊢
    cases hf : List.find? (fun m => (W.GetProcAddress (some h) m.symbol).isNone)
        requiredOrder with
    | none =>
      exfalso
      rw [List.find?_eq_none] at hf
      have : (requiredOrder.all fun m => (W.GetProcAddress (some h) m.symbol).isSome)
          = true := by
        rw [List.all_eq_true]
        intro m hm
        have := hf m hm
        cases hg : W.GetProcAddress (some h) m.symbol <;> simp_all
      rw [this] at hu
      cases hu
    | some m =>
      obtain ⟨hm, pre, post, hsplit, hpre⟩ := List.find?_eq_some.mp hf
      refine ⟨h, pre, m, post, rfl, hsplit, ?_, ?_, rfl⟩
      · intro m2 hm2
        have := hpre m2 hm2
        cases hg : W.GetProcAddress (some h) m2.symbol <;> simp_all
      · cases hg : W.GetProcAddress (some h) m.symbol <;> simp_all

/-- Witness for C8, amended: in the world of the counterexample the message is the load
failure text of the last candidate, `Everything.dll`. -/
theorem EnsureLoaded_failure_message_witness :
    (EnsureLoaded worldMissingOverride {} "" []).ok = false ∧
    ∃ c ext,
      (EnsureLoaded worldMissingOverride {} "" []).trace = [] ++ ext ∧
      (loadAttempts ext).getLast? = some c ∧
      usable worldMissingOverride c = false ∧
      (EnsureLoaded worldMissingOverride {} "" []).errorMessage
        = candidateError worldMissingOverride c :=
  ⟨by decide,
    let ⟨c, ext, h1, h2, h3, h4, _⟩ :=
      EnsureLoaded_failure_message worldMissingOverride {} "" [] (by decide)
    ⟨c, ext, h1, h2, h3, h4⟩⟩

/-! ## The query executor: claims -/

/-- C1: when `options.maxResults` is a number whose 32-bit signed value is `m`,
`ParseSearchOptions` stores `min (max m 1) 5000`, which lies in `[1, 5000]`, is `1` for
`m ≤ 0` and `5000` for `m = 10000`; when the options are absent, not an object, or
`maxResults` is missing or not a number, the value is the default `50`; and every
set-max call a search sends to the engine carries the stored value, which always lies in
`[1, 5000]`. The scenario `Search("report", {maxResults: 10000})` stores 5000. -/
theorem ParseSearchOptions_maxResults_clamped :
    (∀ (info : CallbackInfo) (props : List (String × JsValue)) (m : Int),
      2 ≤ info.length → info.arg 1 = .object props →
      props.lookup "maxResults" = some (.number m) →
      -2 ^ 31 ≤ m → m < 2 ^ 31 →
      (((ParseSearchOptions info {}).maxResults : Nat) : Int) = min (max m 1) 5000 ∧
      1 ≤ (ParseSearchOptions info {}).maxResults ∧
      (ParseSearchOptions info {}).maxResults ≤ 5000 ∧
      (m ≤ 0 → (ParseSearchOptions info {}).maxResults = 1) ∧
      (m = 10000 → (ParseSearchOptions info {}).maxResults = 5000)) ∧
    (∀ (info : CallbackInfo),
      (info.length < 2 ∨ (info.arg 1).IsObject = false ∨
        (info.arg 1).Has "maxResults" = false ∨
        ((info.arg 1).Get "maxResults").IsNumber = false) →
      (ParseSearchOptions info {}).maxResults = 50) ∧
    (∀ (W : World) (api : EverythingApi) (info : CallbackInfo) (v : Nat),
      Event.SetMax v ∈ (SearchWindows W api info).trace →
      v = (ParseSearchOptions info {}).maxResults ∧ 1 ≤ v ∧ v ≤ 5000) ∧
    (ParseSearchOptions
      [.string [114, 101, 112, 111, 114, 116], .object [("maxResults", .number 10000)]]
      {}).maxResults = 5000 := by
  refine ⟨?_, ?_, ?_, by decide⟩
  · intro info props m hlen hobj hlook _ _
    have hcond1 : ¬ (decide (info.length < 2) || !(info.arg 1).IsObject) = true := by
      rw [hobj]
      simp only [JsValue.IsObject, Bool.not_true, Bool.or_false, decide_eq_true_eq]
      omega
    have hcond2 : ((info.arg 1).Has "maxResults" &&
        ((info.arg 1).Get "maxResults").IsNumber) = true := by
      rw [hobj]
      simp [JsValue.Has, JsValue.Get, hlook, JsValue.IsNumber]
    have hval : ((info.arg 1).Get "maxResults").Int32Value = m := by
      rw [hobj]
      simp [JsValue.Get, hlook, JsValue.Int32Value]
    have heq := ParseSearchOptions_maxResults_eq info {}
    rw [if_neg hcond1, if_pos hcond2, hval] at heq
    obtain ⟨c1, c2, c3⟩ := toUInt32_clamp m
    rw [← heq] at c1 c2 c3
    refine ⟨c1, c2, c3, ?_, ?_⟩
    · intro hm
      have : min (max m 1) 5000 = 1 := by omega
      rw [this] at c1
      exact_mod_cast c1
    · intro hm
      have : min (max m 1) 5000 = 5000 := by omega
      rw [this] at c1
      exact_mod_cast c1
  · intro info h
    rw [ParseSearchOptions_maxResults_eq]
    rcases h with h | h | h | h
    · rw [if_pos (by simp [h])]; rfl
    · rw [if_pos (by simp [h])]; rfl
    · split
      · rfl
      · rw [if_neg (by simp [h])]; rfl
    · split
      · rfl
      · rw [if_neg (by simp [h])]; rfl
  · intro W api info v hv
    have := SearchWindows_setMax W api info v hv
    rw [this]
    exact ⟨rfl, ParseSearchOptions_maxResults_range info⟩

/-- Witness for C1: the scenario of the specification, and a negative `maxResults`. -/
theorem ParseSearchOptions_maxResults_clamped_witness :
    (((ParseSearchOptions
      [.string [114, 101, 112, 111, 114, 116], .object [("maxResults", .number 10000)]]
      {}).maxResults : Nat) : Int) = min (max 10000 1) 5000 ∧
    (ParseSearchOptions [.string [97], .object [("maxResults", .number (-3))]]
      {}).maxResults = 1 ∧
    (ParseSearchOptions [.string [97], .object [("offset", .number 2)]] {}).maxResults = 50 :=
  ⟨(ParseSearchOptions_maxResults_clamped.1
      [.string [114, 101, 112, 111, 114, 116], .object [("maxResults", .number 10000)]]
      [("maxResults", .number 10000)] 10000 (by decide) rfl rfl (by decide) (by decide)).1,
   (ParseSearchOptions_maxResults_clamped.1
      [.string [97], .object [("maxResults", .number (-3))]]
      [("maxResults", .number (-3))] (-3) (by decide) rfl rfl (by decide) (by decide)).2.2.2.1
      (by decide),
   ParseSearchOptions_maxResults_clamped.2.1 [.string [97], .object [("offset", .number 2)]]
      (Or.inr (Or.inr (Or.inl rfl)))⟩

/-- C2: every item a search returns has its `name` marshalled from a wide string
`nameWide` and its `extension` marshalled from the part of `nameWide` behind its last dot
when that part is not empty; the extension is empty when `nameWide` has no dot or ends in
its last dot. The dot is the code unit 46, and both fields pass through `WideToUtf8`. -/
theorem SearchWindows_extension (W : World) (api : EverythingApi) (info : CallbackInfo)
    (n : Nat) (items : List SearchResultItem) (item : SearchResultItem)
    (hout : (SearchWindows W api info).outcome = .array n items) (hitem : item ∈ items) :
    ∃ nameWide : WString,
      item.name = WideToUtf8 W nameWide ∧
      (∀ pre suf, nameWide = pre ++ 46 :: suf → 46 ∉ suf → suf ≠ [] →
        item.extension = WideToUtf8 W suf) ∧
      (46 ∉ nameWide → item.extension = []) ∧
      (∀ pre, nameWide = pre ++ [46] → item.extension = []) := by
  obtain ⟨nameWide, h1, -, h3⟩ := SearchWindows_items W api info n items hout item hitem
  refine ⟨nameWide, h1, ?_, ?_, ?_⟩
  · intro pre suf hs hdot _
    rw [h3, hs, extensionWideOf_split pre suf hdot]
  · intro hno
    rw [h3, extensionWideOf_no_dot nameWide hno]
    rfl
  · intro pre hs
    rw [h3, hs, extensionWideOf_split pre [] (by simp)]
    rfl

/-- Witness for C2: in `worldGood` the search returns one item, named `a.txt`, whose
extension is `txt`. -/
theorem SearchWindows_extension_witness :
    (SearchWindows worldGood {} [.string [97]]).outcome = .array 1
      [{ fullPath := [], path := [], name := L "a.txt", filename := L "a.txt",
         extension := L "txt", size := some 42, dateModified := some 1, dateCreated := none,
         isFolder := some false }] ∧
    ∃ nameWide : WString,
      L "a.txt" = WideToUtf8 worldGood nameWide ∧
      (∀ pre suf, nameWide = pre ++ 46 :: suf → 46 ∉ suf → suf ≠ [] →
        L "txt" = WideToUtf8 worldGood suf) ∧
      (46 ∉ nameWide → L "txt" = []) ∧
      (∀ pre, nameWide = pre ++ [46] → L "txt" = []) :=
  ⟨by decide,
   SearchWindows_extension worldGood {} [.string [97]] 1 _
    { fullPath := [], path := [], name := L "a.txt", filename := L "a.txt",
      extension := L "txt", size := some 42, dateModified := some 1, dateCreated := none,
      isFolder := some false } (by decide) (List.mem_singleton.mpr rfl)⟩

/-- C4: a search whose first argument is the empty string returns an empty array, leaves
the resolver exactly as it was and makes no call to the loader or to the engine, whatever
the other arguments and the resolver are. -/
theorem SearchWindows_empty_query (W : World) (api : EverythingApi) (info : CallbackInfo)
    (harg : info.arg 0 = .string []) :
    SearchWindows W api info = { outcome := .array 0 [], api := api, trace := [] } := by
  have hlen : ¬ info.length < 1 := by
    intro hl
    have : info = [] := List.length_eq_zero.mp (by omega)
    rw [this] at harg
    cases harg
  unfold SearchWindows
  simp [harg, JsValue.IsString, JsValue.Utf8Value, hlen]

/-- Witness for C4: an empty query with options on a resolver that is not loaded, in a
world where a library would load. -/
theorem SearchWindows_empty_query_witness :
    SearchWindows worldGood {} [.string [], .object [("maxResults", .number 7)]]
      = { outcome := .array 0 [], api := {}, trace := [] } :=
  SearchWindows_empty_query worldGood {} [.string [], .object [("maxResults", .number 7)]] rfl

theorem apiGood_requiredResolved : requiredResolved apiGood := by
  intro m
  cases m <;> decide

/-- C9: for a non-empty query that converts to wide form, on a loaded resolver whose
required pointers are set, the calls of a search are, in this order, the configuration
calls the specification lists (search string, request flags, sort if resolved, max
results, offset, each resolved match flag), then one blocking query call, then result
reads only; an optional symbol that did not resolve drops its own call and nothing else. -/
theorem SearchWindows_call_order (W : World) (api : EverythingApi) (info : CallbackInfo)
    (q : Bytes) (harg : info.arg 0 = .string q) (hq : q ≠ [])
    (hwide : Utf8ToWide W q ≠ []) (hloaded : api.loaded_ = true)
    (hreq : requiredResolved api) :
    ∃ rest,
      (SearchWindows W api info).trace
        = specConfigCalls api (ParseSearchOptions info {}) (Utf8ToWide W q) ++
            Event.QueryW true :: rest ∧
      (∀ e ∈ rest, e.isResultRead = true) ∧
      (∀ e ∈ specConfigCalls api (ParseSearchOptions info {}) (Utf8ToWide W q),
        e.isResultRead = false) := by
  rw [SearchWindows_loaded W api info q harg hq hwide hloaded]
  obtain ⟨s1, s2⟩ := executeQuery_spec W api (ParseSearchOptions info {}) (Utf8ToWide W q) []
    hreq
  have hcfg : ∀ e ∈ specConfigCalls api (ParseSearchOptions info {}) (Utf8ToWide W q),
      e.isResultRead = false := by
    intro e he
    unfold specConfigCalls at he
    simp only [List.mem_append, List.mem_cons, List.mem_singleton, List.not_mem_nil,
      or_false] at he
    rcases he with ((((((he | he) | he) | (he | he)) | he) | he) | he) | he
    · rw [he]; rfl
    · rw [he]; rfl
    · split at he
      · rw [List.mem_singleton.mp he]; rfl
      · cases he
    · rw [he]; rfl
    · rw [he]; rfl
    · split at he
      · rw [List.mem_singleton.mp he]; rfl
      · cases he
    · split at he
      · rw [List.mem_singleton.mp he]; rfl
      · cases he
    · split at he
      · rw [List.mem_singleton.mp he]; rfl
      · cases he
    · split at he
      · rw [List.mem_singleton.mp he]; rfl
      · cases he
  by_cases hz : W.QueryW ([] ++ specConfigCalls api (ParseSearchOptions info {})
      (Utf8ToWide W q)) true = 0
  · rw [s1 hz]
    refine ⟨[Event.GetLastError], by simp, ?_, hcfg⟩
    intro e he
    rw [List.mem_singleton.mp he]; rfl
  · obtain ⟨items, rest, e1, e2⟩ := s2 hz
    rw [e1]
    exact ⟨rest, by simp, e2, hcfg⟩

/-- Witness for C9: the resolver loaded in `worldGood` has every optional symbol, so the
query `a` with default options sends all nine configuration calls before the query call; these are its first
eleven calls. -/
theorem SearchWindows_call_order_witness :
    (SearchWindows worldGood apiGood [.string [97]]).trace.take 11
      = [Event.SetSearchW [97], Event.SetRequestFlags 119, Event.SetSort 3, Event.SetMax 50,
         Event.SetOffset 0, Event.SetMatchCase false, Event.SetMatchPath false,
         Event.SetMatchWholeWord false, Event.SetRegex false, Event.QueryW true,
         Event.GetNumResults] ∧
    ∃ rest,
      (SearchWindows worldGood apiGood [.string [97]]).trace
        = specConfigCalls apiGood (ParseSearchOptions [.string [97]] {})
            (Utf8ToWide worldGood [97]) ++ Event.QueryW true :: rest ∧
      (∀ e ∈ rest, e.isResultRead = true) ∧
      (∀ e ∈ specConfigCalls apiGood (ParseSearchOptions [.string [97]] {})
          (Utf8ToWide worldGood [97]), e.isResultRead = false) :=
  ⟨by decide,
   SearchWindows_call_order worldGood apiGood [.string [97]] [97] rfl (by decide) (by decide)
    (by decide) apiGood_requiredResolved⟩

/-- C10 as stated fails: in `worldQueryFails` the query call returns `FALSE` while the
engine reports the error code 0, and the search fails with `ERR_EVERYTHING_QUERY_FAILED`
and a message carrying the code 0; so the failure is not tied to a non-zero error code. -/
theorem SearchWindows_query_failed_with_zero_code :
    (SearchWindows worldQueryFails apiGood [.string [97]]).outcome
      = .throw "Everything query failed, error code: 0" "ERR_EVERYTHING_QUERY_FAILED" ∧
    (∀ tr, worldQueryFails.GetLastError tr = 0) ∧
    ¬ ((∃ message, (SearchWindows worldQueryFails apiGood [.string [97]]).outcome
          = .throw message "ERR_EVERYTHING_QUERY_FAILED") ↔
        worldQueryFails.GetLastError
          (specConfigCalls apiGood (ParseSearchOptions [.string [97]] {})
            (Utf8ToWide worldQueryFails [97]) ++ [Event.QueryW true]) ≠ 0) := by
  have h1 : (SearchWindows worldQueryFails apiGood [.string [97]]).outcome
      = .throw "Everything query failed, error code: 0" "ERR_EVERYTHING_QUERY_FAILED" := by
    decide
  refine ⟨h1, fun _ => rfl, ?_⟩
  intro hiff
  exact (hiff.mp ⟨_, h1⟩) rfl

/-- C10, amended: for a non-empty query that converts to wide form, on a loaded resolver
whose required pointers are set, a search fails with `ERR_EVERYTHING_QUERY_FAILED` exactly
when the query call returns `FALSE`; the message then ends with the decimal rendering of
the engine's last-error code; otherwise the search returns an array. -/
theorem SearchWindows_query_failed_iff (W : World) (api : EverythingApi)
    (info : CallbackInfo) (q : Bytes) (harg : info.arg 0 = .string q) (hq : q ≠ [])
    (hwide : Utf8ToWide W q ≠ []) (hloaded : api.loaded_ = true)
    (hreq : requiredResolved api) :
    ((∃ message, (SearchWindows W api info).outcome
        = .throw message "ERR_EVERYTHING_QUERY_FAILED") ↔
      W.QueryW (specConfigCalls api (ParseSearchOptions info {}) (Utf8ToWide W q)) true = 0) ∧
    (W.QueryW (specConfigCalls api (ParseSearchOptions info {}) (Utf8ToWide W q)) true = 0 →
      (SearchWindows W api info).outcome
        = .throw ("Everything query failed, error code: " ++
            toString (W.GetLastError
              (specConfigCalls api (ParseSearchOptions info {}) (Utf8ToWide W q) ++
                [Event.QueryW true]) % 2 ^ 32)) "ERR_EVERYTHING_QUERY_FAILED") ∧
    (W.QueryW (specConfigCalls api (ParseSearchOptions info {}) (Utf8ToWide W q)) true ≠ 0 →
      ∃ n items, (SearchWindows W api info).outcome = .array n items) := by
  rw [SearchWindows_loaded W api info q harg hq hwide hloaded]
  obtain ⟨s1, s2⟩ := executeQuery_spec W api (ParseSearchOptions info {}) (Utf8ToWide W q) []
    hreq
  rw [List.nil_append] at s1 s2
  have hfail : W.QueryW (specConfigCalls api (ParseSearchOptions info {}) (Utf8ToWide W q))
      true = 0 →
      (executeQuery W api (ParseSearchOptions info {}) (Utf8ToWide W q) []).outcome
        = .throw ("Everything query failed, error code: " ++
            toString (W.GetLastError
              (specConfigCalls api (ParseSearchOptions info {}) (Utf8ToWide W q) ++
                [Event.QueryW true]) % 2 ^ 32)) "ERR_EVERYTHING_QUERY_FAILED" := by
    intro hz
    rw [s1 hz]
  have hsucc : W.QueryW (specConfigCalls api (ParseSearchOptions info {}) (Utf8ToWide W q))
      true ≠ 0 →
      ∃ n items, (executeQuery W api (ParseSearchOptions info {}) (Utf8ToWide W q) []).outcome
        = .array n items := by
    intro hz
    obtain ⟨items, rest, e1, -⟩ := s2 hz
    rw [e1]
    exact ⟨_, items, rfl⟩
  refine ⟨⟨?_, fun hz => ⟨_, hfail hz⟩⟩, hfail, hsucc⟩
  rintro ⟨message, hm⟩
  by_contra hz
  obtain ⟨n, items, ha⟩ := hsucc hz
  rw [ha] at hm
  cases hm

/-- Witness for C10, amended: the failing query of `worldQueryFails`. -/
theorem SearchWindows_query_failed_iff_witness :
    worldQueryFails.QueryW (specConfigCalls apiGood (ParseSearchOptions [.string [97]] {})
      (Utf8ToWide worldQueryFails [97])) true = 0 ∧
    (SearchWindows worldQueryFails apiGood [.string [97]]).outcome
      = .throw ("Everything query failed, error code: " ++
          toString (worldQueryFails.GetLastError
            (specConfigCalls apiGood (ParseSearchOptions [.string [97]] {})
              (Utf8ToWide worldQueryFails [97]) ++ [Event.QueryW true]) % 2 ^ 32))
          "ERR_EVERYTHING_QUERY_FAILED" :=
  ⟨rfl,
   (SearchWindows_query_failed_iff worldQueryFails apiGood [.string [97]] [97] rfl (by decide)
    (by decide) (by decide) apiGood_requiredResolved).2.1 rfl⟩

/-! ## The OCR adapter: geometry -/

theorem stdMinQ_eq (a b : ℚ) : stdMinQ a b = min a b := by
  unfold stdMinQ
  split
  · rw [min_eq_right (le_of_lt ‹_›)]
  · rw [min_eq_left (not_lt.mp ‹_›)]

theorem stdMaxQ_eq (a b : ℚ) : stdMaxQ a b = max a b := by
  unfold stdMaxQ
  split
  · rw [max_eq_right (le_of_lt ‹_›)]
  · rw [max_eq_left (not_lt.mp ‹_›)]

theorem IsMinOf_snoc {f : Rect → ℚ} {l : List Rect} {m : ℚ} (h : IsMinOf f l m) (r : Rect) :
    IsMinOf f (l ++ [r]) (min m (f r)) := by
  obtain ⟨⟨r0, hr0, e0⟩, hle⟩ := h
  constructor
  · rcases le_total m (f r) with hmr | hmr
    · exact ⟨r0, List.mem_append_left _ hr0, by rw [e0, min_eq_left hmr]⟩
    · exact ⟨r, List.mem_append_right _ (List.mem_singleton.mpr rfl), by rw [min_eq_right hmr]⟩
  · intro x hx
    rcases List.mem_append.mp hx with h1 | h1
    · exact le_trans (min_le_left _ _) (hle x h1)
    · rw [List.mem_singleton.mp h1]
      exact min_le_right _ _

theorem IsMaxOf_snoc {f : Rect → ℚ} {l : List Rect} {m : ℚ} (h : IsMaxOf f l m) (r : Rect) :
    IsMaxOf f (l ++ [r]) (max m (f r)) := by
  obtain ⟨⟨r0, hr0, e0⟩, hle⟩ := h
  constructor
  · rcases le_total m (f r) with hmr | hmr
    · exact ⟨r, List.mem_append_right _ (List.mem_singleton.mpr rfl), by rw [max_eq_right hmr]⟩
    · exact ⟨r0, List.mem_append_left _ hr0, by rw [e0, max_eq_left hmr]⟩
  · intro x hx
    rcases List.mem_append.mp hx with h1 | h1
    · exact le_trans (hle x h1) (le_max_left _ _)
    · rw [List.mem_singleton.mp h1]
      exact le_max_right _ _

/-- The loop of `MergeWordBoundingBox` keeps the extremes of the words seen so far. -/
theorem foldl_mergeWord (ws : List Rect) :
    ∀ (s : BoxState) (seen : List Rect), s.initialized = true →
      IsMinOf (fun r => r.X) seen s.minX → IsMinOf (fun r => r.Y) seen s.minY →
      IsMaxOf (fun r => r.X + r.Width) seen s.maxX →
      IsMaxOf (fun r => r.Y + r.Height) seen s.maxY →
      (ws.foldl mergeWord s).initialized = true ∧
      IsMinOf (fun r => r.X) (seen ++ ws) (ws.foldl mergeWord s).minX ∧
      IsMinOf (fun r => r.Y) (seen ++ ws) (ws.foldl mergeWord s).minY ∧
      IsMaxOf (fun r => r.X + r.Width) (seen ++ ws) (ws.foldl mergeWord s).maxX ∧
      IsMaxOf (fun r => r.Y + r.Height) (seen ++ ws) (ws.foldl mergeWord s).maxY := by
  induction ws with
  | nil =>
    intro s seen hi h1 h2 h3 h4
    rw [List.append_nil]
    exact ⟨hi, h1, h2, h3, h4⟩
  | cons w ws ih =>
    intro s seen hi h1 h2 h3 h4
    rw [List.foldl_cons]
    have hstep : mergeWord s w =
        { initialized := true, minX := min s.minX w.X, minY := min s.minY w.Y,
          maxX := max s.maxX (w.X + w.Width), maxY := max s.maxY (w.Y + w.Height) } := by
      unfold mergeWord
      simp only [hi, Bool.not_true, Bool.false_eq_true, if_false, stdMinQ_eq, stdMaxQ_eq]
    have := ih (mergeWord s w) (seen ++ [w]) (by rw [hstep])
      (by rw [hstep]; exact IsMinOf_snoc h1 w) (by rw [hstep]; exact IsMinOf_snoc h2 w)
      (by rw [hstep]; exact IsMaxOf_snoc h3 w) (by rw [hstep]; exact IsMaxOf_snoc h4 w)
    rw [List.append_assoc, List.singleton_append] at this
    exact this

/-- C13: for a line without words `MergeWordBoundingBox` is `(0, 0, 0, 0)`; for a line with
words it is `(minX, minY, W, H)` where `minX` and `minY` are the least `x` and `y` of the
word rectangles, `W = max 0 (maxX - minX)` and `H = max 0 (maxY - minY)` with `maxX` and
`maxY` the greatest `x + w` and `y + h`, so width and height are never negative. All
arithmetic is exact. -/
theorem MergeWordBoundingBox_spec (line : OcrLine) :
    (line.Words = [] → MergeWordBoundingBox line = (0, 0, 0, 0)) ∧
    (line.Words ≠ [] →
      ∃ minX minY maxX maxY : ℚ,
        IsMinOf (fun r => r.X) line.Words minX ∧
        IsMinOf (fun r => r.Y) line.Words minY ∧
        IsMaxOf (fun r => r.X + r.Width) line.Words maxX ∧
        IsMaxOf (fun r => r.Y + r.Height) line.Words maxY ∧
        MergeWordBoundingBox line
          = (minX, minY, max 0 (maxX - minX), max 0 (maxY - minY)) ∧
        0 ≤ (MergeWordBoundingBox line).2.2.1 ∧ 0 ≤ (MergeWordBoundingBox line).2.2.2) := by
  constructor
  · intro h
    unfold MergeWordBoundingBox
    rw [h]
    rfl
  · intro h
    obtain ⟨w, ws, hw⟩ := List.exists_cons_of_ne_nil h
    have hone : ∀ f : Rect → ℚ, IsMinOf f [w] (f w) ∧ IsMaxOf f [w] (f w) := by
      intro f
      refine ⟨⟨⟨w, List.mem_singleton.mpr rfl, rfl⟩, ?_⟩, ⟨⟨w, List.mem_singleton.mpr rfl, rfl⟩, ?_⟩⟩
      · intro r hr; rw [List.mem_singleton.mp hr]
      · intro r hr; rw [List.mem_singleton.mp hr]
    have hfirst : mergeWord {} w =
        { initialized := true, minX := w.X, minY := w.Y, maxX := w.X + w.Width,
          maxY := w.Y + w.Height } := rfl
    obtain ⟨f1, f2, f3, f4, f5⟩ := foldl_mergeWord ws (mergeWord {} w) [w]
      (by rw [hfirst]) (by rw [hfirst]; exact (hone _).1) (by rw [hfirst]; exact (hone _).1)
      (by rw [hfirst]; exact (hone (fun r => r.X + r.Width)).2)
      (by rw [hfirst]; exact (hone (fun r => r.Y + r.Height)).2)
    rw [List.singleton_append, ← hw] at f2 f3 f4 f5
    have hbox : MergeWordBoundingBox line
        = ((ws.foldl mergeWord (mergeWord {} w)).minX, (ws.foldl mergeWord (mergeWord {} w)).minY,
           max 0 ((ws.foldl mergeWord (mergeWord {} w)).maxX
             - (ws.foldl mergeWord (mergeWord {} w)).minX),
           max 0 ((ws.foldl mergeWord (mergeWord {} w)).maxY
             - (ws.foldl mergeWord (mergeWord {} w)).minY)) := by
      unfold MergeWordBoundingBox
      rw [hw, List.foldl_cons]
      simp only [f1, Bool.not_true, Bool.false_eq_true, if_false, stdMaxQ_eq]
    refine ⟨_, _, _, _, f2, f3, f4, f5, hbox, ?_, ?_⟩
    · rw [hbox]; exact le_max_left _ _
    · rw [hbox]; exact le_max_left _ _

/-- Witness for C13: two words, the second further left and lower; the box is their
union. -/
theorem MergeWordBoundingBox_spec_witness :
    MergeWordBoundingBox ⟨[], [⟨10, 20, 30, 10⟩, ⟨5, 25, 10, 10⟩]⟩ = (5, 20, 35, 15) ∧
    ∃ minX minY maxX maxY : ℚ,
      IsMinOf (fun r => r.X) [⟨10, 20, 30, 10⟩, ⟨5, 25, 10, 10⟩] minX ∧
      IsMinOf (fun r => r.Y) [⟨10, 20, 30, 10⟩, ⟨5, 25, 10, 10⟩] minY ∧
      IsMaxOf (fun r => r.X + r.Width) [⟨10, 20, 30, 10⟩, ⟨5, 25, 10, 10⟩] maxX ∧
      IsMaxOf (fun r => r.Y + r.Height) [⟨10, 20, 30, 10⟩, ⟨5, 25, 10, 10⟩] maxY ∧
      MergeWordBoundingBox ⟨[], [⟨10, 20, 30, 10⟩, ⟨5, 25, 10, 10⟩]⟩
        = (minX, minY, max 0 (maxX - minX), max 0 (maxY - minY)) ∧
      0 ≤ (MergeWordBoundingBox ⟨[], [⟨10, 20, 30, 10⟩, ⟨5, 25, 10, 10⟩]⟩).2.2.1 ∧
      0 ≤ (MergeWordBoundingBox ⟨[], [⟨10, 20, 30, 10⟩, ⟨5, 25, 10, 10⟩]⟩).2.2.2 :=
  ⟨by norm_num [MergeWordBoundingBox, mergeWord, stdMinQ, stdMaxQ],
   (MergeWordBoundingBox_spec ⟨[], [⟨10, 20, 30, 10⟩, ⟨5, 25, 10, 10⟩]⟩).2 (by decide)⟩

/-! ## The OCR adapter: blocks -/

theorem toInt32_of_lt (n : Nat) (h : (n : Int) < 2 ^ 31) : toInt32 n = n := by
  unfold toInt32
  omega

/-- The block loop collects the blocks of the lines with text, in order, and stops at
`maxBlocks` blocks when that is positive. -/
theorem collectBlocks_spec (P : OcrPlatform) (maxBlocks : Int) (hmax : maxBlocks < 2 ^ 31)
    (lines : List OcrLine) :
    ∀ blocks : List OcrBlock, (0 < maxBlocks → (blocks.length : Int) < maxBlocks) →
      collectBlocks P maxBlocks lines blocks =
        if 0 < maxBlocks then (blocks ++ lines.filterMap (lineBlock P)).take maxBlocks.toNat
        else blocks ++ lines.filterMap (lineBlock P) := by
  induction lines with
  | nil =>
    intro blocks hlen
    unfold collectBlocks
    simp only [List.filterMap_nil, List.append_nil]
    split
    · rw [List.take_of_length_le]
      have := hlen ‹_›
      omega
    · rfl
  | cons line rest ih =>
    intro blocks hlen
    unfold collectBlocks
    by_cases htext : (ToUtf8 P line.Text).isEmpty = true
    · have hb : lineBlock P line = none := by unfold lineBlock; rw [if_pos htext]
      simp only [htext, if_true, List.filterMap_cons, hb]
      exact ih blocks hlen
    · have hb : lineBlock P line = some ({ text := ToUtf8 P line.Text, hasBoundingBox := true, boundingBox := MergeWordBoundingBox line } : OcrBlock) := by
        unfold lineBlock; rw [if_neg htext]
      simp only [htext, Bool.false_eq_true, if_false, List.filterMap_cons, hb]
      by_cases hpos : 0 < maxBlocks
      · have hl := hlen hpos
        have hcast : toInt32 (blocks ++ [({ text := ToUtf8 P line.Text, hasBoundingBox := true, boundingBox := MergeWordBoundingBox line } : OcrBlock)]).length
            = (blocks.length : Int) + 1 := by
          rw [toInt32_of_lt _ (by simp only [List.length_append, List.length_singleton]; omega)]
          simp
        rw [hcast]
        by_cases hfull : maxBlocks ≤ (blocks.length : Int) + 1
        · have hN : maxBlocks.toNat = blocks.length + 1 := by omega
          simp only [hpos, hfull, decide_True, Bool.and_self, if_true, hN]
          have : blocks ++ ({ text := ToUtf8 P line.Text, hasBoundingBox := true, boundingBox := MergeWordBoundingBox line } : OcrBlock) ::
              List.filterMap (lineBlock P) rest
              = (blocks ++ [({ text := ToUtf8 P line.Text, hasBoundingBox := true, boundingBox := MergeWordBoundingBox line } : OcrBlock)]) ++
              List.filterMap (lineBlock P) rest := by simp
          rw [this, List.take_left' (by simp)]
        · simp only [hpos, hfull, decide_True, decide_False, Bool.and_false,
            Bool.false_eq_true, if_false, if_true]
          rw [ih _ (fun _ => by simp only [List.length_append, List.length_singleton]; omega)]
          simp [hpos]
      · simp only [hpos, decide_False, Bool.false_and, Bool.false_eq_true, if_false]
        rw [ih _ (fun h => absurd h hpos)]
        simp [hpos]

/-- A successful `PerformPlatformOcr` went through one recognition with text, and its
blocks are what the block loop built when layout was requested. -/
theorem PerformPlatformOcr_ok (P : OcrPlatform) (options : OcrOptions) (result : OcrResult)
    (error : OcrError) (hok : (PerformPlatformOcr P options result error).ok = true) :
    ∃ engine bitmap recognition,
      P.Recognize engine bitmap = .ok recognition ∧
      (PerformPlatformOcr P options result error).result.text = ToUtf8 P recognition.Text ∧
      ToUtf8 P recognition.Text ≠ [] ∧
      (PerformPlatformOcr P options result error).result.blocks =
        if options.includeLayout then
          collectBlocks P options.maxBlocks recognition.Lines result.blocks
        else result.blocks := by
  unfold PerformPlatformOcr at hok ⊢
  cases hinit : P.init_apartment with
  | some t =>
    rw [hinit] at hok
    cases t <;> simp [ocrCatch] at hok
  | none =>
    rw [hinit] at hok
    simp only at hok ⊢
    cases hbmp : BuildBitmapFromBytes P options.image error with
    | error e => rw [hbmp] at hok; simp at hok
    | ok bitmap =>
      rw [hbmp] at hok
      simp only at hok ⊢
      cases heng : CreateEngine P options.languageHint with
      | error t =>
        rw [heng] at hok
        cases t <;> simp [ocrCatch] at hok
      | ok e =>
        cases e with
        | none => rw [heng] at hok; simp at hok
        | some engine =>
          rw [heng] at hok
          simp only at hok ⊢
          cases hrec : P.Recognize engine bitmap with
          | error t =>
            rw [hrec] at hok
            cases t <;> simp [ocrCatch] at hok
          | ok recognition =>
            rw [hrec] at hok
            simp only at hok ⊢
            by_cases hempty : (ToUtf8 P recognition.Text).isEmpty = true
            · rw [if_pos hempty] at hok
              simp at hok
            · rw [if_neg hempty]
              refine ⟨engine, bitmap, recognition, hrec, ?_, ?_, ?_⟩
              · cases P.RecognizerLanguage engine <;> cases options.includeLayout <;> rfl
              · intro h
                rw [h] at hempty
                exact hempty rfl
              · cases P.RecognizerLanguage engine <;> cases options.includeLayout <;> rfl

theorem lineBlock_text (P : OcrPlatform) (line : OcrLine) (b : OcrBlock)
    (h : lineBlock P line = some b) : b.text ≠ [] := by
  unfold lineBlock at h
  split at h
  · cases h
  · rename_i hne
    simp only [Option.some.injEq] at h
    rw [← h]
    intro he
    simp only at he
    rw [he] at hne
    exact hne rfl

/-- C12: on a successful recognition, started from an empty result, the blocks are empty
when `includeLayout` is false; when it is true they are the blocks of the recognised lines
whose text is not empty, in order, cut to the first `maxBlocks` when `maxBlocks` is
positive (so there are at most `maxBlocks`) and uncut when `maxBlocks` is zero or less;
no block has empty text. The `maxBlocks` that `ParseOptions` stores is never negative. -/
theorem PerformPlatformOcr_blocks (P : OcrPlatform) (options : OcrOptions) (error : OcrError)
    (hlo : -2 ^ 31 ≤ options.maxBlocks) (hhi : options.maxBlocks < 2 ^ 31)
    (hok : (PerformPlatformOcr P options {} error).ok = true) :
    (∃ engine bitmap recognition,
      P.Recognize engine bitmap = .ok recognition ∧
      (options.includeLayout = false →
        (PerformPlatformOcr P options {} error).result.blocks = []) ∧
      (options.includeLayout = true → 0 < options.maxBlocks →
        (PerformPlatformOcr P options {} error).result.blocks
          = (recognition.Lines.filterMap (lineBlock P)).take options.maxBlocks.toNat ∧
        ((PerformPlatformOcr P options {} error).result.blocks.length : Int)
          ≤ options.maxBlocks) ∧
      (options.includeLayout = true → options.maxBlocks ≤ 0 →
        (PerformPlatformOcr P options {} error).result.blocks
          = recognition.Lines.filterMap (lineBlock P))) ∧
    (∀ b ∈ (PerformPlatformOcr P options {} error).result.blocks, b.text ≠ []) ∧
    (∀ input : JsValue, 0 ≤ (parseMaxBlocks input {}).maxBlocks) := by
  have _ := hlo
  obtain ⟨engine, bitmap, recognition, h1, -, -, h4⟩ :=
    PerformPlatformOcr_ok P options {} error hok
  have hcb := collectBlocks_spec P options.maxBlocks hhi recognition.Lines []
    (fun h => by simpa using h)
  simp only [List.nil_append] at hcb
  have hb : (PerformPlatformOcr P options {} error).result.blocks =
      if options.includeLayout then
        (if 0 < options.maxBlocks then
          (recognition.Lines.filterMap (lineBlock P)).take options.maxBlocks.toNat
        else recognition.Lines.filterMap (lineBlock P))
      else [] := by
    rw [h4]
    split
    · exact hcb
    · rfl
  refine ⟨⟨engine, bitmap, recognition, h1, ?_, ?_, ?_⟩, ?_, ?_⟩
  · intro hf
    rw [hb, hf]
    rfl
  · intro ht hpos
    rw [hb, ht]
    simp only [if_true, hpos]
    refine ⟨trivial, ?_⟩
    rw [List.length_take]
    omega
  · intro ht hnon
    rw [hb, ht]
    simp only [if_true, not_lt.mpr hnon, if_false]
  · intro b hbm
    rw [hb] at hbm
    have hsub : b ∈ recognition.Lines.filterMap (lineBlock P) := by
      split at hbm
      · split at hbm
        · exact List.mem_of_mem_take hbm
        · exact hbm
      · cases hbm
    obtain ⟨line, -, hl⟩ := List.mem_filterMap.mp hsub
    exact lineBlock_text P line b hl
  · intro input
    unfold parseMaxBlocks
    split
    · simp only [stdMax]
      split
      · omega
      · exact le_refl 0
    · exact le_refl 0

/-- Witness for C12: on `ocrSample` with layout and `maxBlocks = 1` the only block is the
first line; without a limit the two lines with text remain. -/
theorem PerformPlatformOcr_blocks_witness :
    ((PerformPlatformOcr ocrSample { image := [1], includeLayout := true, maxBlocks := 1 }
        {} {}).result.blocks.map fun b => b.text) = [L "ab"] ∧
    ((PerformPlatformOcr ocrSample { image := [1], includeLayout := true, maxBlocks := 0 }
        {} {}).result.blocks.map fun b => b.text) = [L "ab", L "cd"] ∧
    ((PerformPlatformOcr ocrSample { image := [1], includeLayout := true, maxBlocks := 1 }
        {} {}).result.blocks.length : Int) ≤ 1 ∧
    ∀ b ∈ (PerformPlatformOcr ocrSample { image := [1], includeLayout := true, maxBlocks := 1 }
        {} {}).result.blocks, b.text ≠ [] :=
  ⟨by decide, by decide, by decide,
   (PerformPlatformOcr_blocks ocrSample { image := [1], includeLayout := true, maxBlocks := 1 }
      {} (by decide) (by decide) (by decide)).2.1⟩

/-! ## The full-path protocol -/

theorem overlay_length (buffer written : List Nat) :
    (written.take buffer.length ++ buffer.drop (written.take buffer.length).length).length
      = buffer.length := by
  simp only [List.length_append, List.length_take, List.length_drop]
  omega

theorem overlay_length_of (buffer written : List Nat) (k : Nat) (hk : buffer.length = k) :
    (written.take k ++ buffer.drop (written.take k).length).length = k := by
  rw [← hk]
  exact overlay_length buffer written

theorem overlay_take_of (buffer written : List Nat) (k n : Nat)
    (h1 : n ≤ written.length) (h2 : n ≤ k) :
    (written.take k ++ buffer.drop (written.take k).length).take n = written.take n := by
  rw [List.take_append_of_le_length (by rw [List.length_take]; omega), List.take_take,
    min_eq_left h2]

theorem overlay_take (buffer written : List Nat) (n : Nat) (h1 : n ≤ written.length)
    (h2 : n ≤ buffer.length) :
    (written.take buffer.length ++ buffer.drop (written.take buffer.length).length).take n
      = written.take n := by
  rw [List.take_append_of_le_length (by rw [List.length_take]; omega), List.take_take,
    min_eq_left h2]

/-- One pass of the full-path loop. -/
theorem fullPathLoop_succ (W : World) (index fuel : Nat) (buffer : List Nat)
    (tr : List Event) :
    fullPathLoop W index (fuel + 1) buffer tr =
      if (W.GetResultFullPathNameW tr index (buffer.length % 2 ^ 32)).1 % 2 ^ 32 = 0 then
        .ok ([], tr ++ [Event.GetResultFullPathNameW index (buffer.length % 2 ^ 32)])
      else if (W.GetResultFullPathNameW tr index (buffer.length % 2 ^ 32)).1 % 2 ^ 32
          < buffer.length then
        .ok (((W.GetResultFullPathNameW tr index (buffer.length % 2 ^ 32)).2.take buffer.length
            ++ buffer.drop ((W.GetResultFullPathNameW tr index
              (buffer.length % 2 ^ 32)).2.take buffer.length).length).take
            ((W.GetResultFullPathNameW tr index (buffer.length % 2 ^ 32)).1 % 2 ^ 32),
          tr ++ [Event.GetResultFullPathNameW index (buffer.length % 2 ^ 32)])
      else
        fullPathLoop W index fuel
          (((W.GetResultFullPathNameW tr index (buffer.length % 2 ^ 32)).2.take buffer.length
            ++ buffer.drop ((W.GetResultFullPathNameW tr index
              (buffer.length % 2 ^ 32)).2.take buffer.length).length) ++
            List.replicate ((W.GetResultFullPathNameW tr index (buffer.length % 2 ^ 32)).1
              % 2 ^ 32 + 1 - buffer.length) 0)
          (tr ++ [Event.GetResultFullPathNameW index (buffer.length % 2 ^ 32)]) := by
  conv_lhs => unfold fullPathLoop
  simp only [overlay_length]

/-- C16: when the full-path accessor reports the same length `L` for the index whatever
buffer it is offered, `GetResultFullPath` finishes after at most two accessor calls: with
`L = 0` it returns the empty string after one call; with `0 < L < 4096` it returns `L`
code units from the initial buffer of 4096 after one call; otherwise it calls once more
with a buffer of `L + 1` code units and returns `L` code units. The path is the first `L`
units the accessor stored, when it stored that many. -/
theorem GetResultFullPath_two_calls (W : World) (api : EverythingApi) (index : Nat)
    (tr : List Event) (L : Nat) (hptr : api.getResultFullPathName.isSome = true)
    (hL : L < 2 ^ 32)
    (hconst : ∀ tr2 n, (W.GetResultFullPathNameW tr2 index n).1 = L) :
    (L = 0 →
      GetResultFullPath W api index tr
        = .ok ([], tr ++ [Event.GetResultFullPathNameW index 4096])) ∧
    (0 < L → L < 4096 →
      ∃ path, GetResultFullPath W api index tr
          = .ok (path, tr ++ [Event.GetResultFullPathNameW index 4096]) ∧
        path.length = L ∧
        (L ≤ (W.GetResultFullPathNameW tr index 4096).2.length →
          path = (W.GetResultFullPathNameW tr index 4096).2.take L)) ∧
    (4096 ≤ L →
      ∃ path, GetResultFullPath W api index tr
          = .ok (path, tr ++ [Event.GetResultFullPathNameW index 4096,
              Event.GetResultFullPathNameW index ((L + 1) % 2 ^ 32)]) ∧
        path.length = L ∧
        (L ≤ (W.GetResultFullPathNameW (tr ++ [Event.GetResultFullPathNameW index 4096]) index
            ((L + 1) % 2 ^ 32)).2.length →
          path = (W.GetResultFullPathNameW (tr ++ [Event.GetResultFullPathNameW index 4096])
            index ((L + 1) % 2 ^ 32)).2.take L)) := by
  obtain ⟨a, ha⟩ := Option.isSome_iff_exists.mp hptr
  have hmod : L % 2 ^ 32 = L := Nat.mod_eq_of_lt hL
  have h4096 : (List.replicate 4096 (0 : Nat)).length % 2 ^ 32 = 4096 := by
    rw [List.length_replicate]
    norm_num
  have hfuel : (2 : Nat) ^ 32 = 2 ^ 32 - 2 + 1 + 1 := by norm_num
  have hstart : GetResultFullPath W api index tr
      = fullPathLoop W index (2 ^ 32 - 2 + 1 + 1) (List.replicate 4096 0) tr := by
    unfold GetResultFullPath
    rw [ha]
    exact congrArg (fun f => fullPathLoop W index f (List.replicate 4096 0) tr) hfuel
  rw [hstart, fullPathLoop_succ, h4096, hconst, hmod, List.length_replicate]
  refine ⟨?_, ?_, ?_⟩
  · intro h0
    rw [if_pos h0]
  · intro hpos hlt
    rw [if_neg (by omega), if_pos hlt]
    refine ⟨_, rfl, ?_, ?_⟩
    · rw [List.length_take]
      have := overlay_length (List.replicate 4096 0) (W.GetResultFullPathNameW tr index 4096).2
      rw [List.length_replicate] at this
      rw [this]
      omega
    · intro hw
      have := overlay_take (List.replicate 4096 0) (W.GetResultFullPathNameW tr index 4096).2 L
        hw (by rw [List.length_replicate]; omega)
      rw [List.length_replicate] at this
      exact this
  · intro hge
    rw [if_neg (by omega), if_neg (by omega), fullPathLoop_succ]
    have hlen : ((W.GetResultFullPathNameW tr index 4096).2.take 4096 ++
        (List.replicate 4096 0).drop ((W.GetResultFullPathNameW tr index 4096).2.take
          4096).length ++ List.replicate (L + 1 - 4096) 0).length = L + 1 := by
      have := overlay_length (List.replicate 4096 0) (W.GetResultFullPathNameW tr index 4096).2
      rw [List.length_replicate] at this
      rw [List.length_append, this, List.length_replicate]
      omega
    rw [hlen, hconst, hmod, if_neg (by omega), if_pos (by omega)]
    have htr : tr ++ [Event.GetResultFullPathNameW index 4096] ++
        [Event.GetResultFullPathNameW index ((L + 1) % 2 ^ 32)]
        = tr ++ [Event.GetResultFullPathNameW index 4096,
            Event.GetResultFullPathNameW index ((L + 1) % 2 ^ 32)] :=
      List.append_assoc tr [Event.GetResultFullPathNameW index 4096]
        [Event.GetResultFullPathNameW index ((L + 1) % 2 ^ 32)]
    rw [htr]
    refine ⟨_, rfl, ?_, ?_⟩
    · rw [List.length_take, overlay_length_of _ _ (L + 1) hlen]
      omega
    · intro hw
      exact overlay_take_of _ _ (L + 1) L hw (by omega)

/-- Witness for C16: in `worldRoot` the accessor always reports 3 code units, and the path
comes from the first call. -/
theorem GetResultFullPath_two_calls_witness :
    ∃ path, GetResultFullPath worldRoot apiGood 0 []
        = .ok (path, [] ++ [Event.GetResultFullPathNameW 0 4096]) ∧
      path.length = 3 ∧
      (3 ≤ (worldRoot.GetResultFullPathNameW [] 0 4096).2.length →
        path = (worldRoot.GetResultFullPathNameW [] 0 4096).2.take 3) :=
  (GetResultFullPath_two_calls worldRoot apiGood 0 [] 3 (by decide) (by decide)
    (fun _ _ => rfl)).2.1 (by decide) (by decide)

/-! ## Items of the result loop -/

/-- The fields of an item the body of the result loop produces. -/
theorem processResult_fields (W : World) (api : EverythingApi) (i : Nat) (tr tr2 : List Event)
    (item : SearchResultItem) (h : processResult W api i tr = .ok (some item, tr2)) :
    ∃ (fullPathWide : WString) (tr1 tr3 tr4 : List Event),
      GetResultFullPath W api i tr = .ok (fullPathWide, tr1) ∧
      item.fullPath = WideToUtf8 W fullPathWide ∧
      item.path = WideToUtf8 W (pathWideOf fullPathWide) ∧
      item.name = WideToUtf8 W (nameWideOf fullPathWide ((W.GetResultFileNameW tr1 i).getD [])) ∧
      item.dateModified =
        (if api.getResultDateModified.isSome && (W.GetResultDateModified tr3 i).1 ≠ 0 then
          some (FileTimeToUnixMillis (W.GetResultDateModified tr3 i).2) else none) ∧
      item.dateCreated =
        (if api.getResultDateCreated.isSome && (W.GetResultDateCreated tr4 i).1 ≠ 0 then
          some (FileTimeToUnixMillis (W.GetResultDateCreated tr4 i).2) else none) := by
  unfold processResult at h
  split at h
  · cases h
  · rename_i fullPathWide tr1 hfp
    split at h
    · cases h
    · simp only at h
      generalize hraw : W.GetResultFileNameW tr1 i = raw at h
      cases raw with
      | none =>
        simp only at h
        split at h
        · simp only [Except.ok.injEq, Prod.mk.injEq] at h
          cases h.1
        · simp only [Except.ok.injEq, Prod.mk.injEq, Option.some.injEq] at h
          obtain ⟨h1, -⟩ := h
          rw [← h1]
          refine ⟨fullPathWide, tr1, _, _, hfp, rfl, rfl, ?_, rfl, rfl⟩
          rw [hraw]
          rfl
      | some s =>
        simp only at h
        split at h
        · simp only [Except.ok.injEq, Prod.mk.injEq] at h
          cases h.1
        · simp only [Except.ok.injEq, Prod.mk.injEq, Option.some.injEq] at h
          obtain ⟨h1, -⟩ := h
          rw [← h1]
          refine ⟨fullPathWide, tr1, _, _, hfp, rfl, rfl, ?_, rfl, rfl⟩
          rw [hraw]
          rfl

theorem resultLoop_produced (W : World) (api : EverythingApi) (remaining : Nat) :
    ∀ (i : Nat) (tr : List Event) (items : List SearchResultItem) (tr2 : List Event),
      resultLoop W api remaining i tr = .ok (items, tr2) →
      ∀ it ∈ items, Produced W api it := by
  induction remaining with
  | zero =>
    intro i tr items tr2 h
    simp only [resultLoop, Except.ok.injEq, Prod.mk.injEq] at h
    rw [← h.1]
    intro it hit
    cases hit
  | succ remaining ih =>
    intro i tr items tr2 h
    unfold resultLoop at h
    split at h
    · cases h
    · rename_i item tr1 hp
      split at h
      · cases h
      · rename_i items1 tr3 hl
        simp only [Except.ok.injEq, Prod.mk.injEq] at h
        rw [← h.1]
        intro it hit
        rcases List.mem_append.mp hit with h1 | h1
        · cases item with
          | none => cases h1
          | some x =>
            simp only [Option.toList, List.mem_singleton] at h1
            rw [h1]
            exact ⟨i, tr, tr1, hp⟩
        · exact ih (i + 1) tr1 items1 tr3 hl it h1

theorem executeQuery_api (W : World) (api : EverythingApi) (options : SearchOptions)
    (wideQuery : WString) (tr : List Event) :
    (executeQuery W api options wideQuery tr).api = api := by
  unfold executeQuery
  split
  · rfl
  · split
    · rfl
    · simp only
      split
      · rfl
      · split
        · rfl
        · split <;> rfl

theorem executeQuery_produced (W : World) (api : EverythingApi) (options : SearchOptions)
    (wideQuery : WString) (tr : List Event) (n : Nat) (items : List SearchResultItem)
    (h : (executeQuery W api options wideQuery tr).outcome = .array n items) :
    ∀ it ∈ items, Produced W api it := by
  unfold executeQuery at h
  split at h
  · cases h
  · split at h
    · cases h
    · simp only at h
      split at h
      · cases h
      · split at h
        · cases h
        · split at h
          · cases h
          · rename_i its tr3 hl
            simp only [Outcome.array.injEq] at h
            rw [← h.2]
            exact resultLoop_produced W api _ _ _ its tr3 hl

/-- Every item of a search comes from the body of the result loop, run on the resolver
the search leaves behind. -/
theorem SearchWindows_produced (W : World) (api : EverythingApi) (info : CallbackInfo)
    (n : Nat) (items : List SearchResultItem)
    (h : (SearchWindows W api info).outcome = .array n items) :
    ∀ it ∈ items, Produced W (SearchWindows W api info).api it := by
  unfold SearchWindows at h ⊢
  split at h
  · cases h
  · rename_i h0
    rw [if_neg h0]
    simp only at h ⊢
    split at h
    · simp only [Outcome.array.injEq] at h
      rw [← h.2]
      intro it hit
      cases hit
    · rename_i h1
      rw [if_neg h1]
      split at h
      · cases h
      · rename_i h2
        rw [if_neg h2]
        split at h
        · cases h
        · rename_i h3
          rw [if_neg h3, executeQuery_api]
          exact executeQuery_produced W _ _ _ _ n items h

theorem find_last_of_separator (pre : WString) (c : Nat) (suf : WString)
    (hc : isSeparator c) (hsuf : ∀ x ∈ suf, ¬ isSeparator x) :
    find_last_of (pre ++ c :: suf) [92, 47] = some pre.length := by
  apply find_last_of_split
  · rcases hc with h | h <;> simp [h]
  · intro x hx hmem
    apply hsuf x hx
    simp only [List.mem_cons, List.mem_singleton, List.not_mem_nil, or_false] at hmem
    exact hmem

theorem find_last_of_no_separator (s : WString) (h : ∀ x ∈ s, ¬ isSeparator x) :
    find_last_of s [92, 47] = none := by
  apply find_last_of_eq_none
  intro x hx hmem
  apply h x hx
  simp only [List.mem_cons, List.mem_singleton, List.not_mem_nil, or_false] at hmem
  exact hmem

theorem pathWideOf_split (pre : WString) (c : Nat) (suf : WString)
    (hc : isSeparator c) (hsuf : ∀ x ∈ suf, ¬ isSeparator x) :
    pathWideOf (pre ++ c :: suf) = pre := by
  unfold pathWideOf
  rw [find_last_of_separator pre c suf hc hsuf]
  simp

theorem pathWideOf_no_separator (s : WString) (h : ∀ x ∈ s, ¬ isSeparator x) :
    pathWideOf s = [] := by
  unfold pathWideOf
  rw [find_last_of_no_separator s h]
  simp

theorem nameWideOf_split (pre : WString) (c : Nat) (suf : WString)
    (hc : isSeparator c) (hsuf : ∀ x ∈ suf, ¬ isSeparator x) :
    nameWideOf (pre ++ c :: suf) [] = if suf = [] then pre ++ [c] else suf := by
  unfold nameWideOf
  rw [find_last_of_separator pre c suf hc hsuf]
  simp only [List.isEmpty_nil, if_true]
  cases suf with
  | nil => simp
  | cons a suf =>
    have : pre.length + 1 < (pre ++ c :: a :: suf).length := by
      simp only [List.length_append, List.length_cons]
      omega
    rw [if_pos this]
    have e : pre ++ c :: a :: suf = (pre ++ [c]) ++ a :: suf := by simp
    rw [e, List.drop_left' (by simp)]
    simp

theorem nameWideOf_no_separator (s : WString) (h : ∀ x ∈ s, ¬ isSeparator x) :
    nameWideOf s [] = s := by
  unfold nameWideOf
  rw [find_last_of_no_separator s h]
  simp

theorem nameWideOf_given (fullPathWide s : WString) (h : s ≠ []) :
    nameWideOf fullPathWide s = s := by
  unfold nameWideOf
  rw [if_neg (by cases s <;> simp_all)]

/-! ## Items: claims -/

/-- C11 as stated fails: in `worldRoot` the file name accessor yields null and the full
path `C:\` ends in its last separator, so the part behind that separator is empty; the
item's name is the whole full path, not the empty string. -/
theorem SearchWindows_name_of_root :
    (SearchWindows worldRoot apiGood [.string [97]]).outcome = .array 1
      [{ fullPath := [67, 58, 92], path := [67, 58], name := [67, 58, 92],
         filename := [67, 58, 92], extension := [], size := some 42, dateModified := some 1,
         dateCreated := none, isFolder := some false }] ∧
    (∀ tr i, worldRoot.GetResultFileNameW tr i = none) ∧
    ([67, 58, 92] : WString) = [67, 58] ++ 92 :: [] ∧
    ([67, 58, 92] : Bytes) ≠ WideToUtf8 worldRoot [] := by
  refine ⟨by decide!, fun _ _ => rfl, rfl, by decide⟩

/-- C11, amended: for every item of a search, with `fullPathWide` the full path and
`rawName` what the file name accessor yielded for its index: when `rawName` is null or
empty the name is the part of the full path behind its last separator if that part is not
empty, and the whole full path if it has no separator or ends in its last separator; when
`rawName` is not empty the name is `rawName`; the path is the part of the full path before
its last separator, and empty when the full path has no separator. All fields pass through
`WideToUtf8`. -/
theorem SearchWindows_name_path (W : World) (api : EverythingApi) (info : CallbackInfo)
    (n : Nat) (items : List SearchResultItem) (item : SearchResultItem)
    (hout : (SearchWindows W api info).outcome = .array n items) (hitem : item ∈ items) :
    ∃ (fullPathWide : WString) (rawName : Option WString) (i : Nat) (tr1 : List Event),
      rawName = W.GetResultFileNameW tr1 i ∧
      item.fullPath = WideToUtf8 W fullPathWide ∧
      ((rawName = none ∨ rawName = some []) →
        (∀ pre c suf, fullPathWide = pre ++ c :: suf → isSeparator c →
          (∀ x ∈ suf, ¬ isSeparator x) → suf ≠ [] → item.name = WideToUtf8 W suf) ∧
        ((∀ x ∈ fullPathWide, ¬ isSeparator x) → item.name = WideToUtf8 W fullPathWide) ∧
        (∀ pre c, fullPathWide = pre ++ [c] → isSeparator c →
          item.name = WideToUtf8 W fullPathWide)) ∧
      (∀ s, rawName = some s → s ≠ [] → item.name = WideToUtf8 W s) ∧
      (∀ pre c suf, fullPathWide = pre ++ c :: suf → isSeparator c →
        (∀ x ∈ suf, ¬ isSeparator x) → item.path = WideToUtf8 W pre) ∧
      ((∀ x ∈ fullPathWide, ¬ isSeparator x) → item.path = []) := by
  obtain ⟨i, tr, tr2, hp⟩ := SearchWindows_produced W api info n items hout item hitem
  obtain ⟨fullPathWide, tr1, -, -, -, f1, f2, f3, -, -⟩ := processResult_fields W _ i tr tr2 item hp
  refine ⟨fullPathWide, W.GetResultFileNameW tr1 i, i, tr1, rfl, f1, ?_, ?_, ?_, ?_⟩
  · intro hraw
    have hd : (W.GetResultFileNameW tr1 i).getD [] = [] := by
      rcases hraw with h | h <;> rw [h] <;> rfl
    rw [hd] at f3
    refine ⟨?_, ?_, ?_⟩
    · intro pre c suf hs hc hsuf hne
      rw [f3, hs, nameWideOf_split pre c suf hc hsuf, if_neg hne]
    · intro hno
      rw [f3, nameWideOf_no_separator fullPathWide hno]
    · intro pre c hs hc
      rw [f3, hs, nameWideOf_split pre c [] hc (by simp), if_pos rfl]
  · intro s hs hne
    rw [f3, hs]
    exact congrArg (WideToUtf8 W) (nameWideOf_given fullPathWide s hne)
  · intro pre c suf hs hc hsuf
    rw [f2, hs, pathWideOf_split pre c suf hc hsuf]
  · intro hno
    rw [f2, pathWideOf_no_separator fullPathWide hno]
    rfl

/-- Witness for C11, amended: the item of `worldRoot`. -/
theorem SearchWindows_name_path_witness :
    ∃ (fullPathWide : WString) (rawName : Option WString) (i : Nat) (tr1 : List Event),
      rawName = worldRoot.GetResultFileNameW tr1 i ∧
      ([67, 58, 92] : Bytes) = WideToUtf8 worldRoot fullPathWide ∧
      ((rawName = none ∨ rawName = some []) →
        (∀ pre c suf, fullPathWide = pre ++ c :: suf → isSeparator c →
          (∀ x ∈ suf, ¬ isSeparator x) → suf ≠ [] →
          ([67, 58, 92] : Bytes) = WideToUtf8 worldRoot suf) ∧
        ((∀ x ∈ fullPathWide, ¬ isSeparator x) →
          ([67, 58, 92] : Bytes) = WideToUtf8 worldRoot fullPathWide) ∧
        (∀ pre c, fullPathWide = pre ++ [c] → isSeparator c →
          ([67, 58, 92] : Bytes) = WideToUtf8 worldRoot fullPathWide)) ∧
      (∀ s, rawName = some s → s ≠ [] → ([67, 58, 92] : Bytes) = WideToUtf8 worldRoot s) ∧
      (∀ pre c suf, fullPathWide = pre ++ c :: suf → isSeparator c →
        (∀ x ∈ suf, ¬ isSeparator x) → ([67, 58] : Bytes) = WideToUtf8 worldRoot pre) ∧
      ((∀ x ∈ fullPathWide, ¬ isSeparator x) → ([67, 58] : Bytes) = []) :=
  SearchWindows_name_path worldRoot apiGood [.string [97]] 1 _
    { fullPath := [67, 58, 92], path := [67, 58], name := [67, 58, 92],
      filename := [67, 58, 92], extension := [], size := some 42, dateModified := some 1,
      dateCreated := none, isFolder := some false }
    (by decide!) (List.mem_singleton.mpr rfl)

/-- C15 as stated fails: in `worldOld` the modification accessor succeeds with the raw
timestamp 0, which predates the Unix epoch, and the item carries `dateModified` with the
value 0. -/
theorem SearchWindows_date_before_epoch :
    (SearchWindows worldOld apiGood [.string [97]]).outcome = .array 1
      [{ fullPath := [], path := [], name := L "a.txt", filename := L "a.txt",
         extension := L "txt", size := some 42, dateModified := some 0, dateCreated := none,
         isFolder := some false }] ∧
    (∀ tr i, worldOld.GetResultDateModified tr i = (1, ⟨0, 0⟩)) ∧
    (FILETIME.mk 0 0).QuadPart < kWindowsEpochOffset100Ns := by
  refine ⟨by decide, fun _ _ => rfl, by decide⟩

/-- C15, amended: for every item of a search the `dateModified` (respectively
`dateCreated`) field is present exactly when the corresponding optional symbol resolved
and the accessor call for the item's index succeeded; its value is the conversion of the
raw timestamp to Unix milliseconds, so it is never negative and is 0 when the raw
timestamp is at or before the Unix epoch. -/
theorem SearchWindows_dates (W : World) (api : EverythingApi) (info : CallbackInfo)
    (n : Nat) (items : List SearchResultItem) (item : SearchResultItem)
    (hout : (SearchWindows W api info).outcome = .array n items) (hitem : item ∈ items) :
    ∃ (i : Nat) (tr3 tr4 : List Event),
      item.dateModified =
        (if (SearchWindows W api info).api.getResultDateModified.isSome = true ∧
            (W.GetResultDateModified tr3 i).1 ≠ 0 then
          some (FileTimeToUnixMillis (W.GetResultDateModified tr3 i).2) else none) ∧
      item.dateCreated =
        (if (SearchWindows W api info).api.getResultDateCreated.isSome = true ∧
            (W.GetResultDateCreated tr4 i).1 ≠ 0 then
          some (FileTimeToUnixMillis (W.GetResultDateCreated tr4 i).2) else none) ∧
      (∀ v, item.dateModified = some v → 0 ≤ v) ∧
      (∀ v, item.dateCreated = some v → 0 ≤ v) ∧
      ((SearchWindows W api info).api.getResultDateModified.isSome = true →
        (W.GetResultDateModified tr3 i).1 ≠ 0 →
        (W.GetResultDateModified tr3 i).2.QuadPart ≤ kWindowsEpochOffset100Ns →
        item.dateModified = some 0) ∧
      ((SearchWindows W api info).api.getResultDateCreated.isSome = true →
        (W.GetResultDateCreated tr4 i).1 ≠ 0 →
        (W.GetResultDateCreated tr4 i).2.QuadPart ≤ kWindowsEpochOffset100Ns →
        item.dateCreated = some 0) := by
  obtain ⟨i, tr, tr2, hp⟩ := SearchWindows_produced W api info n items hout item hitem
  obtain ⟨fullPathWide, tr1, tr3, tr4, -, -, -, -, f4, f5⟩ :=
    processResult_fields W _ i tr tr2 item hp
  have hnonneg : ∀ ft : FILETIME, 0 ≤ FileTimeToUnixMillis ft := by
    intro ft
    unfold FileTimeToUnixMillis
    simp only
    split
    · exact le_refl 0
    · exact Int.ofNat_nonneg _
  have hzero : ∀ ft : FILETIME, ft.QuadPart ≤ kWindowsEpochOffset100Ns →
      FileTimeToUnixMillis ft = 0 := by
    intro ft h
    unfold FileTimeToUnixMillis
    simp only
    rw [if_pos h]
  have g4 : item.dateModified =
      (if (SearchWindows W api info).api.getResultDateModified.isSome = true ∧
          (W.GetResultDateModified tr3 i).1 ≠ 0 then
        some (FileTimeToUnixMillis (W.GetResultDateModified tr3 i).2) else none) := by
    rw [f4]
    by_cases h1 : (SearchWindows W api info).api.getResultDateModified.isSome = true <;>
      by_cases h2 : (W.GetResultDateModified tr3 i).1 = 0 <;> simp [h1, h2]
  have g5 : item.dateCreated =
      (if (SearchWindows W api info).api.getResultDateCreated.isSome = true ∧
          (W.GetResultDateCreated tr4 i).1 ≠ 0 then
        some (FileTimeToUnixMillis (W.GetResultDateCreated tr4 i).2) else none) := by
    rw [f5]
    by_cases h1 : (SearchWindows W api info).api.getResultDateCreated.isSome = true <;>
      by_cases h2 : (W.GetResultDateCreated tr4 i).1 = 0 <;> simp [h1, h2]
  refine ⟨i, tr3, tr4, g4, g5, ?_, ?_, ?_, ?_⟩
  · intro v hv
    rw [g4] at hv
    split at hv
    · simp only [Option.some.injEq] at hv
      rw [← hv]
      exact hnonneg _
    · cases hv
  · intro v hv
    rw [g5] at hv
    split at hv
    · simp only [Option.some.injEq] at hv
      rw [← hv]
      exact hnonneg _
    · cases hv
  · intro h1 h2 h3
    rw [g4, if_pos ⟨h1, h2⟩, hzero _ h3]
  · intro h1 h2 h3
    rw [g5, if_pos ⟨h1, h2⟩, hzero _ h3]

/-- Witness for C15, amended: the item of `worldOld`. -/
theorem SearchWindows_dates_witness :
    ∃ (i : Nat) (tr3 tr4 : List Event),
      (some 0 : Option Int) =
        (if (SearchWindows worldOld apiGood [.string [97]]).api.getResultDateModified.isSome
              = true ∧ (worldOld.GetResultDateModified tr3 i).1 ≠ 0 then
          some (FileTimeToUnixMillis (worldOld.GetResultDateModified tr3 i).2) else none) ∧
      (none : Option Int) =
        (if (SearchWindows worldOld apiGood [.string [97]]).api.getResultDateCreated.isSome
              = true ∧ (worldOld.GetResultDateCreated tr4 i).1 ≠ 0 then
          some (FileTimeToUnixMillis (worldOld.GetResultDateCreated tr4 i).2) else none) :=
  let ⟨i, tr3, tr4, h1, h2, _⟩ :=
    SearchWindows_dates worldOld apiGood [.string [97]] 1 _
      { fullPath := [], path := [], name := L "a.txt", filename := L "a.txt",
        extension := L "txt", size := some 42, dateModified := some 0, dateCreated := none,
        isFolder := some false }
      (by decide) (List.mem_singleton.mpr rfl)
  ⟨i, tr3, tr4, h1, h2⟩

/-! ## Reachable resolver states -/

@[simp] theorem setRequired_version (api : EverythingApi) (m : Required) (p : Option Nat) :
    (api.setRequired m p).version_ = api.version_ := by
  cases m <;> rfl

@[simp] theorem setOptional_version (api : EverythingApi) (m : Optional) (p : Option Nat) :
    (api.setOptional m p).version_ = api.version_ := by
  cases m <;> rfl

theorem getRequired_setRequired (api : EverythingApi) (m m2 : Required) (p : Option Nat) :
    (api.setRequired m p).getRequired m2 = if m2 = m then p else api.getRequired m2 := by
  cases m <;> cases m2 <;> rfl

@[simp] theorem getRequired_setOptional (api : EverythingApi) (m : Optional) (m2 : Required)
    (p : Option Nat) : (api.setOptional m p).getRequired m2 = api.getRequired m2 := by
  cases m <;> cases m2 <;> rfl

theorem mem_requiredOrder (m : Required) : m ∈ requiredOrder := by
  cases m <;> decide

theorem resolveChain_more (W : World) (ms : List Required) :
    ∀ (api : EverythingApi) (msg : String) (tr : List Event),
      (resolveChain W ms api msg tr).api.version_ = api.version_ ∧
      (∀ m, m ∉ ms → (resolveChain W ms api msg tr).api.getRequired m = api.getRequired m) ∧
      ((resolveChain W ms api msg tr).ok = true →
        ∀ m ∈ ms, ((resolveChain W ms api msg tr).api.getRequired m).isSome = true) := by
  induction ms with
  | nil =>
    intro api msg tr
    exact ⟨rfl, fun _ _ => rfl, fun _ m hm => by cases hm⟩
  | cons m0 ms ih =>
    intro api msg tr
    unfold resolveChain
    simp only
    have hapi := LoadRequired_api W api m0 msg tr
    by_cases hok : (LoadRequired W api m0 msg tr).ok = true
    · rw [if_pos hok]
      obtain ⟨i1, i2, i3⟩ := ih (LoadRequired W api m0 msg tr).api
        (LoadRequired W api m0 msg tr).errorMessage (LoadRequired W api m0 msg tr).trace
      have hsome : (W.GetProcAddress api.module_ m0.symbol).isSome = true := by
        rw [← LoadRequired_ok W api m0 msg tr]; exact hok
      refine ⟨?_, ?_, ?_⟩
      · rw [i1, hapi]; simp
      · intro m hm
        rw [i2 m (fun h => hm (List.mem_cons_of_mem _ h)), hapi, getRequired_setRequired,
          if_neg (fun h => hm (by rw [h]; exact List.mem_cons_self _ _))]
      · intro hok2 m hm
        by_cases hin : m ∈ ms
        · exact i3 hok2 m hin
        · have hm0 : m = m0 := by
            rcases List.mem_cons.mp hm with h | h
            · exact h
            · exact absurd h hin
          rw [i2 m hin, hapi, getRequired_setRequired, if_pos hm0]
          exact hsome
    · rw [if_neg hok]
      refine ⟨?_, ?_, fun h => absurd h hok⟩
      · rw [hapi]; simp
      · intro m hm
        rw [hapi, getRequired_setRequired,
          if_neg (fun h => hm (by rw [h]; exact List.mem_cons_self _ _))]

theorem loadOptionals_more (W : World) (ms : List Optional) :
    ∀ (api : EverythingApi) (tr : List Event),
      (ms.foldl (fun s m => LoadOptional W s.1 m s.2) (api, tr)).1.version_ = api.version_ ∧
      ∀ m, (ms.foldl (fun s m => LoadOptional W s.1 m s.2) (api, tr)).1.getRequired m
        = api.getRequired m := by
  induction ms with
  | nil =>
    intro api tr
    exact ⟨rfl, fun _ => rfl⟩
  | cons m0 ms ih =>
    intro api tr
    rw [List.foldl_cons]
    obtain ⟨i1, i2⟩ := ih (LoadOptional W api m0 tr).1 (LoadOptional W api m0 tr).2
    refine ⟨?_, ?_⟩
    · rw [i1]; simp [LoadOptional]
    · intro m
      rw [i2]; simp [LoadOptional]

/-- A dotted version string is not empty. -/
theorem versionText_ne_empty (a b c d : String) :
    (a ++ "." ++ b ++ "." ++ c ++ "." ++ d).isEmpty = false := by
  cases h : (a ++ "." ++ b ++ "." ++ c ++ "." ++ d).isEmpty
  · rfl
  · exfalso
    have h1 := (String.isEmpty_iff _).mp h
    have h2 : (a ++ "." ++ b ++ "." ++ c ++ "." ++ d).data = [] := by rw [h1]
    simp only [String.data_append, List.append_eq_nil] at h2
    exact absurd h2.1.2 (by decide)

theorem finishLoad_more (W : World) (api : EverythingApi) (msg : String) (tr : List Event) :
    (∀ m, (finishLoad W api msg tr).api.getRequired m = api.getRequired m) ∧
    ((versionSymbols.all fun s => (W.GetProcAddress api.module_ s).isSome) = true →
      ∃ tr2, (finishLoad W api msg tr).trace = tr2 ++ [Event.GetMajorVersion,
          Event.GetMinorVersion, Event.GetRevision, Event.GetBuildNumber] ∧
        (finishLoad W api msg tr).api.version_ =
          toString (W.GetMajorVersion tr2 % 2 ^ 32) ++ "." ++
          toString (W.GetMinorVersion tr2 % 2 ^ 32) ++ "." ++
          toString (W.GetRevision tr2 % 2 ^ 32) ++ "." ++
          toString (W.GetBuildNumber tr2 % 2 ^ 32)) ∧
    ((versionSymbols.all fun s => (W.GetProcAddress api.module_ s).isSome) = false →
      (finishLoad W api msg tr).api.version_ = api.version_) := by
  obtain ⟨o1, o2⟩ := loadOptionals_more W optionalOrder api tr
  obtain ⟨o3, -, -⟩ := loadOptionals_spec W optionalOrder api tr
  unfold finishLoad loadOptionals
  generalize optionalOrder.foldl (fun s m => LoadOptional W s.1 m s.2) (api, tr) = s
    at o1 o2 o3 ⊢
  simp only [versionSymbols, List.all_cons, List.all_nil, Bool.and_true, o3]
  by_cases hall : ((W.GetProcAddress api.module_ "Everything_GetMajorVersion").isSome &&
      (W.GetProcAddress api.module_ "Everything_GetMinorVersion").isSome &&
      (W.GetProcAddress api.module_ "Everything_GetRevision").isSome &&
      (W.GetProcAddress api.module_ "Everything_GetBuildNumber").isSome) = true
  · rw [if_pos hall]
    refine ⟨fun m => ?_, fun _ => ⟨_, rfl, rfl⟩, fun h => ?_⟩
    · rw [← o2 m]; cases m <;> rfl
    · exfalso
      simp only [Bool.and_eq_true] at hall
      simp only [hall.1.1.1, hall.1.1.2, hall.1.2, hall.2, Bool.and_self] at h
      cases h
  · rw [if_neg hall]
    refine ⟨fun m => ?_, fun h => ?_, fun _ => o1⟩
    · rw [← o2 m]; cases m <;> rfl
    · exfalso
      apply hall
      simp only [Bool.and_eq_true] at h ⊢
      exact ⟨⟨⟨h.1, h.2.1⟩, h.2.2.1⟩, h.2.2.2⟩

/-- The version string and the required pointers `LoadFromPath` leaves. -/
theorem LoadFromPath_more (W : World) (api : EverythingApi) (c : WString) (msg : String)
    (tr : List Event) :
    (usable W c = false → (LoadFromPath W api c msg tr).api.version_ = api.version_) ∧
    (usable W c = true →
      ∃ h, W.LoadLibraryW c = .ok h ∧
        requiredResolved (LoadFromPath W api c msg tr).api ∧
        ((versionSymbols.all fun s => (W.GetProcAddress (some h) s).isSome) = true →
          ∃ tr2, (LoadFromPath W api c msg tr).trace = tr2 ++ [Event.GetMajorVersion,
              Event.GetMinorVersion, Event.GetRevision, Event.GetBuildNumber] ∧
            (LoadFromPath W api c msg tr).api.version_ =
              toString (W.GetMajorVersion tr2 % 2 ^ 32) ++ "." ++
              toString (W.GetMinorVersion tr2 % 2 ^ 32) ++ "." ++
              toString (W.GetRevision tr2 % 2 ^ 32) ++ "." ++
              toString (W.GetBuildNumber tr2 % 2 ^ 32)) ∧
        ((versionSymbols.all fun s => (W.GetProcAddress (some h) s).isSome) = false →
          (LoadFromPath W api c msg tr).api.version_ = api.version_)) := by
  unfold LoadFromPath usable
  cases hload : W.LoadLibraryW c with
  | error winErr =>
    exact ⟨fun _ => rfl, fun h => by cases h⟩
  | ok h =>
    obtain ⟨r1, -, r3, -, -⟩ := resolveChain_spec W requiredOrder
      { api with module_ := some h } msg (tr ++ [Event.LoadLibraryW c])
    obtain ⟨m1, -, m3⟩ := resolveChain_more W requiredOrder
      { api with module_ := some h } msg (tr ++ [Event.LoadLibraryW c])
    simp only [] at r1 r3 m1 ⊢
    unfold ResolveRequiredSymbols
    generalize resolveChain W requiredOrder { api with module_ := some h } msg
        (tr ++ [Event.LoadLibraryW c]) = r at r1 r3 m1 m3 ⊢
    by_cases hok : r.ok = true
    · rw [hok] at r3
      simp only [hok, Bool.not_true, Bool.false_eq_true, if_false, ← r3]
      obtain ⟨f1, f2, f3⟩ := finishLoad_more W r.api r.errorMessage r.trace
      rw [r1] at f2 f3
      refine ⟨(fun h => by cases h), fun _ => ⟨h, rfl, ?_, f2, ?_⟩⟩
      · intro m
        rw [f1 m]
        exact m3 hok m (mem_requiredOrder m)
      · intro hv
        rw [f3 hv, m1]
    · have hok2 : r.ok = false := by simpa using hok
      rw [hok2] at r3
      simp only [hok2, Bool.not_false, if_true, ← r3]
      exact ⟨fun _ => m1, fun h => by cases h⟩

/-- A failing candidate loop keeps the version string. -/
theorem tryCandidates_fail_version (W : World) (cs : List WString) :
    ∀ (api : EverythingApi) (msg lastError : String) (tr : List Event),
      (∀ c ∈ cs, c.isEmpty = false → usable W c = false) →
      (tryCandidates W cs api msg lastError tr).api.version_ = api.version_ := by
  induction cs with
  | nil =>
    intro api msg lastError tr _
    rfl
  | cons c cs ih =>
    intro api msg lastError tr hall
    have hrest : ∀ d ∈ cs, d.isEmpty = false → usable W d = false :=
      fun d hd => hall d (List.mem_cons_of_mem _ hd)
    unfold tryCandidates
    by_cases hc : c.isEmpty = true
    · rw [if_pos hc]
      exact ih api msg lastError tr hrest
    · have hc2 : c.isEmpty = false := by simpa using hc
      have hu : usable W c = false := hall c (List.mem_cons_self _ _) hc2
      rw [if_neg hc]
      have l1 := (LoadFromPath_spec W api c msg tr).1
      rw [hu] at l1
      simp only [l1, Bool.false_eq_true, if_false]
      rw [ih _ _ _ _ hrest]
      exact (LoadFromPath_more W api c msg tr).1 hu

/-- The candidate loop up to the first usable candidate ends in the `LoadFromPath` of that
candidate, entered with the version string unchanged. -/
theorem tryCandidates_reduce (W : World) (pre : List WString) :
    ∀ (c : WString) (post : List WString) (api : EverythingApi) (msg lastError : String)
      (tr : List Event),
      c.isEmpty = false → usable W c = true →
      (∀ d ∈ pre, d.isEmpty = false → usable W d = false) →
      ∃ api2 msg2 tr2,
        tryCandidates W (pre ++ c :: post) api msg lastError tr = LoadFromPath W api2 c msg2 tr2 ∧
        api2.version_ = api.version_ := by
  induction pre with
  | nil =>
    intro c post api msg lastError tr hc hu _
    have hc1 : ¬ c.isEmpty = true := by simp [hc]
    have l1 := (LoadFromPath_spec W api c msg tr).1
    rw [hu] at l1
    refine ⟨api, msg, tr, ?_, rfl⟩
    rw [List.nil_append]
    unfold tryCandidates
    rw [if_neg hc1]
    simp only [l1, if_true]
  | cons d pre ih =>
    intro c post api msg lastError tr hc hu hall
    have hrest : ∀ e ∈ pre, e.isEmpty = false → usable W e = false :=
      fun e he => hall e (List.mem_cons_of_mem _ he)
    rw [List.cons_append]
    unfold tryCandidates
    by_cases hd : d.isEmpty = true
    · rw [if_pos hd]
      exact ih c post api msg lastError tr hc hu hrest
    · have hd2 : d.isEmpty = false := by simpa using hd
      have hud : usable W d = false := hall d (List.mem_cons_self _ _) hd2
      rw [if_neg hd]
      have l1 := (LoadFromPath_spec W api d msg tr).1
      rw [hud] at l1
      simp only [l1, Bool.false_eq_true, if_false]
      obtain ⟨api2, msg2, tr2, e1, e2⟩ := ih c post (LoadFromPath W api d msg tr).api
        (LoadFromPath W api d msg tr).errorMessage
        (if (!(LoadFromPath W api d msg tr).errorMessage.isEmpty) = true then
          (LoadFromPath W api d msg tr).errorMessage else lastError)
        (LoadFromPath W api d msg tr).trace hc hu hrest
      exact ⟨api2, msg2, tr2, e1, e2.trans ((LoadFromPath_more W api d msg tr).1 hud)⟩

/-- A failed `EnsureLoaded` keeps the version string. -/
theorem EnsureLoaded_fail_version (W : World) (api : EverythingApi) (msg : String)
    (tr : List Event) (hfail : (EnsureLoaded W api msg tr).ok = false) :
    (EnsureLoaded W api msg tr).api.version_ = api.version_ := by
  obtain ⟨hnot, -, -, -, f5, -⟩ := EnsureLoaded_fail_spec W api msg tr hfail
  have hE : EnsureLoaded W api msg tr
      = tryCandidates W (BuildCandidatePaths W) api msg "Everything SDK DLL not found" tr := by
    unfold EnsureLoaded
    rw [hnot]
    simp
  rw [hE]
  apply tryCandidates_fail_version
  intro c hc hne
  apply f5
  unfold attemptable nonEmpties
  rw [List.mem_filter]
  exact ⟨hc, by simp [hne]⟩

/-- A successful `EnsureLoaded` on a resolver that is not loaded: the retained module, the
required pointers and the version string. -/
theorem EnsureLoaded_success_more (W : World) (api : EverythingApi) (msg : String)
    (tr : List Event) (hnot : api.loaded_ = false)
    (hok : (EnsureLoaded W api msg tr).ok = true) :
    ∃ h, (EnsureLoaded W api msg tr).api.module_ = some h ∧
      (EnsureLoaded W api msg tr).api.loaded_ = true ∧
      requiredResolved (EnsureLoaded W api msg tr).api ∧
      ((versionSymbols.all fun s => (W.GetProcAddress (some h) s).isSome) = true →
        ∃ tr2, (EnsureLoaded W api msg tr).trace = tr2 ++ [Event.GetMajorVersion,
            Event.GetMinorVersion, Event.GetRevision, Event.GetBuildNumber] ∧
          (EnsureLoaded W api msg tr).api.version_ =
            toString (W.GetMajorVersion tr2 % 2 ^ 32) ++ "." ++
            toString (W.GetMinorVersion tr2 % 2 ^ 32) ++ "." ++
            toString (W.GetRevision tr2 % 2 ^ 32) ++ "." ++
            toString (W.GetBuildNumber tr2 % 2 ^ 32)) ∧
      ((versionSymbols.all fun s => (W.GetProcAddress (some h) s).isSome) = false →
        (EnsureLoaded W api msg tr).api.version_ = api.version_) := by
  obtain ⟨pre, c, post, h, ext, h1, h2, h3, h4, h5, h6, h7, -⟩ :=
    EnsureLoaded_ok_split W api msg tr hnot hok
  have hE : EnsureLoaded W api msg tr
      = tryCandidates W (pre ++ c :: post) api msg "Everything SDK DLL not found" tr := by
    unfold EnsureLoaded
    rw [hnot, h1]
    simp
  obtain ⟨api2, msg2, tr2, e1, e2⟩ := tryCandidates_reduce W pre c post api msg
    "Everything SDK DLL not found" tr ((isEmpty_eq_false_iff c).mpr h2) h3
    (fun d hd hne => h4 d hd ((isEmpty_eq_false_iff d).mp hne))
  obtain ⟨h', l1, l2, l3, l4⟩ := (LoadFromPath_more W api2 c msg2 tr2).2 h3
  have hh : h' = h := by
    rw [h5] at l1
    simp only [Except.ok.injEq] at l1
    exact l1.symm
  rw [hh] at l3 l4
  refine ⟨h, h6, h7, ?_, ?_, ?_⟩
  · rw [hE, e1]; exact l2
  · intro hv
    rw [hE, e1]
    exact l3 hv
  · intro hv
    rw [hE, e1, l4 hv, e2]

/-- Every reachable resolver that is loaded has a module handle and all nine required
pointers; every reachable resolver that is not loaded has no version string. -/
theorem Reachable_invariant (api : EverythingApi) (hr : Reachable api) :
    (api.loaded_ = true → api.module_.isSome = true ∧ requiredResolved api) ∧
    (api.loaded_ = false → api.version_ = "") := by
  induction hr with
  | init =>
    exact ⟨(fun h => by cases h), fun _ => rfl⟩
  | step W msg tr hprev ih =>
    rename_i api0
    cases hl : api0.loaded_ with
    | true =>
      rw [EnsureLoaded_of_loaded W api0 msg tr hl]
      exact ih
    | false =>
      cases hok : (EnsureLoaded W api0 msg tr).ok with
      | true =>
        obtain ⟨h, s1, s2, s3, -, -⟩ := EnsureLoaded_success_more W api0 msg tr hl hok
        refine ⟨fun _ => ⟨by rw [s1]; rfl, s3⟩, fun hf => ?_⟩
        rw [s2] at hf
        cases hf
      | false =>
        obtain ⟨-, f2, -⟩ := EnsureLoaded_fail_spec W api0 msg tr hok
        refine ⟨fun ht => ?_, fun _ => ?_⟩
        · rw [f2] at ht
          cases ht
        · rw [EnsureLoaded_fail_version W api0 msg tr hok]
          exact ih.2 hl

/-! ## Reachable resolver states: claims -/

theorem EnsureLoaded_ok_loaded (W : World) (api : EverythingApi) (msg : String)
    (tr : List Event) (hok : (EnsureLoaded W api msg tr).ok = true) :
    (EnsureLoaded W api msg tr).api.loaded_ = true := by
  cases hl : api.loaded_ with
  | true => rw [EnsureLoaded_of_loaded W api msg tr hl]; exact hl
  | false =>
    obtain ⟨h, -, s2, -⟩ := EnsureLoaded_success_more W api msg tr hl hok
    exact s2

/-- C14: `EverythingApi::GetVersion` is the empty string on a resolver that is not loaded.
When `EnsureLoaded` loads a reachable resolver, `GetVersion` is afterwards the string
`major.minor.revision.build` of the decimal renderings of the four getter results if all
four version symbols resolve in the retained module, and `unknown` if one of them does
not; later calls of `EnsureLoaded` leave the answer as it is. -/
theorem GetVersion_spec (W : World) (api : EverythingApi) (msg : String) (tr : List Event)
    (hreach : Reachable api) :
    (api.loaded_ = false → api.GetVersion = "") ∧
    (api.loaded_ = false → (EnsureLoaded W api msg tr).ok = true →
      ∃ h, (EnsureLoaded W api msg tr).api.module_ = some h ∧
        (EnsureLoaded W api msg tr).api.loaded_ = true ∧
        ((versionSymbols.all fun s => (W.GetProcAddress (some h) s).isSome) = true →
          ∃ tr2, (EnsureLoaded W api msg tr).trace = tr2 ++ [Event.GetMajorVersion,
              Event.GetMinorVersion, Event.GetRevision, Event.GetBuildNumber] ∧
            (EnsureLoaded W api msg tr).api.GetVersion =
              toString (W.GetMajorVersion tr2 % 2 ^ 32) ++ "." ++
              toString (W.GetMinorVersion tr2 % 2 ^ 32) ++ "." ++
              toString (W.GetRevision tr2 % 2 ^ 32) ++ "." ++
              toString (W.GetBuildNumber tr2 % 2 ^ 32)) ∧
        ((versionSymbols.all fun s => (W.GetProcAddress (some h) s).isSome) = false →
          (EnsureLoaded W api msg tr).api.GetVersion = "unknown")) ∧
    (api.loaded_ = true →
      (EnsureLoaded W api msg tr).api.GetVersion = api.GetVersion) := by
  refine ⟨?_, ?_, ?_⟩
  · intro hl
    unfold EverythingApi.GetVersion
    rw [hl]
    rfl
  · intro hl hok
    obtain ⟨h, s1, s2, -, s4, s5⟩ := EnsureLoaded_success_more W api msg tr hl hok
    refine ⟨h, s1, s2, ?_, ?_⟩
    · intro hv
      obtain ⟨tr2, t1, t2⟩ := s4 hv
      refine ⟨tr2, t1, ?_⟩
      unfold EverythingApi.GetVersion
      rw [s2, t2]
      simp only [Bool.not_true, Bool.false_eq_true, if_false, versionText_ne_empty,
        Bool.not_false, if_true]
    · intro hv
      unfold EverythingApi.GetVersion
      rw [s2, s5 hv, (Reachable_invariant api hreach).2 hl]
      rfl
  · intro hl
    rw [EnsureLoaded_of_loaded W api msg tr hl]

/-- Witness for C14: the initial resolver reports no version; loaded in `worldGood`, whose
getters answer 1, 4, 1 and 1024, it reports `1.4.1.1024`; loaded in `worldNoVersion` it
reports `unknown`. -/
theorem GetVersion_spec_witness :
    ({} : EverythingApi).GetVersion = "" ∧
    (EnsureLoaded worldGood {} "" []).api.GetVersion = "1.4.1.1024" ∧
    (EnsureLoaded worldNoVersion {} "" []).api.GetVersion = "unknown" :=
  ⟨(GetVersion_spec worldGood {} "" [] Reachable.init).1 rfl, by decide, by decide⟩

/-- C17: every resolver state reached from the initial state by `EnsureLoaded` calls that
has `loaded_` true has a module handle and all nine required function pointers; so after
every successful `EnsureLoaded` they are set, and no search on such a state ends in a call
through a null pointer or in any other fault. -/
theorem Reachable_required_resolved (api : EverythingApi) (hreach : Reachable api) :
    (api.loaded_ = true →
      api.module_.isSome = true ∧ ∀ m : Required, (api.getRequired m).isSome = true) ∧
    (∀ (W : World) (msg : String) (tr : List Event),
      (EnsureLoaded W api msg tr).ok = true →
      (EnsureLoaded W api msg tr).api.loaded_ = true ∧
      (EnsureLoaded W api msg tr).api.module_.isSome = true ∧
      ∀ m : Required, ((EnsureLoaded W api msg tr).api.getRequired m).isSome = true) ∧
    (∀ (W : World) (info : CallbackInfo) (f : Fault),
      (SearchWindows W api info).outcome ≠ .fault f) := by
  have hstep : ∀ (W : World) (msg : String) (tr : List Event),
      (EnsureLoaded W api msg tr).ok = true →
      (EnsureLoaded W api msg tr).api.loaded_ = true ∧
      (EnsureLoaded W api msg tr).api.module_.isSome = true ∧
      requiredResolved (EnsureLoaded W api msg tr).api := by
    intro W msg tr hok
    have hl := EnsureLoaded_ok_loaded W api msg tr hok
    have hinv := (Reachable_invariant _ (Reachable.step W msg tr hreach)).1 hl
    exact ⟨hl, hinv.1, hinv.2⟩
  refine ⟨(Reachable_invariant api hreach).1, hstep, ?_⟩
  intro W info f
  unfold SearchWindows
  split
  · intro h; cases h
  · simp only
    split
    · intro h; cases h
    · split
      · intro h; cases h
      · rename_i hok
        have hok2 : (EnsureLoaded W api "" []).ok = true := by simpa using hok
        split
        · intro h; cases h
        · obtain ⟨-, -, hreq⟩ := hstep W "" [] hok2
          obtain ⟨s1, s2⟩ := executeQuery_spec W (EnsureLoaded W api "" []).api
            (ParseSearchOptions info {}) (Utf8ToWide W (info.arg 0).Utf8Value)
            (EnsureLoaded W api "" []).trace hreq
          by_cases hz : W.QueryW ((EnsureLoaded W api "" []).trace ++
              specConfigCalls (EnsureLoaded W api "" []).api (ParseSearchOptions info {})
                (Utf8ToWide W (info.arg 0).Utf8Value)) true = 0
          · rw [s1 hz]
            intro h; cases h
          · obtain ⟨items, rest, e1, -⟩ := s2 hz
            rw [e1]
            intro h; cases h

/-- Witness for C17: the resolver loaded in `worldGood` is reachable, is loaded, holds
module 7 and has its nine required pointers. -/
theorem Reachable_required_resolved_witness :
    Reachable apiGood ∧ apiGood.loaded_ = true ∧ apiGood.module_ = some 7 ∧
    (apiGood.module_.isSome = true ∧ ∀ m : Required, (apiGood.getRequired m).isSome = true) :=
  ⟨Reachable.step worldGood "" [] Reachable.init, by decide, by decide,
   (Reachable_required_resolved apiGood (Reachable.step worldGood "" [] Reachable.init)).1
    (by decide)⟩

end Everything
